import Mathlib

/-! # Session gateway of lfsx-web: a shallow embedding and its properties

The definitions below follow the Go sources of the controller
(`internal/models/user.go`, `internal/api/vnc_proxy/{peer,peer_lfsx,proxy,ping}.go`,
`internal/kuber/pods.go`).

Conventions of the embedding

* A Go byte slice is a list of naturals below 256 (`Bytes`).
* Sockets are identified by a number (`Conn`); every call made on a socket is
  recorded as an `Event`, in program order.  A call is recorded whether or not
  the socket reports an error, because the Go code only logs such errors.
* A nil pointer is `none`.
* A message handler that the Go runtime would abort with a nil dereference returns
  `none`; in `peer.Close` the abort is the event `Event.nilDereference`, after which
  nothing is executed.
* `sync.RWMutex` is part of the state.  Only one goroutine is followed, so a
  `Lock` on a mutex that this goroutine already holds never returns; this is the
  outcome `Outcome.blocked`.
-/

namespace LfsxWeb

/-! ## Basic data -/

/-- Go byte slice. -/
abbrev Bytes := List Nat

/-- Identity of a socket (a `*websocket.Conn`, a `net.Conn`) or of a channel. -/
abbrev Conn := Nat

/-- The bytes of a Go string (UTF-8). -/
def stringBytes (s : String) : Bytes :=
  (s.data.flatMap String.utf8EncodeChar).map UInt8.toNat

/-- Go `strings.ToLower`.  The embedding lower-cases the ASCII letters; Go also maps the
upper-case letters outside ASCII. -/
def strings_ToLower (s : String) : String :=
  String.mk (s.data.map Char.toLower)

/-- Go `bytes.HasPrefix`. -/
def bytes_HasPrefix (s pre : Bytes) : Bool :=
  pre.isPrefixOf s

/-! ## models/user.go -/

/-- The database enumeration of `models/user.go`. -/
inductive Database where
  | Unknown
  | PRJ
  | MIG
  | LFS
deriving DecidableEq, Repr

/-- Function `Database.String` of the source. -/
def Database.String : Database → String
  | .PRJ => "PRJ"
  | .MIG => "MIG"
  | .LFS => "LFS"
  | .Unknown => "unknown"

/-- The authenticated user of `models/user.go`. -/
structure User where
  Username : String
  Database : Database
  DatabaseStr : String
  DbPassword : String
  DbUser : String
  Workplace : String
  Expiration : Int
deriving DecidableEq, Repr

/-- Function `User.Identifier`: the user's login and the selected database, in lower case. -/
def User.Identifier (u : User) : String :=
  strings_ToLower (u.DbUser ++ "-" ++ u.Database.String)

/-- An error of `go-webserver/errors` (`errors.NewError(message, status)`). -/
structure HttpError where
  message : String
  status : Nat
deriving DecidableEq, Repr

/-! ## models/lfs_websocket.go -/

/-- The login request carried by a control message. -/
structure LoginRequest where
  Username : String
  Password : String
  Db : String
deriving DecidableEq, Repr

/-- One inner message of a control envelope; `type` is the field `Type` of the source. -/
structure WebSocketMessage where
  type : String
  LoginRequest : Option LoginRequest
deriving DecidableEq, Repr

/-- The control envelope `WebSocketData`. -/
structure WebSocketData where
  ID : Int
  ResponseTo : Int
  Messages : List WebSocketMessage
deriving DecidableEq, Repr

/-- The update handed to observers (`peer_lfsx.go`). -/
structure Update where
  Message : WebSocketMessage
  ID : Int
  ResponseTo : Int
  FromLfsx : Bool
deriving DecidableEq, Repr

/-! ## Effects -/

/-- WebSocket message types used by the gateway. -/
inductive MessageType where
  | TextMessage
  | BinaryMessage
  | CloseMessage
  | PingMessage
  | PongMessage
deriving DecidableEq, Repr

/-- Calls made by the control peer (`lfsxPeer`). -/
inductive LfsxEvent where
  /-- Call `c.WriteMessage(mt, data)` on a WebSocket. -/
  | wsWriteMessage (c : Conn) (mt : MessageType) (data : Bytes)
  /-- Call `c.Close()` on a WebSocket. -/
  | wsClose (c : Conn)
  /-- Call `p.cancelContext()`. -/
  | cancelContext
  /-- Statement `go func(c chan Update) { c <- msg }(obs)`: a send started on channel `c`. -/
  | send (c : Conn) (msg : Update)
deriving DecidableEq, Repr

/-- Calls made by the backend peer (`peer`). -/
inductive Event where
  /-- Call `c.WriteMessage(mt, data)` on the client WebSocket. -/
  | wsWriteMessage (c : Conn) (mt : MessageType) (data : Bytes)
  /-- Call `c.Close()` on the client WebSocket. -/
  | wsClose (c : Conn)
  /-- Call `c.Write(data)` on a `net.Conn`. -/
  | connWrite (c : Conn) (data : Bytes)
  /-- Call `c.Close()` on a `net.Conn`. -/
  | connClose (c : Conn)
  /-- Call `w.Write(data)` on the guacd writer. -/
  | writerWrite (w : Conn) (data : Bytes)
  /-- Call `time.Sleep(400 * time.Millisecond)`. -/
  | sleep400ms
  /-- A call made by the control peer of this peer. -/
  | lfsx (e : LfsxEvent)
  /-- Call `p.onDisconnect(p, err, fromWhich)`. -/
  | onDisconnect (err : Option String) (fromWhich : Int)
  /-- A method called on a nil `*nbio.Conn`, which dereferences its receiver: the goroutine
  panics and executes nothing after it. -/
  | nilDereference
deriving DecidableEq, Repr

/-- The payload of the CLOSE frame: `binary.BigEndian.PutUint16(codeBytes, 1008)` followed by
`append(codeBytes, err.Error()...)`. -/
def closeFramePayload (errText : String) : Bytes :=
  [(1008 / 256) % 256, 1008 % 256] ++ stringBytes errText

/-! ## peer_lfsx.go -/

/-- The control peer.  `contextDone` is `p.baseContext.Err() != nil`. -/
structure lfsxPeer where
  source : Option Conn
  target : Option Conn
  ready : Bool
  wasIntentiallyClosed : Bool
  contextDone : Bool
  observers : List Conn
deriving DecidableEq, Repr

/-- Function `lfsxPeer.Close(err, fromWhich)`. -/
def lfsxPeer.Close (p : lfsxPeer) (err : Option String) (fromWhich : Int) :
    lfsxPeer × List LfsxEvent :=
  if p.wasIntentiallyClosed || p.contextDone then
    (p, [])
  else
    let p1 := { p with wasIntentiallyClosed := true }
    let evSource : List LfsxEvent :=
      match p1.source with
      | some s =>
        if fromWhich ≠ 1 then
          (match err with
           | some e => [LfsxEvent.wsWriteMessage s MessageType.CloseMessage (closeFramePayload e)]
           | none => []) ++ [LfsxEvent.wsClose s]
        else []
      | none => []
    let evTarget : List LfsxEvent :=
      match p1.target with
      | some t => if fromWhich ≠ 2 then [LfsxEvent.wsClose t] else []
      | none => []
    ({ p1 with contextDone := true }, evSource ++ evTarget ++ [LfsxEvent.cancelContext])

/-- Function `lfsxPeer.notifyForUpdates(fromLfsx, data)`: the sends it starts, observer by
observer and, for one observer, message by message. -/
def lfsxPeer.notifyForUpdates (p : lfsxPeer) (fromLfsx : Bool) (data : WebSocketData) :
    List LfsxEvent :=
  p.observers.flatMap fun obs =>
    data.Messages.map fun m =>
      LfsxEvent.send obs
        { Message := m, FromLfsx := fromLfsx, ID := data.ID, ResponseTo := data.ResponseTo }

/-- Function `lfsxPeer.OnSourceMessage(c, messageType, data)`: a message of the client.
`unmarshal` is `json.Unmarshal` into a `WebSocketData` (`none` when it reports an error). -/
def lfsxPeer.OnSourceMessage (unmarshal : Bytes → Option WebSocketData) (p : lfsxPeer)
    (data : Bytes) : List LfsxEvent :=
  match unmarshal data with
  | none => []
  | some wsData =>
    p.notifyForUpdates false wsData ++
      (if !p.ready || p.target.isNone then []
       else
         match p.target with
         | some t => [LfsxEvent.wsWriteMessage t MessageType.TextMessage data]
         | none => [])

/-- Function `lfsxPeer.OnTargetMessage(c, messageType, data)`: a message of the pod. -/
def lfsxPeer.OnTargetMessage (unmarshal : Bytes → Option WebSocketData) (p : lfsxPeer)
    (data : Bytes) : List LfsxEvent :=
  match unmarshal data with
  | none => []
  | some wsData =>
    p.notifyForUpdates true wsData ++
      (if !p.ready || p.source.isNone then []
       else
         match p.source with
         | some s => [LfsxEvent.wsWriteMessage s MessageType.TextMessage data]
         | none => [])

/-! ## peer.go -/

/-- The struct `Guacamole` of `guacamole.go`; `Writer` is nil until the pump goroutine of
`proxyGuacamole` has acquired it. -/
structure Guacamole where
  Used : Bool
  Writer : Option Conn
deriving DecidableEq, Repr

/-- A value of the interface type `net.Conn` as the field `target` holds it: the nil
interface, or a `*nbio.Conn`, which may be the nil pointer.  An interface that holds a nil
pointer is not equal to nil in Go. -/
inductive NetConn where
  | nilInterface
  | ptr (c : Option Conn)
deriving DecidableEq, Repr

/-- The backend peer.  `target` is the VNC connection of a raw session and
`targetGuacamole` the guacd connection of a Guacamole session. -/
structure peer where
  source : Option Conn
  target : NetConn
  targetGuacamole : Option Conn
  user : User
  lfsxPeer : Option lfsxPeer
  guacamole : Guacamole
  ready : Bool
  closed : Bool
  lfsxAPI : Option Nat
  hostAPI : Option Nat
deriving DecidableEq, Repr

/-- Function `NewPeer(user, onDisconnect)`. -/
def NewPeer (user : User) : peer :=
  { source := none, target := NetConn.nilInterface, targetGuacamole := none, user := user,
    lfsxPeer := none,
    guacamole := { Used := false, Writer := none }, ready := false, closed := false,
    lfsxAPI := none, hostAPI := none }

/-- Function `peer.SetConnections`.  The parameter `target` is a `*nbio.Conn`; the assignment
`p.target = target` stores it in the interface field, also when it is nil (as it is for a
Guacamole session). -/
def peer.SetConnections (p : peer) (source target targetGuacamole : Option Conn)
    (lfsx hostAPI : Option Nat) : peer :=
  { p with source := source, target := NetConn.ptr target, lfsxAPI := lfsx, hostAPI := hostAPI,
           targetGuacamole := targetGuacamole, ready := true }

/-- Constant `InternalDataOpcode = ""`. -/
def InternalDataOpcode : String := ""

/-- Variable `internalOpcodeIns = []byte(fmt.Sprint(len(InternalDataOpcode), ".", InternalDataOpcode))`,
the bytes of `0.`. -/
def internalOpcodeIns : Bytes :=
  stringBytes (toString InternalDataOpcode.length ++ "." ++ InternalDataOpcode)

/-- The wait loop of `peer.Close` (lines 134-149), for a `ready` flag that keeps its value:
`fuel` bounds the iterations, `i` is the loop counter.  Returns the final counter and the
sleeps. -/
def peer.closeWaitLoop (ready : Bool) : Nat → Nat → Nat × List Event
  | 0, i => (i, [])
  | fuel + 1, i =>
    if !ready then
      if i > 50 then (i, [Event.sleep400ms])
      else
        let r := peer.closeWaitLoop ready fuel (i + 1)
        (r.1, Event.sleep400ms :: r.2)
    else (i, [])

/-- The block of `peer.Close` that closes the control peer (lines 155-161): the control peer
afterwards and the calls made. -/
def peer.closeLfsx (p : peer) (err : Option String) : Option LfsxWeb.lfsxPeer × List Event :=
  match p.lfsxPeer with
  | some l =>
    let r := l.Close err 0
    (some r.1, r.2.map Event.lfsx)
  | none => (none, [])

/-- The block of `peer.Close` that closes the client WebSocket (lines 163-174). -/
def peer.closeSource (p : peer) (err : Option String) (fromWhich : Int) : List Event :=
  match p.source with
  | some s =>
    if fromWhich ≠ 1 then
      (match err with
       | some e => [Event.wsWriteMessage s MessageType.CloseMessage (closeFramePayload e)]
       | none => []) ++ [Event.wsClose s]
    else []
  | none => []

/-- The block of `peer.Close` that closes the VNC backend connection (lines 176-179); `none`
when `Close` is called on a nil `*nbio.Conn`. -/
def peer.closeTarget (p : peer) (fromWhich : Int) : Option (List Event) :=
  match p.target with
  | .nilInterface => some []
  | .ptr c =>
    if fromWhich ≠ 2 ∧ !p.guacamole.Used then
      match c with
      | some t => some [Event.connClose t]
      | none => none
    else some []

/-- The block of `peer.Close` that closes the guacd connection (lines 181-184). -/
def peer.closeGuacamole (p : peer) (fromWhich : Int) : List Event :=
  match p.targetGuacamole with
  | some g => if fromWhich ≠ 2 then [Event.connClose g] else []
  | none => []

/-- Function `peer.Close(err, fromWhich)`.  The last event is the call of the disconnect
callback, or the nil dereference at which the call was aborted. -/
def peer.Close (p : peer) (err : Option String) (fromWhich : Int) : peer × List Event :=
  if p.closed then
    (p, [])
  else
    let p1 := { p with closed := true }
    let evWait := (peer.closeWaitLoop p1.ready 52 0).2
    let l := p1.closeLfsx err
    let p2 := { p1 with lfsxPeer := l.1 }
    match p2.closeTarget fromWhich with
    | none => (p2, evWait ++ l.2 ++ p2.closeSource err fromWhich ++ [Event.nilDereference])
    | some evTarget =>
      (p2, evWait ++ l.2 ++ p2.closeSource err fromWhich ++ evTarget ++
            p2.closeGuacamole fromWhich ++ [Event.onDisconnect err fromWhich])

/-- Consecutive calls of `peer.Close` on one peer, each with its own error and originator. -/
def peer.CloseCalls (p : peer) : List (Option String × Int) → peer × List Event
  | [] => (p, [])
  | (err, fromWhich) :: rest =>
    let r := p.Close err fromWhich
    let r2 := peer.CloseCalls r.1 rest
    (r2.1, r.2 ++ r2.2)

/-- Function `peer.OnSourceMessage(c, messageType, data)`: a frame of the client
(WebSocket => TCP).  `none` is a nil dereference (`p.target` holds no connection, or the guacd
writer is nil). -/
def peer.OnSourceMessage (p : peer) (data : Bytes) : Option (List Event) :=
  if !p.ready then some []
  else if p.guacamole.Used then
    if bytes_HasPrefix data internalOpcodeIns then some []
    else
      match p.guacamole.Writer with
      | some w => some [Event.writerWrite w data]
      | none => none
  else
    match p.target with
    | .ptr (some t) => some [Event.connWrite t data]
    | _ => none

/-- Function `peer.OnTargetMessage(c, data)`: a buffer of the VNC backend (TCP => WebSocket).
`none` is a nil dereference (`p.source` is nil). -/
def peer.OnTargetMessage (p : peer) (data : Bytes) : Option (List Event) :=
  if !p.ready then some []
  else
    match p.source with
    | some s => some [Event.wsWriteMessage s MessageType.BinaryMessage data]
    | none => none

/-- A handler applied to the messages of one direction, in arrival order; the events are
those of all the calls, in order. -/
def runHandler (h : Bytes → Option (List Event)) : List Bytes → Option (List Event)
  | [] => some []
  | d :: ds =>
    match h d with
    | none => none
    | some e =>
      match runHandler h ds with
      | none => none
      | some es => some (e ++ es)

/-! ## ping.go -/

/-- The keep-alive manager: the set of tracked WebSockets (`clients`). -/
structure ClientMgr where
  clients : List Conn
deriving DecidableEq, Repr

/-- Function `ClientMgr.Add(c)`. -/
def ClientMgr.Add (cm : ClientMgr) (c : Conn) : ClientMgr :=
  if c ∈ cm.clients then cm else { clients := cm.clients ++ [c] }

/-- Function `ClientMgr.Delete(c)`; deleting the nil key changes nothing. -/
def ClientMgr.Delete (cm : ClientMgr) (c : Option Conn) : ClientMgr :=
  match c with
  | some x => { clients := cm.clients.filter (fun y => y != x) }
  | none => cm

/-! ## proxy.go -/

/-- State of a `sync.RWMutex` as seen by the goroutine that is followed: whether it holds the
write lock and how many read locks it holds. -/
structure RWMutex where
  writer : Bool
  readers : Nat
deriving DecidableEq, Repr

/-- Method `Lock`: `none` when the lock is already held (the call never returns). -/
def RWMutex.Lock (m : RWMutex) : Option RWMutex :=
  if m.writer || m.readers > 0 then none else some { m with writer := true }

/-- Method `Unlock`. -/
def RWMutex.Unlock (m : RWMutex) : RWMutex :=
  { m with writer := false }

/-- Method `RLock`: `none` when the write lock is held (the call never returns). -/
def RWMutex.RLock (m : RWMutex) : Option RWMutex :=
  if m.writer then none else some { m with readers := m.readers + 1 }

/-- Method `RUnlock`. -/
def RWMutex.RUnlock (m : RWMutex) : RWMutex :=
  { m with readers := m.readers - 1 }

/-- A Go `map[string]*peer`: keys with the address of the peer stored under them. -/
abbrev PeerMap := List (String × Nat)

/-- Map lookup `m[key]`. -/
def PeerMap.get (m : PeerMap) (key : String) : Option Nat :=
  match m with
  | [] => none
  | (k, v) :: rest => if k = key then some v else PeerMap.get rest key

/-- Builtin `delete(m, key)`. -/
def PeerMap.delete (m : PeerMap) (key : String) : PeerMap :=
  m.filter (fun kv => kv.1 != key)

/-- Assignment `m[key] = v`. -/
def PeerMap.set (m : PeerMap) (key : String) (v : Nat) : PeerMap :=
  (key, v) :: PeerMap.delete m key

/-- The proxy `VncProxy`: the peers it created (`heap`, by address), the session registry
`peer` with its lock `peerSync`, the keep-alive manager, and the calls made so far. -/
structure VncProxy where
  heap : Nat → peer
  peer : PeerMap
  peerSync : RWMutex
  pingPongMgr : ClientMgr
  trace : List Event

/-- Result of a call on the proxy: it returned a value, it waits for ever on `peerSync`, or
it was aborted by a panic. -/
inductive Outcome (α : Type) where
  | returned (a : α) (vnc : VncProxy)
  | blocked (vnc : VncProxy)
  | panicked (vnc : VncProxy)

/-- The state in which the call ended. -/
def Outcome.state {α : Type} : Outcome α → VncProxy
  | .returned _ vnc => vnc
  | .blocked vnc => vnc
  | .panicked vnc => vnc

/-- The value returned, if the call returned. -/
def Outcome.value {α : Type} : Outcome α → Option α
  | .returned a _ => some a
  | .blocked _ => none
  | .panicked _ => none

/-- Whether the call waits for ever on `peerSync`. -/
def Outcome.isBlocked {α : Type} : Outcome α → Bool
  | .blocked _ => true
  | _ => false

/-- Function `VncProxy.IsUserConnected(user)`. -/
def VncProxy.IsUserConnected (vnc : VncProxy) (user : User) : Outcome Bool :=
  match vnc.peerSync.RLock with
  | none => .blocked vnc
  | some m =>
    let doesExist := (vnc.peer.get user.Identifier).isSome
    .returned doesExist { vnc with peerSync := m.RUnlock }

/-- Function `VncProxy.validateUserRequest(user)`. -/
def VncProxy.validateUserRequest (vnc : VncProxy) (user : User) : Outcome (Option HttpError) :=
  match vnc.IsUserConnected user with
  | .blocked v => .blocked v
  | .panicked v => .panicked v
  | .returned true v => .returned (some { message := "USER_ALREADY_EXISTS", status := 409 }) v
  | .returned false v => .returned none v

/-- Function `VncProxy.onPeerDisconnect(peer, err, fromWho)`; `ptr` is the address of the peer. -/
def VncProxy.onPeerDisconnect (vnc : VncProxy) (ptr : Nat) : Outcome Unit :=
  let vnc1 := { vnc with pingPongMgr := vnc.pingPongMgr.Delete (vnc.heap ptr).source }
  match vnc1.peerSync.Lock with
  | none => .blocked vnc1
  | some m =>
    .returned ()
      { vnc1 with peer := vnc1.peer.delete (vnc1.heap ptr).user.Identifier,
                  peerSync := m.Unlock }

/-- A call `peer.Close(err, fromWhich)` on the peer at address `ptr`, whose disconnect callback
is `vnc.onPeerDisconnect` (as set by `NewPeer(user, vnc.onPeerDisconnect)` in `Proxy`). -/
def VncProxy.peerClose (vnc : VncProxy) (ptr : Nat) (err : Option String) (fromWhich : Int) :
    Outcome Unit :=
  let r := (vnc.heap ptr).Close err fromWhich
  let vnc1 := { vnc with heap := Function.update vnc.heap ptr r.1, trace := vnc.trace ++ r.2 }
  if Event.onDisconnect err fromWhich ∈ r.2 then vnc1.onPeerDisconnect ptr
  else if Event.nilDereference ∈ r.2 then .panicked vnc1
  else .returned () vnc1

/-- The registration step of `VncProxy.Proxy` (lines 217-227), for the peer at address `ptr`
on which `SetConnections` has been called: from `vnc.peerSync.Lock()` to the release of the lock
by the deferred `Unlock` when `Proxy` returns or panics. -/
def VncProxy.Proxy_addToList (vnc : VncProxy) (ptr : Nat) : Outcome (Option HttpError) :=
  match vnc.peerSync.Lock with
  | none => .blocked vnc
  | some m =>
    let vnc1 := { vnc with peerSync := m }
    let key := (vnc1.heap ptr).user.Identifier
    match vnc1.peer.get key with
    | none =>
      .returned none { vnc1 with peer := vnc1.peer.set key ptr, peerSync := vnc1.peerSync.Unlock }
    | some _ =>
      match vnc1.peerClose ptr (some "USER_ALREADY_EXISTS") 0 with
      | .blocked v => .blocked v
      | .panicked v => .panicked { v with peerSync := v.peerSync.Unlock }
      | .returned _ v =>
        .returned (some { message := "USER_ALREADY_EXISTS", status := 409 })
          { v with peerSync := v.peerSync.Unlock }


/-! ## Guacamole instructions -/

/-- Modelled from the spec: an instruction of the Guacamole wire format handled by the codec
package `internal/guacamole`, which is not among the sources.  An instruction is its opcode
followed by its arguments. -/
structure Instruction where
  opcode : Bytes
  args : List Bytes
deriving DecidableEq, Repr

/-- The decimal digits of a number, as bytes (what `fmt.Sprint` prints for an `int`). -/
def decimalBytes (n : Nat) : Bytes :=
  (Nat.toDigits 10 n).map Char.toNat

/-- Modelled from the spec: one element of an instruction on the wire, "length-prefixed,
dot-separated": the decimal length, a dot (byte 46) and the value. -/
def encodeElement (e : Bytes) : Bytes :=
  decimalBytes e.length ++ [46] ++ e

/-- Modelled from the spec: the elements of an instruction separated by commas (byte 44). -/
def encodeElements : List Bytes → Bytes
  | [] => []
  | [e] => encodeElement e
  | e :: rest => encodeElement e ++ [44] ++ encodeElements rest

/-- Modelled from the spec: an instruction on the wire, "semicolon-terminated" (byte 59); the
opcode is the first element. -/
def encodeInstruction (i : Instruction) : Bytes :=
  encodeElements (i.opcode :: i.args) ++ [59]

/-- Modelled from the spec: a WebSocket frame that consists of the given instructions, one
after the other. -/
def encodeFrame (is : List Instruction) : Bytes :=
  is.flatMap encodeInstruction

/-! ## kuber/pods.go -/

deriving instance DecidableEq for Except

/-- A Go `map[string]string` of labels. -/
abbrev LabelSet := List (String × String)

/-- Map read `m[key]`: the empty string when the key is missing. -/
def LabelSet.get (m : LabelSet) (key : String) : String :=
  match m with
  | [] => ""
  | (k, v) :: rest => if k = key then v else LabelSet.get rest key

/-- Assignment `m[key] = v`. -/
def LabelSet.set (m : LabelSet) (key : String) (v : String) : LabelSet :=
  (key, v) :: m.filter (fun kv => kv.1 != key)

/-- The fields of a Kubernetes pod that the allocator reads. -/
structure Pod where
  Name : String
  Labels : LabelSet
  ResourceVersion : String
  PodIP : String
  Phase : String
  Conditions : List (String × String)
deriving DecidableEq, Repr

/-- The fields of a Kubernetes job that the allocator reads; the creation time is a number of
seconds. -/
structure Job where
  Name : String
  Labels : LabelSet
  ResourceVersion : String
  CreationTimestamp : Int
deriving DecidableEq, Repr

/-- The comparator that `createJobForUserAbstract` hands to `sort.Slice` (lines 111-113):
`jobs.Items[a].CreationTimestamp.Time.Before(jobs.Items[b].CreationTimestamp.Time)`. -/
def Job.Before (a b : Job) : Bool :=
  decide (a.CreationTimestamp < b.CreationTimestamp)

/-- Go `sort.Slice(jobs.Items, less)` with the comparator `Job.Before`, as an insertion sort:
a job is put in front of the first job that is not before it.  `sort.Slice` is not stable, so
it may leave jobs of equal creation time in another order than this one; the order of the
creation times is the same. -/
def sortSlice (items : List Job) : List Job :=
  List.insertionSort (fun a b => Job.Before b a = false) items

/-- The anonymous patch struct of `createJobForUserAbstract`:
`{"metadata": {"labels": ..., "resourceVersion": ...}}`. -/
structure LabelPatch where
  Labels : LabelSet
  ResourceVersion : String
deriving DecidableEq, Repr

/-- The struct `podCreateTemplateData`. -/
structure podCreateTemplateData where
  Username : String
  Db : String
  LfsServiceEndpoint : String
  LfsConfigDir : String
  Image : String
  BaseName : String
  Namespace : String
  IsPlaceholder : Bool
  ImageVersion : String
deriving DecidableEq, Repr

/-- A call of the cluster API together with what the cluster answered. -/
inductive ApiRecord where
  /-- Call `Pods(ns).List` with a label selector. -/
  | PodsList (sel : LabelSet) (res : Except String (List Pod))
  /-- Call `Jobs(ns).List` with a label selector. -/
  | JobsList (sel : LabelSet) (res : Except String (List Job))
  /-- Call `Jobs(ns).Patch(name, MergePatchType, patch)`; `err` is the error returned. -/
  | JobsPatch (name : String) (patch : LabelPatch) (err : Option String)
  /-- Call `Pods(ns).Patch(name, MergePatchType, patch)`. -/
  | PodsPatch (name : String) (patch : LabelPatch) (res : Except String Pod)
  /-- Call `Jobs(ns).Create` of the job rendered from the template data; `placeholder` is
  the label that `CreatePlaceholderJob` adds. -/
  | JobsCreate (data : podCreateTemplateData) (placeholder : Bool) (err : Option String)
  /-- Call `Pods(ns).Watch` with a label selector. -/
  | PodsWatch (sel : LabelSet) (res : Except String (List Pod))
deriving DecidableEq, Repr

/-- What the allocator does not define itself, over a state `σ` of the outside world: the
cluster API (any answer, any change of the world), the template renderer
(`getRessourceFromFile`, `none` when it succeeds) and `utils.GenerateRandomString(24)`.
`PodsWatch` answers with the pods that the watch delivers before the 10 s timeout. -/
structure Env (σ : Type) where
  PodsList : LabelSet → σ → Except String (List Pod) × σ
  JobsList : LabelSet → σ → Except String (List Job) × σ
  JobsPatch : String → LabelPatch → σ → Option String × σ
  PodsPatch : String → LabelPatch → σ → Except String Pod × σ
  JobsCreate : podCreateTemplateData → Bool → σ → Option String × σ
  PodsWatch : LabelSet → σ → Except String (List Pod) × σ
  getRessourceFromFile : podCreateTemplateData → Option String
  GenerateRandomString : σ → String × σ

/-- The struct `Kuber` with the values it reads from its configuration:
`appConfig.GetLfsImage()`, `appConfig.GetLfsImageVersion()` and
`utils.GetEnvString("BASE_APP_NAME", "lfsx-web")`. -/
structure Kuber (σ : Type) where
  Namespace : String
  Client : Env σ
  Production : Bool
  LfsServiceEndpoint : String
  LfsImage : String
  LfsImageVersion : String
  BaseAppName : String

/-- A goroutine started by the allocator. -/
inductive Task where
  /-- The task started after a claim (lines 178-190), with `len(jobs.Items)` as argument. -/
  | replacePlaceholders (numberOfPlaceholders : Nat)
  /-- The task started before a bespoke job is created (lines 206-212). -/
  | twoPlaceholders
deriving DecidableEq, Repr

/-- State of a run of the allocator: the outside world, the API calls made so far and the
goroutines started so far. -/
structure Run (σ : Type) where
  world : σ
  calls : List ApiRecord
  spawned : List Task
deriving DecidableEq

/-- The configuration directory chosen in `createJodForUser` and `CreatePlaceholderJob`. -/
def Kuber.lfsConfigDir {σ : Type} (k : Kuber σ) : String :=
  if k.Production then "/opt/lfs-user/config-prod" else "/opt/lfs-user/config-dev"

/-- The selector of the pods of a user in `findPodForUser` (lines 59-70). -/
def Kuber.userSelector {σ : Type} (k : Kuber σ) (user : User) : LabelSet :=
  [("app", k.BaseAppName ++ "-lfs"),
   ("db", strings_ToLower user.Database.String),
   ("user", strings_ToLower user.DbUser),
   ("placeholder", "false")]

/-- Function `Kuber.findPodForUser(user)`. -/
def Kuber.findPodForUser {σ : Type} (k : Kuber σ) (user : User) (st : Run σ) :
    Except String (Option Pod) × Run σ :=
  let sel := k.userSelector user
  let r := k.Client.PodsList sel st.world
  let st1 := { st with world := r.2, calls := st.calls ++ [ApiRecord.PodsList sel r.1] }
  match r.1 with
  | .error e => (.error ("failed to get available pods: " ++ e), st1)
  | .ok [] => (.ok none, st1)
  | .ok (p :: _) => (.ok (some p), st1)

/-- Function `Kuber.CreatePlaceholderJob()`: the error it returns. -/
def Kuber.CreatePlaceholderJob {σ : Type} (k : Kuber σ) (st : Run σ) : Option String × Run σ :=
  let g := k.Client.GenerateRandomString st.world
  let identifier := "p" ++ g.1 ++ "p"
  let data : podCreateTemplateData :=
    { Username := identifier, Db := "placeholder", LfsServiceEndpoint := k.LfsServiceEndpoint,
      LfsConfigDir := k.lfsConfigDir, Image := k.LfsImage, ImageVersion := k.LfsImageVersion,
      BaseName := k.BaseAppName, Namespace := k.Namespace, IsPlaceholder := true }
  let st1 := { st with world := g.2 }
  match k.Client.getRessourceFromFile data with
  | some e => (some e, st1)
  | none =>
    let r := k.Client.JobsCreate data true st1.world
    let st2 := { st1 with world := r.2, calls := st1.calls ++ [ApiRecord.JobsCreate data true r.1] }
    match r.1 with
    | some e => (some ("failed to create job: " ++ e), st2)
    | none => (none, st2)

/-- The goroutine of lines 178-190: what each call of `CreatePlaceholderJob` returned, in
order. -/
def Kuber.replacePlaceholders {σ : Type} (k : Kuber σ) (numberOfPlaceholders : Nat) (st : Run σ) :
    List (Option String) × Run σ :=
  let r1 := k.CreatePlaceholderJob st
  if numberOfPlaceholders < 2 then
    let r2 := k.CreatePlaceholderJob r1.2
    ([r1.1, r2.1], r2.2)
  else ([r1.1], r1.2)

/-- The goroutine of lines 206-212: `for i := 0; i < 2; i++ { k.CreatePlaceholderJob() }`. -/
def Kuber.twoPlaceholders {σ : Type} (k : Kuber σ) (st : Run σ) : List (Option String) × Run σ :=
  let r1 := k.CreatePlaceholderJob st
  let r2 := k.CreatePlaceholderJob r1.2
  ([r1.1, r2.1], r2.2)

/-- The loop over the watch events in `createJodForUser` (lines 286-306): the first pod that
is running with a `ContainersReady` condition of status `True`, else the timeout. -/
def Kuber.waitForPod : List Pod → Option Pod × Option String
  | [] => (none, some "timeout while waiting for pod readiness")
  | p :: rest =>
    if p.Phase = "Running" ∧ p.Conditions.any (fun a => a.1 == "ContainersReady" && a.2 == "True")
    then (some p, none)
    else Kuber.waitForPod rest

/-- Function `Kuber.createJodForUser(user)`. -/
def Kuber.createJodForUser {σ : Type} (k : Kuber σ) (user : User) (st : Run σ) :
    (Option Pod × Option String) × Run σ :=
  let data : podCreateTemplateData :=
    { Username := strings_ToLower user.DbUser, Db := strings_ToLower user.Database.String,
      LfsServiceEndpoint := k.LfsServiceEndpoint, LfsConfigDir := k.lfsConfigDir,
      Image := k.LfsImage, ImageVersion := k.LfsImageVersion, BaseName := k.BaseAppName,
      Namespace := k.Namespace, IsPlaceholder := false }
  match k.Client.getRessourceFromFile data with
  | some e => ((none, some e), st)
  | none =>
    let c := k.Client.JobsCreate data false st.world
    let st1 := { st with world := c.2, calls := st.calls ++ [ApiRecord.JobsCreate data false c.1] }
    match c.1 with
    | some e => ((none, some ("failed to create job: " ++ e)), st1)
    | none =>
      let sel : LabelSet :=
        [("db", strings_ToLower user.Database.String), ("user", strings_ToLower user.DbUser)]
      let w := k.Client.PodsWatch sel st1.world
      let st2 := { st1 with world := w.2, calls := st1.calls ++ [ApiRecord.PodsWatch sel w.1] }
      match w.1 with
      | .error e => ((none, some ("failed to wait for created pod: " ++ e)), st2)
      | .ok events => (Kuber.waitForPod events, st2)

/-- The labels that claim a placeholder for the user (lines 122-126). -/
def Kuber.claimLabels (user : User) : LabelSet :=
  [("db", strings_ToLower user.Database.String),
   ("user", strings_ToLower user.DbUser),
   ("placeholder", "false")]

/-- How the loop over the listed jobs ended: with a `return pod, err` inside the loop, or after
the last job without a return. -/
inductive LoopEnd (σ : Type) where
  | returned (pod : Option Pod) (err : Option String) (st : Run σ)
  | fellThrough (st : Run σ)
deriving DecidableEq

/-- The state in which the loop ended. -/
def LoopEnd.run {σ : Type} : LoopEnd σ → Run σ
  | .returned _ _ st => st
  | .fellThrough st => st

/-- The body of the loop for a job whose patch succeeded (lines 147-193): the pod of the job is
looked up and patched, and the replacement task is started. -/
def Kuber.claimPod {σ : Type} (k : Kuber σ) (user : User) (sel : LabelSet)
    (numberOfPlaceholders : Nat) (job : Job) (st : Run σ) : (Option Pod × Option String) × Run σ :=
  let identifier := job.Labels.get "user"
  let sel1 := sel.set "user" identifier
  let l := k.Client.PodsList sel1 st.world
  let st1 := { st with world := l.2, calls := st.calls ++ [ApiRecord.PodsList sel1 l.1] }
  match l.1 with
  | .error e => ((none, some ("failed to find pods: " ++ e)), st1)
  | .ok pods =>
    match pods with
    | [pod0] =>
      let patch : LabelPatch :=
        { Labels := Kuber.claimLabels user, ResourceVersion := pod0.ResourceVersion }
      let r := k.Client.PodsPatch pod0.Name patch st1.world
      let st2 :=
        { st1 with world := r.2, calls := st1.calls ++ [ApiRecord.PodsPatch pod0.Name patch r.1] }
      match r.1 with
      | .ok pod =>
        ((some pod, none),
          { st2 with spawned := st2.spawned ++ [Task.replacePlaceholders numberOfPlaceholders] })
      | .error e => ((none, some e), st2)
    | _ => ((none, some "found no pod for job identifier"), st1)

/-- The loop `for _, job := range jobs.Items` of `createJobForUserAbstract` (lines 129-197);
`numberOfPlaceholders` is `len(jobs.Items)`. -/
def Kuber.patchLoop {σ : Type} (k : Kuber σ) (user : User) (sel : LabelSet)
    (numberOfPlaceholders : Nat) : List Job → Run σ → LoopEnd σ
  | [], st => .fellThrough st
  | job :: rest, st =>
    let patch : LabelPatch :=
      { Labels := Kuber.claimLabels user, ResourceVersion := job.ResourceVersion }
    let r := k.Client.JobsPatch job.Name patch st.world
    let st1 := { st with world := r.2, calls := st.calls ++ [ApiRecord.JobsPatch job.Name patch r.1] }
    match r.1 with
    | none =>
      let c := k.claimPod user sel numberOfPlaceholders job st1
      .returned c.1.1 c.1.2 c.2
    | some _ => Kuber.patchLoop k user sel numberOfPlaceholders rest st1

/-- The selector of placeholder jobs (lines 93-99). -/
def Kuber.placeholderSelector {σ : Type} (k : Kuber σ) : LabelSet :=
  [("appGeneric", "lfs"), ("placeholder", "true"), ("imageVersion", k.LfsImageVersion)]

/-- Function `Kuber.createJobForUserAbstract(user)`; `fuel` bounds the iterations of the outer
`for` loop, and `none` is a run that needs more of them. -/
def Kuber.createJobForUserAbstract {σ : Type} (k : Kuber σ) (user : User) :
    Nat → Run σ → Option ((Option Pod × Option String) × Run σ)
  | 0, _ => none
  | fuel + 1, st =>
    let sel := k.placeholderSelector
    let l := k.Client.JobsList sel st.world
    let st1 := { st with world := l.2, calls := st.calls ++ [ApiRecord.JobsList sel l.1] }
    match l.1 with
    | .error e => some ((none, some ("failed to find placeholders: " ++ e)), st1)
    | .ok items =>
      let sorted := sortSlice items
      match k.patchLoop user sel sorted.length sorted st1 with
      | .returned pod err st2 => some ((pod, err), st2)
      | .fellThrough st2 =>
        if sorted.length = 0 then
          some (k.createJodForUser user { st2 with spawned := st2.spawned ++ [Task.twoPlaceholders] })
        else Kuber.createJobForUserAbstract k user fuel st2

/-- The three results of `GetPodByUser`. -/
structure PodResult where
  pod : Option Pod
  created : Bool
  err : Option String
deriving DecidableEq, Repr

/-- Function `Kuber.GetPodByUser(user)`; `fuel` and `none` as in `createJobForUserAbstract`. -/
def Kuber.GetPodByUser {σ : Type} (k : Kuber σ) (user : User) (fuel : Nat) (st : Run σ) :
    Option (PodResult × Run σ) :=
  match k.findPodForUser user st with
  | (.error e, st1) => some ({ pod := none, created := false, err := some e }, st1)
  | (.ok (some p), st1) => some ({ pod := some p, created := false, err := none }, st1)
  | (.ok none, st1) =>
    match k.createJobForUserAbstract user fuel st1 with
    | none => none
    | some (r, st2) => some ({ pod := r.1, created := true, err := r.2 }, st2)


/-! ## Readings of a trace -/

/-- Whether an event is a call of the disconnect callback. -/
def Event.isOnDisconnect : Event → Bool
  | .onDisconnect _ _ => true
  | _ => false

/-- The calls made by the control peer among the events of a peer, in order. -/
def lfsxEvents : List Event → List LfsxEvent
  | [] => []
  | .lfsx e :: rest => e :: lfsxEvents rest
  | _ :: rest => lfsxEvents rest

/-- The byte strings handed to `Write` of the connection `t`, in order. -/
def writtenTo (t : Conn) : List Event → List Bytes
  | [] => []
  | .connWrite c d :: rest => if c = t then d :: writtenTo t rest else writtenTo t rest
  | _ :: rest => writtenTo t rest

/-- The frames written to the WebSocket `s`, in order, with their message type. -/
def framesTo (s : Conn) : List Event → List (MessageType × Bytes)
  | [] => []
  | .wsWriteMessage c mt d :: rest =>
    if c = s then (mt, d) :: framesTo s rest else framesTo s rest
  | _ :: rest => framesTo s rest

/-- The update sent to the observer `o` by an event, if it is a send to `o`. -/
def LfsxEvent.sentTo (o : Conn) : LfsxEvent → Option Update
  | .send c u => if c = o then some u else none
  | _ => none

/-- Whether an event of the control peer is a send to an observer. -/
def LfsxEvent.isSend : LfsxEvent → Bool
  | .send _ _ => true
  | _ => false

/-- Whether an event of the control peer is a frame written to a socket. -/
def LfsxEvent.isWrite : LfsxEvent → Bool
  | .wsWriteMessage _ _ _ => true
  | _ => false

/-- The patches of jobs among the API calls, in order: job name, patch and whether the
cluster accepted it. -/
def jobPatches : List ApiRecord → List (String × LabelPatch × Bool)
  | [] => []
  | .JobsPatch name patch err :: rest => (name, patch, err.isNone) :: jobPatches rest
  | _ :: rest => jobPatches rest

/-- A user with login `ALICE` on the database `LFS`; her identifier is `alice-lfs`. -/
def alice : User :=
  { Username := "Alice", Database := .LFS, DatabaseStr := "LFS", DbPassword := "pw",
    DbUser := "ALICE", Workplace := "w", Expiration := 0 }

/-- A raw-mode peer of `alice` after `SetConnections`, with client socket `s` and VNC
connection `t`. -/
def rawPeer (s t : Conn) : peer :=
  (NewPeer alice).SetConnections (some s) (some t) none (some 0) (some 1)

/-- A proxy with two peers of `alice` that both passed the admission check: the peer at
address 1 (sockets 10 and 11) and the peer at every other address (sockets 20 and 21).  The
registry is empty and the lock is free. -/
def vncTwoPeers : VncProxy :=
  { heap := fun a => if a = 1 then rawPeer 10 11 else rawPeer 20 21,
    peer := [], peerSync := { writer := false, readers := 0 },
    pingPongMgr := { clients := [10, 20] }, trace := [] }

/-- The proxy after the registration step of the peer at address 1. -/
def vncWithAlice : VncProxy :=
  (vncTwoPeers.Proxy_addToList 1).state

/-- A Guacamole-mode peer of `alice` after `proxyGuacamole`: client socket 30, guacd
connection 31, guacd writer 32. -/
def guacPeer : peer :=
  { (NewPeer alice).SetConnections (some 30) none (some 31) (some 0) (some 1) with
    guacamole := { Used := true, Writer := some 32 } }

/-- A Guacamole-mode peer of `alice` as `Proxy` builds it with `SetConnections` (line 215),
before `proxyGuacamole` has run: client socket 30, a nil VNC connection, guacd connection
31. -/
def guacPeerBeforeProxy : peer :=
  (NewPeer alice).SetConnections (some 30) none (some 31) (some 0) (some 1)

/-- The instruction `4.sync,1.1;`. -/
def syncInstruction : Instruction :=
  { opcode := stringBytes "sync", args := [stringBytes "1"] }

/-- The instruction `0.,1.a;`, whose opcode is the empty string. -/
def internalInstruction : Instruction :=
  { opcode := [], args := [stringBytes "a"] }


/-- A control peer with observers 7 and 8, client socket 40 and pod socket 41. -/
def controlPeer : lfsxPeer :=
  { source := some 40, target := some 41, ready := true, wasIntentiallyClosed := false,
    contextDone := false, observers := [7, 8] }

/-- An envelope with two inner messages. -/
def startupEnvelope : WebSocketData :=
  { ID := 5, ResponseTo := 3,
    Messages := [{ type := "LfsStartup", LoginRequest := none },
                 { type := "Other", LoginRequest := none }] }

/-- An unmarshaller that accepts the message `{}` only, as the envelope without messages. -/
def onlyEmptyObject (raw : Bytes) : Option WebSocketData :=
  if raw = stringBytes "\x7b\x7d" then some { ID := 0, ResponseTo := 0, Messages := [] } else none

/-- The placeholder job number `i` of the example cluster, created at time `i`. -/
def placeholderJob (i : Nat) : Job :=
  { Name := "placeholder-" ++ toString i,
    Labels := [("user", "p" ++ toString i ++ "p"), ("placeholder", "true")],
    ResourceVersion := toString (100 + i), CreationTimestamp := i }

/-- The pod of the example cluster that carries the given `user` label. -/
def placeholderPod (userLabel : String) : Pod :=
  { Name := "pod-" ++ userLabel, Labels := [("user", userLabel)], ResourceVersion := "7",
    PodIP := "10.0.0.1", Phase := "Running", Conditions := [("ContainersReady", "True")] }

/-- An example cluster whose state is the number `w` of placeholder jobs.  Jobs are listed
newest first; listing the pods of a user answers `userPods`, any other pod listing answers the
one pod with the requested `user` label; a job patch fails for the job names in `stale` and
otherwise takes the job out of the pool; creating a placeholder job adds one to the pool. -/
def exampleEnv (userPods : List Pod) (stale : List String) : Env Nat :=
  { PodsList := fun sel w =>
      if sel.get "placeholder" = "false" then (.ok userPods, w)
      else (.ok [placeholderPod (sel.get "user")], w),
    JobsList := fun _ w => (.ok ((List.range w).reverse.map placeholderJob), w),
    JobsPatch := fun name _ w => if name ∈ stale then (some "conflict", w) else (none, w - 1),
    PodsPatch := fun name patch w =>
      (.ok { placeholderPod (patch.Labels.get "user") with Name := name, Labels := patch.Labels },
       w),
    JobsCreate := fun _ placeholder w => (none, if placeholder then w + 1 else w),
    PodsWatch := fun _ w => (.ok [], w),
    getRessourceFromFile := fun _ => none,
    GenerateRandomString := fun w => ("r", w) }

/-- An allocator on the example cluster. -/
def exampleKuber (userPods : List Pod) (stale : List String) : Kuber Nat :=
  { Namespace := "ns", Client := exampleEnv userPods stale, Production := false,
    LfsServiceEndpoint := "svc", LfsImage := "registry/lfs:1.2", LfsImageVersion := "1.2",
    BaseAppName := "lfsx-web" }

/-- A run that starts on a pool of `w` placeholders. -/
def runOn (w : Nat) : Run Nat :=
  { world := w, calls := [], spawned := [] }

/-! ## models/user.go and jwto/jwt.go: the user of a token -/

/-- Function `NewDatabase(name)`. -/
def NewDatabase (name : String) : Database :=
  if strings_ToLower name = "lfsprj" then Database.PRJ
  else if strings_ToLower name = "lfsmig" then Database.MIG
  else if strings_ToLower name = "lfs" then Database.LFS
  else Database.MIG

/-- The struct `Claims` of `jwto/jwt.go`, without the registered claims of the JWT library. -/
structure Claims where
  Username : String
  Database : String
  DbPassword : String
  DbUser : String
  Workplace : String
  Expiration : Int
deriving DecidableEq, Repr

/-- Function `Claims.ToUser(key)`.  `decrypt` is the function `decrypt` of `jwt.go` with the
AES cipher made from the key (base64 and AES-GCM; it returns the empty string when it fails),
and `cipherErr` is the error of `aes.NewCipher`. -/
def Claims.ToUser (decrypt : String → String) (cipherErr : Option String) (c : Claims) :
    Except String User :=
  match cipherErr with
  | some e => .error e
  | none =>
    .ok { Username := c.Username,
          DbPassword := decrypt c.DbPassword,
          DbUser := decrypt c.DbUser,
          DatabaseStr := decrypt c.Database,
          Workplace := decrypt c.Workplace,
          Expiration := c.Expiration,
          Database := NewDatabase (decrypt c.Database) }

/-! ## proxy.go: the HTTP reverse proxies -/

/-- Go `strings.EqualFold`: equality under case folding.  The embedding folds the ASCII
letters. -/
def strings_EqualFold (s t : String) : Bool :=
  strings_ToLower s == strings_ToLower t

/-- The parts of an `http.Request` that the gateway reads: the method, `URL.Path`, the header
values by canonical header name and the cookie values by cookie name. -/
structure Request where
  Method : String
  Path : String
  Header : LabelSet
  Cookies : List (String × String)
deriving DecidableEq, Repr

/-- What a proxy call did: the error it returned, and the reverse proxy whose `ServeHTTP` it
called with the request, if it called one. -/
structure ProxyDispatch where
  err : Option HttpError
  served : Option Nat
deriving DecidableEq, Repr

/-- Function `VncProxy.ProxyLfsxRequest(user, response, request)`.  The read lock is released
by the deferred `RUnlock`; `ServeHTTP` on a nil `*httputil.ReverseProxy` is a panic. -/
def VncProxy.ProxyLfsxRequest (vnc : VncProxy) (user : User) (request : Request) :
    Outcome ProxyDispatch :=
  match vnc.peerSync.RLock with
  | none => .blocked vnc
  | some m =>
    let done : VncProxy := { vnc with peerSync := m.RUnlock }
    match vnc.peer.get user.Identifier with
    | some ptr =>
      let requestedDb := request.Header.get "Db"
      if requestedDb ≠ "" ∧ !strings_EqualFold requestedDb (vnc.heap ptr).user.DatabaseStr then
        .returned
          { err := some { message := "Database missmatch between VNC db and requested db",
                          status := 409 },
            served := none } done
      else
        match (vnc.heap ptr).lfsxAPI with
        | some a => .returned { err := none, served := some a } done
        | none => .panicked done
    | none =>
      .returned
        { err := some { message := "User is not connected to a LFS.X instance", status := 421 },
          served := none } done

/-- Function `VncProxy.ProxyHostRequest(user, response, request)`. -/
def VncProxy.ProxyHostRequest (vnc : VncProxy) (user : User) (_request : Request) :
    Outcome ProxyDispatch :=
  match vnc.peerSync.RLock with
  | none => .blocked vnc
  | some m =>
    let done : VncProxy := { vnc with peerSync := m.RUnlock }
    match vnc.peer.get user.Identifier with
    | some ptr =>
      match (vnc.heap ptr).hostAPI with
      | some a => .returned { err := none, served := some a } done
      | none => .panicked done
    | none =>
      .returned
        { err := some { message := "User is not connected to an LFS.X instance", status := 421 },
          served := none } done

/-- The call `peer.SetConnections(...)` of `Proxy` (line 215) on the peer at address `ptr`. -/
def VncProxy.Proxy_setConnections (vnc : VncProxy) (ptr : Nat)
    (source target targetGuacamole : Option Conn) (lfsx hostAPI : Option Nat) : VncProxy :=
  { vnc with
    heap := Function.update vnc.heap ptr
      ((vnc.heap ptr).SetConnections source target targetGuacamole lfsx hostAPI) }

/-- One step of the proxy on its peers and its registry: every statement of the package that
writes a field of a peer or the registry, and the calls that read the registry. -/
inductive VncProxy.Step : VncProxy → VncProxy → Prop where
  /-- Statement `peer := NewPeer(user, vnc.onPeerDisconnect)`: a peer at an address that the
  registry does not hold. -/
  | newPeer (vnc : VncProxy) (ptr : Nat) (user : User)
      (hfresh : ∀ key, vnc.peer.get key ≠ some ptr) :
      VncProxy.Step vnc { vnc with heap := Function.update vnc.heap ptr (NewPeer user) }
  /-- Statement `peer.lfsxPeer = hostPeer` (line 183), and any change of the control peer. -/
  | setLfsxPeer (vnc : VncProxy) (ptr : Nat) (l : lfsxPeer) :
      VncProxy.Step vnc
        { vnc with heap := Function.update vnc.heap ptr { vnc.heap ptr with lfsxPeer := some l } }
  /-- Function `proxyGuacamole`: the writes to `p.guacamole`. -/
  | setGuacamole (vnc : VncProxy) (ptr : Nat) (g : Guacamole) :
      VncProxy.Step vnc
        { vnc with heap := Function.update vnc.heap ptr { vnc.heap ptr with guacamole := g } }
  /-- Lines 214-227 of `Proxy`: `SetConnections`, then the registration step. -/
  | register (vnc : VncProxy) (ptr : Nat) (source target targetGuacamole : Option Conn)
      (lfsx hostAPI : Option Nat) :
      VncProxy.Step vnc
        ((vnc.Proxy_setConnections ptr source target targetGuacamole lfsx hostAPI).Proxy_addToList
          ptr).state
  /-- A call `peer.Close(err, fromWhich)`. -/
  | close (vnc : VncProxy) (ptr : Nat) (err : Option String) (fromWhich : Int) :
      VncProxy.Step vnc (vnc.peerClose ptr err fromWhich).state
  /-- A call `pingPongMgr.Add(c)` (line 134, and the control peer for its sockets). -/
  | pingAdd (vnc : VncProxy) (c : Conn) :
      VncProxy.Step vnc { vnc with pingPongMgr := vnc.pingPongMgr.Add c }
  /-- A call `pingPong.Delete(c)` by a handler of the control peer. -/
  | pingDelete (vnc : VncProxy) (c : Option Conn) :
      VncProxy.Step vnc { vnc with pingPongMgr := vnc.pingPongMgr.Delete c }
  /-- A call `validateUserRequest(user)`. -/
  | validate (vnc : VncProxy) (user : User) :
      VncProxy.Step vnc (vnc.validateUserRequest user).state
  /-- A call `ProxyLfsxRequest(user, response, request)`. -/
  | proxyLfsx (vnc : VncProxy) (user : User) (request : Request) :
      VncProxy.Step vnc (vnc.ProxyLfsxRequest user request).state
  /-- A call `ProxyHostRequest(user, response, request)`. -/
  | proxyHost (vnc : VncProxy) (user : User) (request : Request) :
      VncProxy.Step vnc (vnc.ProxyHostRequest user request).state

/-- The states of the proxy that can be reached from a state with an empty registry (as
`NewVncProxy` makes it: `peer: make(map[string]*peer)`). -/
inductive VncProxy.Reachable : VncProxy → Prop where
  | init (vnc : VncProxy) (hempty : vnc.peer = []) : VncProxy.Reachable vnc
  | step (a b : VncProxy) (ha : VncProxy.Reachable a) (hstep : VncProxy.Step a b) :
      VncProxy.Reachable b

/-- Every peer that the registry holds has `ready` set. -/
def VncProxy.registryReady (vnc : VncProxy) : Prop :=
  ∀ key ptr, vnc.peer.get key = some ptr → (vnc.heap ptr).ready = true

/-- The claims of a token whose database field decrypts to `lfsprj`. -/
def claimsPrj : Claims :=
  { Username := "Bob", Database := "lfsprj", DbPassword := "pw", DbUser := "BOB",
    Workplace := "w", Expiration := 0 }

/-- The user of `claimsPrj`, for a `decrypt` that returns its argument. -/
def bob : User :=
  { Username := "Bob", Database := Database.PRJ, DatabaseStr := "lfsprj", DbPassword := "pw",
    DbUser := "BOB", Workplace := "w", Expiration := 0 }

/-- A proxy whose registry holds one ready session of `bob`, at address 1, with the
application proxy 5 and the host proxy 6. -/
def vncWithBob : VncProxy :=
  { heap := fun _ => (NewPeer bob).SetConnections (some 10) (some 11) none (some 5) (some 6),
    peer := [("bob-prj", 1)], peerSync := { writer := false, readers := 0 },
    pingPongMgr := { clients := [10] }, trace := [] }

/-- A request `GET /x` with the given value of the header `Db`. -/
def requestWithDb (db : String) : Request :=
  { Method := "GET", Path := "/x", Header := [("Db", db)], Cookies := [] }

/-- The proxy after lines 214-227 of `Proxy` for the peer at address 1 of `vncTwoPeers`. -/
def vncRegistered : VncProxy :=
  ((vncTwoPeers.Proxy_setConnections 1 (some 10) (some 11) none (some 0) (some 1)).Proxy_addToList
    1).state

/-! ## Readings of a trace: the calls on one WebSocket -/

/-- Whether an event of a peer is a call (`WriteMessage` or `Close`) on the WebSocket `s`. -/
def Event.isOn (s : Conn) : Event → Bool
  | .wsWriteMessage c _ _ => decide (c = s)
  | .wsClose c => decide (c = s)
  | _ => false

/-- The calls on the WebSocket `s` among the events of a peer, in order. -/
def callsOn (s : Conn) (ev : List Event) : List Event :=
  ev.filter (Event.isOn s)

/-- Whether an event of a control peer is a call (`WriteMessage` or `Close`) on the
WebSocket `s`. -/
def LfsxEvent.isOn (s : Conn) : LfsxEvent → Bool
  | .wsWriteMessage c _ _ => decide (c = s)
  | .wsClose c => decide (c = s)
  | _ => false

/-- The calls on the WebSocket `s` among the events of a control peer, in order. -/
def lfsxCallsOn (s : Conn) (ev : List LfsxEvent) : List LfsxEvent :=
  ev.filter (LfsxEvent.isOn s)

/-! ## proxy.go: the wait for the startup of the pod -/

/-- How the `select` of `Proxy` (lines 194-202) ended. -/
inductive StartupWait where
  /-- Case `<-time.After(20 * time.Second)`. -/
  | timedOut
  /-- Case `up := <-updateChan`; `logged` tells whether the debug message about an
  unexpected message type was written. -/
  | received (up : Update) (logged : Bool)
deriving DecidableEq, Repr

/-- The `select` of `Proxy` (lines 194-202).  `first` is the first update offered on
`updateChan`, with the milliseconds between the start of the `select` and the offer;
`timerFirst` is the choice of the runtime when both channels are ready at once.  The result
is the case that ran and the milliseconds the `select` waited.  Neither case returns from
`Proxy`: the statement after the `select` (line 205) runs next. -/
def Proxy_startupSelect (first : Option (Nat × Update)) (timerFirst : Bool) :
    StartupWait × Nat :=
  match first with
  | none => (StartupWait.timedOut, 20000)
  | some (t, up) =>
    if t < 20000 ∨ (t = 20000 ∧ timerFirst = false) then
      (StartupWait.received up (up.Message.type != "LfsStartup"), t)
    else (StartupWait.timedOut, 20000)

/-- An update whose inner message has the type `Other`. -/
def otherUpdate : Update :=
  { Message := { type := "Other", LoginRequest := none }, ID := 1, ResponseTo := 0,
    FromLfsx := true }

/-! ## ping.go: one keep-alive sweep -/

/-- Calls made by a keep-alive sweep and its close tasks. -/
inductive KeepaliveEvent where
  /-- Call `wsConn.WriteMessage(websocket.PingMessage, nil)`. -/
  | ping (c : Conn)
  /-- Call `con.Close()`. -/
  | close (c : Conn)
  /-- Call `cm.Delete(con)`. -/
  | delete (c : Conn)
deriving DecidableEq, Repr

/-- What the WebSocket library answers to the calls of a sweep. -/
structure KeepaliveEnv where
  /-- Whether `WriteMessage` of the PING returns an error. -/
  pingFails : Conn → Bool
  /-- Whether `con.Close()` returns an error. -/
  closeFails : Conn → Bool
  /-- Whether the library, inside `con.Close()`, ran a close handler of the socket that
  called `Delete(con)` (the handlers that `proxy.go` and `peer_lfsx.go` set with `OnClose`). -/
  handlerDeletes : Conn → Bool

/-- The loop of one sweep of `ClientMgr.Run` (lines 49-60), run under `cm.mux`: the PINGs
written and the sockets for which a close task was started. -/
def ClientMgr.sweep (cm : ClientMgr) (env : KeepaliveEnv) : List KeepaliveEvent × List Conn :=
  (cm.clients.map KeepaliveEvent.ping, cm.clients.filter env.pingFails)

/-- One close task of a sweep (lines 53-58): `con.Close()`, and `cm.Delete(con)` when the
close returned an error. -/
def ClientMgr.closeTask (cm : ClientMgr) (env : KeepaliveEnv) (con : Conn) :
    ClientMgr × List KeepaliveEvent :=
  let cm1 := if env.handlerDeletes con then cm.Delete (some con) else cm
  if env.closeFails con then
    (cm1.Delete (some con), [KeepaliveEvent.close con, KeepaliveEvent.delete con])
  else (cm1, [KeepaliveEvent.close con])

/-- The close tasks of a sweep, one after the other. -/
def ClientMgr.closeTasks (cm : ClientMgr) (env : KeepaliveEnv) :
    List Conn → ClientMgr × List KeepaliveEvent
  | [] => (cm, [])
  | con :: rest =>
    let r := cm.closeTask env con
    let r2 := ClientMgr.closeTasks r.1 env rest
    (r2.1, r.2 ++ r2.2)

/-- One sweep of `ClientMgr.Run` with all its close tasks run to their end. -/
def ClientMgr.sweepAndClose (cm : ClientMgr) (env : KeepaliveEnv) :
    ClientMgr × List KeepaliveEvent :=
  let s := cm.sweep env
  let r := cm.closeTasks env s.2
  (r.1, s.1 ++ r.2)

/-- A library for which the PING to socket 10 fails, every close succeeds, and no close
handler deletes the socket during the close. -/
def pingFailsOn10 : KeepaliveEnv :=
  { pingFails := fun c => c == 10, closeFails := fun _ => false,
    handlerDeletes := fun _ => false }

/-! ## api/authentication.go and jwto/jwt.go: the authentication middleware -/

/-- Go `strings.Split(s, sep)` for a non-empty separator, on the characters of the string.
`skip` counts the characters of a matched separator that are still to be passed over, and
`cur` holds the piece that is being read, last character first. -/
def strings_SplitChars (sep : List Char) : List Char → Nat → List Char → List (List Char)
  | [], _, cur => [cur.reverse]
  | _ :: rest, skip + 1, cur => strings_SplitChars sep rest skip cur
  | c :: rest, 0, cur =>
    if sep.isPrefixOf (c :: rest) then
      cur.reverse :: strings_SplitChars sep rest (sep.length - 1) []
    else strings_SplitChars sep rest 0 (c :: cur)

/-- Go `strings.Split(s, sep)` for a non-empty separator. -/
def strings_Split (s sep : String) : List String :=
  (strings_SplitChars sep.data s.data 0 []).map String.mk

/-- The constant `jwtCookieName`. -/
def jwtCookieName : String := "JWTAuthentication"

/-- Method `Request.Cookie(name)`: the value of the first cookie of that name, `none` for
`http.ErrNoCookie`. -/
def Request.Cookie (r : Request) (name : String) : Option String :=
  (r.Cookies.find? (fun kv => kv.1 == name)).map (fun kv => kv.2)

/-- The result of `jwt.ParseWithClaims` of the JWT library: the claims it filled in, the
field `Valid` of the token and its error. -/
structure ParsedToken where
  claims : Claims
  Valid : Bool
  err : Option String

/-- Function `ValidateToken(token, key)`: the claims when `authorized` is true.  `parse` is
`jwt.ParseWithClaims` with the key. -/
def ValidateToken (parse : String → ParsedToken) (token : String) : Option Claims :=
  let tkn := parse token
  if tkn.err.isSome ∨ tkn.Valid = false then none else some tkn.claims

/-- What the middleware needs from its surroundings: the field `Config.Production`, the JWT
library and the AES cipher of `Config.LfsJwtKey`. -/
structure AuthEnv where
  Production : Bool
  parse : String → ParsedToken
  decrypt : String → String
  cipherErr : Option String

/-- What a handler did with a request: it answered with `response.WriteText(body, status, w)`,
or it called `next.ServeHTTP` with the user stored in the context of the request. -/
inductive Handled where
  | text (body : String) (status : Nat)
  | next (user : User)
deriving DecidableEq, Repr

/-- Lines 26-43 of `AuthenticationMiddleware`: the token of the request, or the answer given
when the request has none. -/
def AuthenticationMiddleware_token (r : Request) : Except Handled String :=
  let authHeader := strings_Split (r.Header.get "Authorization") "Bearer "
  let cookie := r.Cookie jwtCookieName
  if authHeader.length ≠ 2 ∧ cookie = none then
    if authHeader.length = 1 then
      .error (Handled.text "No authorization token or cookie given" 403)
    else .error (Handled.text "Malformed token" 401)
  else if authHeader.length = 2 then .ok (authHeader.getD 1 "")
  else .ok (cookie.getD "")

/-- Function `Api.AuthenticationMiddleware(next)`, applied to a request. -/
def AuthenticationMiddleware (env : AuthEnv) (r : Request) : Handled :=
  match AuthenticationMiddleware_token r with
  | .error answer => answer
  | .ok token =>
    match ValidateToken env.parse token with
    | none => Handled.text "Unauthorized" 401
    | some claims =>
      match claims.ToUser env.decrypt env.cipherErr with
      | .error _ => Handled.text "Unauthorized" 401
      | .ok user =>
        if env.Production = true ∧ user.Database ≠ Database.LFS then
          Handled.text "Invalid db selected in production" 401
        else Handled.next user

/-! ## api/api.go: security headers and CORS -/

/-- Go `strings.HasPrefix`. -/
def strings_HasPrefix (s pre : String) : Bool :=
  pre.data.isPrefixOf s.data

/-- Result of `allowQaOrigin`: the headers of the response afterwards, the text answer
written with `response.WriteText`, if any, and the value returned. -/
structure CorsResult where
  headers : LabelSet
  written : Option (String × Nat)
  stop : Bool
deriving DecidableEq, Repr

/-- The value that `allowQaOrigin` gives to `isAllowed` for the origin of the request
(lines 106-113). -/
def allowQaOrigin_isAllowed (Production : Bool) (origin : String) : Bool :=
  if Production then origin == "https://qa.hama.com"
  else origin == "https://qa-test.hama.com" || origin == "https://qa-rc.hama.com"
    || origin == "http://localhost:8081"

/-- Function `Api.allowQaOrigin(w, r)`; `w` holds the headers of the response. -/
def allowQaOrigin (Production : Bool) (w : LabelSet) (r : Request) : CorsResult :=
  let origin := r.Header.get "Origin"
  if origin = "" then { headers := w, written := none, stop := false }
  else if allowQaOrigin_isAllowed Production origin then
    let w1 := ((w.set "Access-Control-Allow-Origin" origin).set
      "Access-Control-Allow-Credentials" "true").set "Access-Control-Allow-Headers" "Db"
    if r.Method = "OPTIONS" ∧ strings_HasPrefix r.Path "/api/app/" = true then
      { headers := w1, written := some ("OK", 200), stop := true }
    else { headers := w1, written := none, stop := false }
  else { headers := w, written := none, stop := false }

/-- What `SecureHeaders` did with a request: it returned without calling the next handler
(the headers of the response and the text answer written by `allowQaOrigin`), or it called
`next.ServeHTTP`, the router with the authentication middleware, with the given headers set
on the response. -/
inductive Secured where
  | returned (headers : LabelSet) (written : Option (String × Nat))
  | next (headers : LabelSet)
deriving DecidableEq, Repr

/-- The headers that `SecureHeaders` sets on every response. -/
def secureHeaders : LabelSet :=
  ((((LabelSet.set [] "Content-Security-Policy"
    "default-src \x27self\x27; script-src \x27self\x27 localhost:5173 \x27unsafe-inline\x27; connect-src \x27self\x27 ws: wss: localhost:5173; img-src * data: blob: \x27unsafe-inline\x27; frame-src *; style-src \x27self\x27 localhost:5173 \x27unsafe-inline\x27;").set
    "Referrer-Policy" "origin-when-cross-origin").set
    "X-Content-Type-Options" "nosniff").set
    "X-Frame-Options" "deny").set
    "X-XSS-Protection" "0"

/-- Function `Api.SecureHeaders(next)`, applied to a request. -/
def SecureHeaders (Production : Bool) (r : Request) : Secured :=
  let c := allowQaOrigin Production secureHeaders r
  if c.stop then Secured.returned c.headers c.written
  else Secured.next c.headers

/-- The allow-list of origins of a mode, as the specification states it. -/
def qaAllowList (Production : Bool) : List String :=
  if Production then ["https://qa.hama.com"]
  else ["https://qa-test.hama.com", "https://qa-rc.hama.com", "http://localhost:8081"]

/-- A library that accepts the token `good` with claims whose database decrypts to
`lfsprj`, and no other token. -/
def prjTokenEnv (Production : Bool) : AuthEnv :=
  { Production := Production,
    parse := fun token =>
      { claims := claimsPrj, Valid := token == "good",
        err := if token == "good" then none else some "token is malformed" },
    decrypt := fun s => s,
    cipherErr := none }

/-- A request `GET /api/app/x` with the given `Authorization` header. -/
def requestWithAuthorization (value : String) : Request :=
  { Method := "GET", Path := "/api/app/x", Header := [("Authorization", value)], Cookies := [] }

/-! ## models/appconfig.go: the version label of the image -/

/-- Go `strings.LastIndex(s, sep)` for a separator of one byte `b`: the index of the last
occurrence of the byte in the string, or -1.  A Go string is its sequence of bytes. -/
def strings_LastIndex : Bytes → Nat → Int
  | [], _ => -1
  | c :: rest, b =>
    let i := strings_LastIndex rest b
    if i ≠ -1 then i + 1 else if c = b then 0 else -1

/-- Function `cutOff(val, length)`: `len` and the slice `val[0:length]` count bytes. -/
def cutOff (val : Bytes) (length : Nat) : Bytes :=
  if val.length > length then val.take length else val

/-- Function `AppConfig.GetLfsImageVersion()`, for the value `image` of `c.GetLfsImage()`;
58 is the byte of the colon. -/
def GetLfsImageVersion (image : Bytes) : Bytes :=
  let maxLength := 60
  let index := strings_LastIndex image 58
  if index ≠ -1 ∧ index < image.length then
    cutOff (image.drop (index + 1).toNat) maxLength
  else cutOff image maxLength

/-! ## proxy.go: the settings of a new pod -/

/-- Function `GetEnvInt(name, defaultValue)` of `pkg/utils`; `LookupEnv` is `os.LookupEnv`
and `Atoi` is `strconv.Atoi` (`none` for an error). -/
def GetEnvInt (LookupEnv : String → Option String) (Atoi : String → Option Int)
    (name : String) (defaultValue : Int) : Int :=
  match LookupEnv name with
  | some strVal =>
    match Atoi strVal with
    | none => defaultValue
    | some intVal => if defaultValue < 1 then defaultValue else intVal
  | none => defaultValue

/-- The struct `VncConnectionSettings`. -/
structure VncConnectionSettings where
  Scaling : Int
deriving DecidableEq, Repr

/-- A request sent with `client.Do`: method, URL, body and the timeout of the client in
seconds. -/
structure HttpCall where
  method : String
  url : String
  body : String
  timeoutSeconds : Nat
deriving DecidableEq, Repr

/-- What `applyVncSettings` needs from its surroundings. -/
structure ScalingEnv where
  /-- Call `net.ResolveUDPAddr("udp", adr)`: the text `ip.IP.String()` of the address, or
  the error. -/
  ResolveUDPAddr : String → Except String String
  /-- Function `os.LookupEnv`. -/
  LookupEnv : String → Option String
  /-- Function `strconv.Atoi`. -/
  Atoi : String → Option Int
  /-- Call `http.NewRequest("POST", url, body)`: its error, which it returns with a nil
  request when the URL does not parse (as for a negative port). -/
  NewRequest : String → Option String
  /-- Call `client.Do(req)`: the error, or the status code of the response and the body that
  `io.ReadAll` returned. -/
  Do : HttpCall → Except String (Nat × String)

/-- How a call of `applyVncSettings` ended: it returned its error (`none` for nil), or it was
aborted by a panic. -/
inductive ScalingOutcome where
  | returned (err : Option String)
  | panicked
deriving DecidableEq, Repr

/-- The request that `applyVncSettings` sends for the scaling factor (lines 518-525): the
body is `json.Marshal` of a struct with the one field `factor`. -/
def applyVncSettings_request (env : ScalingEnv) (ip : String) (Scaling : Int) : HttpCall :=
  let baseURL := "http://" ++ ip ++ ":"
    ++ toString (GetEnvInt env.LookupEnv env.Atoi "APP_LFS_API_PORT" 4021) ++ "/api"
  { method := "POST", url := baseURL ++ "/vnc/scale/hard",
    body := "\x7b\"factor\":" ++ toString Scaling ++ "\x7d", timeoutSeconds := 5 }

/-- Function `VncProxy.applyVncSettings(settings, podAdr, wasNewlyCreated)`; `podAdr` is the
text `podAdr.String()`.  The result is how the call ended and the requests sent.  The error
of `http.NewRequest` is discarded (line 525): when there is one, the request is nil and
`client.Do` dereferences it. -/
def applyVncSettings (env : ScalingEnv) (settings : VncConnectionSettings) (podAdr : String)
    (wasNewlyCreated : Bool) : ScalingOutcome × List HttpCall :=
  match env.ResolveUDPAddr podAdr with
  | .error err => (ScalingOutcome.returned (some err), [])
  | .ok ip =>
    if wasNewlyCreated = true ∧ settings.Scaling ≠ 100 ∧ settings.Scaling ≠ 0 then
      let req := applyVncSettings_request env ip settings.Scaling
      match env.NewRequest req.url with
      | some _ => (ScalingOutcome.panicked, [])
      | none =>
        match env.Do req with
        | .error err => (ScalingOutcome.returned (some ("request to LFS.X host: " ++ err)), [req])
        | .ok (StatusCode, bodyR) =>
          if StatusCode = 200 ∨ StatusCode = 207 then (ScalingOutcome.returned none, [req])
          else (ScalingOutcome.returned (some (toString StatusCode ++ ": " ++ bodyR)), [req])
    else (ScalingOutcome.returned none, [])

/-- The same pod with the environment variable `APP_LFS_API_PORT` set to `-5`: the URL of the
request has the port `-5` and does not parse. -/
def negativePortEnv : ScalingEnv :=
  { ResolveUDPAddr := fun _ => .ok "10.0.0.7",
    LookupEnv := fun name => if name = "APP_LFS_API_PORT" then some "-5" else none,
    Atoi := fun s => if s = "-5" then some (-5) else none,
    NewRequest := fun url =>
      if url = "http://10.0.0.7:-5/api/vnc/scale/hard" then some "invalid port" else none,
    Do := fun _ => .ok (200, "done") }

/-! ## peer.go: the pump from guacd to the client -/

/-- Go `strings.Contains`. -/
def strings_Contains (s substr : String) : Bool :=
  decide (substr.data <:+: s.data)

/-- One answer of the guacd reader to the pump: `reader.ReadSome()` returned an instruction,
after which `reader.Available()` reports `available`; or `ReadSome` returned an error. -/
inductive PumpRead where
  | ins (data : Bytes) (available : Bool)
  | err (e : String)
deriving DecidableEq, Repr

/-- The state of the pump of `proxyGuacamole` (lines 273-312): the content of `buf`, the
payloads of the TEXT frames that `p.source.WriteMessage` has written without an error, the
instructions that `ReadSome` has returned so far, and the calls `p.Close(err, -1)`. -/
structure PumpState where
  buf : Bytes
  frames : List Bytes
  readSoFar : List Bytes
  closeCalls : List String
deriving DecidableEq, Repr

/-- The pump before its first read: `buf := bytes.NewBuffer(...)` is empty. -/
def PumpState.init : PumpState :=
  { buf := [], frames := [], readSoFar := [], closeCalls := [] }

/-- One iteration of the loop of the pump (lines 277-311).  `MaxGuacMessage` is the constant
of the package `guacamole`; `writeErr` is the error that `p.source.WriteMessage` returns for
a payload.  The result is the state afterwards and whether the loop goes on to the next
`ReadSome` (it does not after a `return`). -/
def pumpIteration (MaxGuacMessage : Nat) (writeErr : Bytes → Option String) (st : PumpState)
    (r : PumpRead) : PumpState × Bool :=
  match r with
  | .err e =>
    ({ st with closeCalls := if e = "EOF" then st.closeCalls ++ [e] else st.closeCalls }, false)
  | .ins data available =>
    let st1 := { st with readSoFar := st.readSoFar ++ [data] }
    if bytes_HasPrefix data internalOpcodeIns then (st1, true)
    else
      let st2 := { st1 with buf := st1.buf ++ data }
      if available = false ∨ st2.buf.length ≥ MaxGuacMessage then
        match writeErr st2.buf with
        | some e =>
          ({ st2 with
             closeCalls :=
               if strings_Contains e "closed network" then st2.closeCalls ++ [e]
               else st2.closeCalls }, false)
        | none => ({ st2 with buf := [], frames := st2.frames ++ [st2.buf] }, true)
      else (st2, true)

/-- The pump on the answers of the reader, in order: the state when the answers are used up
(the pump then waits in `ReadSome`) or when the goroutine has returned, and whether the pump
still runs. -/
def pump (MaxGuacMessage : Nat) (writeErr : Bytes → Option String) :
    PumpState → List PumpRead → PumpState × Bool
  | st, [] => (st, true)
  | st, r :: rest =>
    let x := pumpIteration MaxGuacMessage writeErr st r
    if x.2 then pump MaxGuacMessage writeErr x.1 rest else (x.1, false)

/-- The instructions that guacd sends other than those that start with the marker `0.`, one
after the other. -/
def clientBytes (instructions : List Bytes) : Bytes :=
  (instructions.filter fun ins => !bytes_HasPrefix ins internalOpcodeIns).flatten

/-- What the pump has handed on: written frames and buffer together are the instructions
read so far without the internal ones. -/
def PumpState.consistent (st : PumpState) : Prop :=
  st.frames.flatten ++ st.buf = clientBytes st.readSoFar

/-- The instruction of an answer of the reader, if it is one. -/
def PumpRead.instruction : PumpRead → Option Bytes
  | .ins data _ => some data
  | .err _ => none

/-! ## peer_lfsx.go: observers, reconnect and send -/

/-- Function `lfsxPeer.RegisterObserver()`; `c` is the channel that `make(chan Update)`
returns. -/
def lfsxPeer.RegisterObserver (p : lfsxPeer) (c : Conn) : lfsxPeer × Conn :=
  ({ p with observers := p.observers ++ [c] }, c)

/-- The loop of `RemoveObserver` over the slice of observers (lines 241-247): the slice
afterwards and the channels closed with `close(c)`. -/
def RemoveObserver_loop (c : Conn) : List Conn → List Conn × List Conn
  | [] => ([], [])
  | o :: rest =>
    if o = c then (rest, [c])
    else (o :: (RemoveObserver_loop c rest).1, (RemoveObserver_loop c rest).2)

/-- Function `lfsxPeer.RemoveObserver(c)`: the peer afterwards and the channels closed. -/
def lfsxPeer.RemoveObserver (p : lfsxPeer) (c : Conn) : lfsxPeer × List Conn :=
  ({ p with observers := (RemoveObserver_loop c p.observers).1 },
   (RemoveObserver_loop c p.observers).2)

/-- Function `lfsxPeer.tryToReconnectToLfsx()`: the peer afterwards and whether the goroutine
that dials the pod again after 5 s was started. -/
def lfsxPeer.tryToReconnectToLfsx (p : lfsxPeer) : lfsxPeer × Bool :=
  if p.wasIntentiallyClosed then (p, false)
  else ({ p with target := none }, true)

/-- Function `lfsxPeer.SendMessageToLFS(msg)`; `json` is `msg.ToJson()`. -/
def lfsxPeer.SendMessageToLFS (p : lfsxPeer) (json : Bytes) : List LfsxEvent :=
  if p.wasIntentiallyClosed = true ∨ p.contextDone = true then []
  else
    match p.target with
    | none => []
    | some t => [LfsxEvent.wsWriteMessage t MessageType.TextMessage json]

/-- One step of a control peer: every statement of `peer_lfsx.go` that writes a field of the
peer.  The context of the peer is cancelled by `Close` only: it is a child of the context of
the proxy, which `NewVncProxy` derives from `context.Background()` and never cancels. -/
inductive lfsxPeer.Step : lfsxPeer → lfsxPeer → Prop where
  /-- A call `Close(err, fromWhich)`. -/
  | close (p : lfsxPeer) (err : Option String) (fromWhich : Int) :
      lfsxPeer.Step p (p.Close err fromWhich).1
  /-- A call `tryToReconnectToLfsx()`. -/
  | reconnect (p : lfsxPeer) : lfsxPeer.Step p p.tryToReconnectToLfsx.1
  /-- The statements `p.source = wsConn` (line 142), `p.source = source` (line 336) and
  `p.source = nil` (line 301). -/
  | setSource (p : lfsxPeer) (s : Option Conn) : lfsxPeer.Step p { p with source := s }
  /-- The statement `p.target = con` of `connectToLfsxSocket` (line 179). -/
  | setTarget (p : lfsxPeer) (t : Option Conn) : lfsxPeer.Step p { p with target := t }
  /-- The statements `p.ready.Store(true)`. -/
  | setReady (p : lfsxPeer) : lfsxPeer.Step p { p with ready := true }
  /-- A call `RegisterObserver()`. -/
  | register (p : lfsxPeer) (c : Conn) : lfsxPeer.Step p (p.RegisterObserver c).1
  /-- A call `RemoveObserver(c)`. -/
  | remove (p : lfsxPeer) (c : Conn) : lfsxPeer.Step p (p.RemoveObserver c).1

/-- The states that a control peer reaches: `NewLfsxPeer` makes it with
`wasIntentiallyClosed` unset and with a new context, which is not cancelled. -/
inductive lfsxPeer.Reachable : lfsxPeer → Prop where
  | init (p : lfsxPeer) (hflag : p.wasIntentiallyClosed = false)
      (hctx : p.contextDone = false) : lfsxPeer.Reachable p
  | step (a b : lfsxPeer) (ha : lfsxPeer.Reachable a) (hstep : lfsxPeer.Step a b) :
      lfsxPeer.Reachable b

/-! ## api/authentication.go: the login handler -/

/-- A Go `url.Values`: the values of a form by key. -/
abbrev Form := List (String × List String)

/-- Method `Values.Get(key)`, which `Request.FormValue` returns for a parsed form: the first
value of the key, or the empty string. -/
def Form.Get (f : Form) (key : String) : String :=
  match f with
  | [] => ""
  | (k, vs) :: rest => if k = key then vs.headD "" else Form.Get rest key

/-- Method `Values.Set(key, value)`: the key is set to the one value. -/
def Form.Set (f : Form) (key value : String) : Form :=
  (key, [value]) :: f.filter (fun kv => kv.1 != key)

/-- The request that `login` sends to the LFS service: its URL, its body (the form that
`r.Form.Encode()` encodes) and the headers `Origin` and `Content-Type`; the method is POST and
the timeout of the client 5 s. -/
structure LoginCall where
  url : String
  form : Form
  Origin : String
  ContentType : String
deriving DecidableEq, Repr

/-- The fields of an `http.Cookie` that `login` sets, and its value. -/
structure Cookie where
  Name : String
  Value : String
  HttpOnly : Bool
  Secure : Bool
  SameSiteStrict : Bool
  Domain : String
deriving DecidableEq, Repr

/-- The answer of the LFS service to the login request. -/
structure LoginResponse where
  StatusCode : Nat
  Cookies : List Cookie
  ContentType : String
  Body : String
deriving DecidableEq, Repr

/-- What `login` needs from its surroundings: the configuration, the error of
`http.NewRequest` for the URL of the service, and `client.Do`. -/
structure LoginEnv where
  Production : Bool
  LfsServiceEndpoint : String
  NewRequestErr : Option String
  Do : LoginCall → Except String LoginResponse

/-- Calls made by the login handler. -/
inductive LoginEvent where
  /-- Call `response.WriteText(body, status, w)`. -/
  | writeText (body : String) (status : Nat)
  /-- Call `client.Do(req)`. -/
  | upstream (req : LoginCall)
  /-- Call `http.SetCookie(w, cookie)`. -/
  | setCookie (cookie : Cookie)
  /-- Call `w.WriteHeader(status)`. -/
  | writeHeader (status : Nat)
  /-- Call `w.Header().Set("Content-Type", value)`. -/
  | setContentType (value : String)
  /-- Call `io.Copy(w, res.Body)` with what is left of the body. -/
  | copyBody (body : String)
  /-- A method called on the nil `*http.Request` that `http.NewRequest` returned with its
  error. -/
  | nilDereference
deriving DecidableEq, Repr

/-- Function `Api.login(w, r)`: the calls it makes.  `parsed` is the form after
`r.ParseForm()`, or its error. -/
def login (env : LoginEnv) (r : Request) (parsed : Except String Form) : List LoginEvent :=
  match parsed with
  | .error e => [LoginEvent.writeText e 400]
  | .ok form =>
    let validation : List LoginEvent :=
      if env.Production = true ∧ strings_ToLower (form.Get "db") ≠ "lfs" then
        [LoginEvent.writeText ("Invalid db selected in production: " ++ form.Get "db") 400]
      else []
    let req : LoginCall :=
      { url := env.LfsServiceEndpoint ++ "/user/login", form := form.Set "version" "2",
        Origin := "javalfs", ContentType := r.Header.get "Content-Type" }
    match env.NewRequestErr with
    | some _ => validation ++ [LoginEvent.nilDereference]
    | none =>
      match env.Do req with
      | .error _ =>
        validation ++ [LoginEvent.upstream req, LoginEvent.writeText "Internal Server error" 500]
      | .ok res =>
        if res.StatusCode = 200 then
          match res.Cookies with
          | [] =>
            validation ++ [LoginEvent.upstream req, LoginEvent.writeText "No cookie set" 500]
          | cookie :: _ =>
            validation ++
              [LoginEvent.upstream req,
               LoginEvent.setCookie
                 { cookie with Name := jwtCookieName, HttpOnly := true, Secure := false,
                               SameSiteStrict := true, Domain := "" },
               LoginEvent.setContentType res.ContentType,
               LoginEvent.copyBody res.Body]
        else
          validation ++
            [LoginEvent.upstream req, LoginEvent.writeHeader res.StatusCode,
             LoginEvent.setContentType res.ContentType, LoginEvent.copyBody ""]

/-- Whether an event is the request to the LFS service. -/
def LoginEvent.isUpstream : LoginEvent → Bool
  | .upstream _ => true
  | _ => false

/-- A login form with the given database. -/
def loginForm (db : String) : Form :=
  [("user", ["ALICE"]), ("password", ["pw"]), ("db", [db])]

/-- The controller in front of an LFS service that accepts every login and answers with the
cookie `jwt`. -/
def loginEnv (Production : Bool) : LoginEnv :=
  { Production := Production, LfsServiceEndpoint := "http://lfs", NewRequestErr := none,
    Do := fun _ => .ok
      { StatusCode := 200,
        Cookies := [{ Name := "jwt", Value := "token", HttpOnly := false, Secure := true,
                      SameSiteStrict := false, Domain := "lfs" }],
        ContentType := "text/plain", Body := "ok" } }

/-- A POST of a form to `/api/login`. -/
def loginRequest : Request :=
  { Method := "POST", Path := "/api/login",
    Header := [("Content-Type", "application/x-www-form-urlencoded")], Cookies := [] }

/-! ## lfs/internal/api/vnc/vnc.go: the check of the user connections -/

/-- The error of `v.execute(cmd)`: none, an `*exec.ExitError` (the command ended with a status
other than 0), or another error. -/
inductive ExecError where
  | none
  | exitError
  | other
deriving DecidableEq, Repr

/-- One poll of `StartUserConnectionsCheck`, after its sleep of 30 s: the return code and the
error of `v.execute(cmd)`, whether the handler of `/start` has stored `WasConnected` since the
poll before, and whether `time.Since(v.Uptime).Hours() >= NO_USER_CONNECTION_TIME` holds,
with the constant at 48. -/
structure Poll where
  rtc : Int
  err : ExecError
  started : Bool
  uptimeReached : Bool
deriving DecidableEq, Repr

/-- The variables of the loop: `noUsersCount` and `v.WasConnected`. -/
structure CheckState where
  noUsersCount : Nat
  WasConnected : Bool
deriving DecidableEq, Repr

/-- Why `StartUserConnectionsCheck` called `os.Exit(0)`. -/
inductive ExitReason where
  /-- The limit of 48 hours was reached. -/
  | uptime
  /-- Message `Stopping container because no user was connected in the last 5 minutes`. -/
  | noUser
deriving DecidableEq, Repr

/-- One iteration of the loop of `StartUserConnectionsCheck` (lines 136-175): the variables
afterwards and the exit, if the process exits. -/
def checkIteration (st : CheckState) (p : Poll) : CheckState × Option ExitReason :=
  let st0 : CheckState := { st with WasConnected := st.WasConnected || p.started }
  if p.err = ExecError.other then (st0, none)
  else
    let r : CheckState × Option ExitReason :=
      if p.rtc = 1 ∧ st0.WasConnected = true then
        ({ st0 with noUsersCount := st0.noUsersCount + 1 }, none)
      else
        let st1 : CheckState :=
          { noUsersCount := 0,
            WasConnected := if p.rtc = 0 ∧ st0.WasConnected = false then true
                            else st0.WasConnected }
        if p.uptimeReached then (st1, some ExitReason.uptime) else (st1, none)
    match r.2 with
    | some reason => (r.1, some reason)
    | none => if r.1.noUsersCount > 10 then (r.1, some ExitReason.noUser) else (r.1, none)

/-- The loop of `StartUserConnectionsCheck` on the polls, in order: the variables when the
polls are used up or the process exits, the number of polls made, and the exit. -/
def checkRun : CheckState → List Poll → CheckState × Nat × Option ExitReason
  | st, [] => (st, 0, none)
  | st, p :: rest =>
    match checkIteration st p with
    | (st1, some reason) => (st1, 1, some reason)
    | (st1, none) =>
      let r := checkRun st1 rest
      (r.1, r.2.1 + 1, r.2.2)

/-- A poll that finds no connection: `grep -c` prints 0 and ends with the status 1. -/
def zeroPoll : Poll :=
  { rtc := 1, err := ExecError.exitError, started := false, uptimeReached := false }

/-- A poll that finds a connection. -/
def connectedPoll : Poll :=
  { rtc := 0, err := ExecError.none, started := false, uptimeReached := false }

/-! # Properties -/

/-! ## Session registry (proxy.go) -/

theorem PeerMap_get_set_self (m : PeerMap) (key : String) (v : Nat) :
    (m.set key v).get key = some v := by
  simp [PeerMap.set, PeerMap.get]

theorem PeerMap_get_delete_self (m : PeerMap) (key : String) :
    (m.delete key).get key = none := by
  induction m with
  | nil => rfl
  | cons kv rest ih =>
    obtain ⟨k, v⟩ := kv
    by_cases h : k = key
    · simpa [PeerMap.delete, List.filter_cons, h] using ih
    · have ih2 : PeerMap.get (List.filter (fun kv => kv.1 != key) rest) key = none := ih
      simp [PeerMap.delete, List.filter_cons, h, PeerMap.get, ih2]

/-- The admission check: with the registry lock free, `validateUserRequest` returns
`USER_ALREADY_EXISTS` (409) when the identifier of the user is a key of the registry and nil
otherwise, and leaves the registry as it was. -/
theorem validateUserRequest_result (vnc : VncProxy) (user : User)
    (hfree : vnc.peerSync.writer = false) :
    (vnc.validateUserRequest user).value =
      some (if (vnc.peer.get user.Identifier).isSome
            then some { message := "USER_ALREADY_EXISTS", status := 409 } else none) ∧
    (vnc.validateUserRequest user).state.peer = vnc.peer := by
  unfold VncProxy.validateUserRequest VncProxy.IsUserConnected RWMutex.RLock
  simp only [hfree]
  cases h : (vnc.peer.get user.Identifier).isSome <;> simp [Outcome.value, Outcome.state, h]

/-- The registration step on a free identifier: the peer is stored under its identifier and
nil is returned. -/
theorem Proxy_addToList_absent (vnc : VncProxy) (ptr : Nat)
    (hfree : vnc.peerSync = { writer := false, readers := 0 })
    (habsent : vnc.peer.get (vnc.heap ptr).user.Identifier = none) :
    (vnc.Proxy_addToList ptr).value = some none ∧
    (vnc.Proxy_addToList ptr).state.peer.get (vnc.heap ptr).user.Identifier = some ptr := by
  unfold VncProxy.Proxy_addToList RWMutex.Lock
  simp [hfree, habsent, Outcome.value, Outcome.state, PeerMap_get_set_self]

/-- C1 (single session per identifier), on the proxy whose registry holds the session of
`alice` at address 1.  The admission check answers `USER_ALREADY_EXISTS` (409).  The
registration step of the second peer of `alice` (address 2) inserts nothing and closes that
peer with the text `USER_ALREADY_EXISTS`, but it does not return 409: the disconnect callback
run by `peer.Close` waits for the registry lock that the registration step itself holds, so
the step never returns and the lock stays taken. -/
theorem Proxy_addToList_collision_blocks :
    (vncWithAlice.validateUserRequest alice).value
      = some (some { message := "USER_ALREADY_EXISTS", status := 409 }) ∧
    vncWithAlice.peer.get alice.Identifier = some 1 ∧
    (vncWithAlice.Proxy_addToList 2).value = none ∧
    (vncWithAlice.Proxy_addToList 2).isBlocked = true ∧
    (vncWithAlice.Proxy_addToList 2).state.trace =
      [Event.wsWriteMessage 20 MessageType.CloseMessage
         (closeFramePayload "USER_ALREADY_EXISTS"),
       Event.wsClose 20, Event.connClose 21,
       Event.onDisconnect (some "USER_ALREADY_EXISTS") 0] ∧
    (vncWithAlice.Proxy_addToList 2).state.peer = [("alice-lfs", 1)] ∧
    (vncWithAlice.Proxy_addToList 2).state.peerSync.writer = true := by
  decide

/-- C2 (no session outlives its registry entry), on the proxy whose registry holds the session
of `alice` at address 1: a `peer.Close` on the other peer of `alice` (address 2, never
inserted), as its client socket closing triggers it, runs the disconnect callback, which
deletes the key `alice-lfs`.  The peer at address 1 has been inserted and is not closed, yet
it is no longer stored under its identifier. -/
theorem registered_session_loses_entry :
    vncWithAlice.peer.get alice.Identifier = some 1 ∧
    (vncWithAlice.peerClose 2 none 1).value = some () ∧
    ((vncWithAlice.peerClose 2 none 1).state.heap 1).closed = false ∧
    (vncWithAlice.peerClose 2 none 1).state.peer.get
      ((vncWithAlice.peerClose 2 none 1).state.heap 1).user.Identifier = none := by
  decide


/-! ## Teardown of a peer (peer.go) -/

theorem closeWaitLoop_events (ready : Bool) :
    (peer.closeWaitLoop ready 52 0).2
      = if ready then [] else List.replicate 52 Event.sleep400ms := by
  cases ready <;> rfl

theorem mem_closeWaitLoop (ready : Bool) (e : Event)
    (h : e ∈ (peer.closeWaitLoop ready 52 0).2) : e = Event.sleep400ms := by
  rw [closeWaitLoop_events] at h
  cases ready
  · simpa using (List.eq_of_mem_replicate h)
  · simp at h

theorem mem_closeLfsx (p : peer) (err : Option String) (e : Event)
    (h : e ∈ (p.closeLfsx err).2) : ∃ x, e = Event.lfsx x := by
  unfold peer.closeLfsx at h
  cases hl : p.lfsxPeer with
  | none => simp [hl] at h
  | some l =>
    simp only [hl, List.mem_map] at h
    obtain ⟨x, _, rfl⟩ := h
    exact ⟨x, rfl⟩

theorem mem_closeSource (p : peer) (err : Option String) (fromWhich : Int) (e : Event)
    (h : e ∈ p.closeSource err fromWhich) :
    ∃ s, p.source = some s ∧ fromWhich ≠ 1 ∧
      (e = Event.wsClose s ∨ ∃ d, e = Event.wsWriteMessage s MessageType.CloseMessage d) := by
  unfold peer.closeSource at h
  cases hs : p.source with
  | none => simp [hs] at h
  | some s =>
    by_cases h1 : fromWhich = 1
    · simp [hs, h1] at h
    · cases err with
      | none =>
        simp [hs, h1] at h
        exact ⟨s, rfl, h1, Or.inl h⟩
      | some t =>
        simp [hs, h1] at h
        rcases h with h | h
        · exact ⟨s, rfl, h1, Or.inr ⟨_, h⟩⟩
        · exact ⟨s, rfl, h1, Or.inl h⟩

theorem mem_closeTarget (p : peer) (fromWhich : Int) (ev : List Event)
    (hev : p.closeTarget fromWhich = some ev) (e : Event) (h : e ∈ ev) :
    ∃ t, p.target = NetConn.ptr (some t) ∧ fromWhich ≠ 2 ∧ p.guacamole.Used = false ∧
      e = Event.connClose t := by
  unfold peer.closeTarget at hev
  cases ht : p.target with
  | nilInterface =>
    simp [ht] at hev
    subst hev
    simp at h
  | ptr c =>
    by_cases h2 : fromWhich = 2
    · simp [ht, h2] at hev
      subst hev
      simp at h
    · cases hu : p.guacamole.Used with
      | true =>
        simp [ht, h2, hu] at hev
        subst hev
        simp at h
      | false =>
        cases c with
        | none => simp [ht, h2, hu] at hev
        | some t =>
          simp [ht, h2, hu] at hev
          subst hev
          simp at h
          exact ⟨t, rfl, h2, rfl, h⟩

theorem mem_closeGuacamole (p : peer) (fromWhich : Int) (e : Event)
    (h : e ∈ p.closeGuacamole fromWhich) :
    ∃ g, p.targetGuacamole = some g ∧ fromWhich ≠ 2 ∧ e = Event.connClose g := by
  unfold peer.closeGuacamole at h
  cases hg : p.targetGuacamole with
  | none => simp [hg] at h
  | some g =>
    by_cases h2 : fromWhich = 2
    · simp [hg, h2] at h
    · simp [hg, h2] at h
      exact ⟨g, rfl, h2, h⟩

/-- The client socket is closed once by the block that closes it, unless the client is the
originator. -/
theorem closeSource_count_wsClose (p : peer) (err : Option String) (fromWhich : Int) (s : Conn)
    (hs : p.source = some s) :
    (p.closeSource err fromWhich).count (Event.wsClose s) = if fromWhich = 1 then 0 else 1 := by
  unfold peer.closeSource
  cases err <;> by_cases h : fromWhich = 1 <;> simp [hs, h, List.count_cons]

/-- The VNC connection is closed once by the block that closes it, unless the backend is the
originator. -/
theorem closeTarget_count_connClose (p : peer) (fromWhich : Int) (t : Conn)
    (ht : p.target = NetConn.ptr (some t)) (hu : p.guacamole.Used = false) :
    p.closeTarget fromWhich = some (if fromWhich = 2 then [] else [Event.connClose t]) := by
  unfold peer.closeTarget
  by_cases h2 : fromWhich = 2 <;> simp [ht, hu, h2]

/-- The guacd connection is closed once by the block that closes it, unless the backend is the
originator. -/
theorem closeGuacamole_count_connClose (p : peer) (fromWhich : Int) (g : Conn)
    (hg : p.targetGuacamole = some g) :
    (p.closeGuacamole fromWhich).count (Event.connClose g)
      = if fromWhich = 2 then 0 else 1 := by
  unfold peer.closeGuacamole
  by_cases h2 : fromWhich = 2 <;> simp [hg, h2, List.count_cons]

/-- The block that closes the VNC connection calls no method on a nil pointer when the peer
holds a connection or Guacamole is in use. -/
theorem closeTarget_isSome (p : peer) (fromWhich : Int)
    (hnil : p.target = NetConn.ptr none → p.guacamole.Used = true) :
    ∃ ev, p.closeTarget fromWhich = some ev := by
  unfold peer.closeTarget
  cases ht : p.target with
  | nilInterface => exact ⟨_, rfl⟩
  | ptr c =>
    cases c with
    | some t =>
      by_cases h : fromWhich ≠ 2 ∧ (!p.guacamole.Used) = true
      · exact ⟨_, if_pos h⟩
      · exact ⟨_, if_neg h⟩
    | none => simp [hnil ht]

/-- A `peer.Close` on a closed peer does nothing. -/
theorem peer_Close_closed (p : peer) (err : Option String) (fromWhich : Int)
    (h : p.closed = true) : p.Close err fromWhich = (p, []) := by
  simp [peer.Close, h]

/-- After `peer.Close` the peer is closed. -/
theorem peer_Close_sets_closed (p : peer) (err : Option String) (fromWhich : Int) :
    (p.Close err fromWhich).1.closed = true := by
  unfold peer.Close
  by_cases h : p.closed = true
  · simp [h]
  · have hf : p.closed = false := by simpa using h
    simp only [hf, Bool.false_eq_true, if_false]
    split <;> rfl

theorem peer_CloseCalls_closed (p : peer) (calls : List (Option String × Int))
    (h : p.closed = true) : p.CloseCalls calls = (p, []) := by
  induction calls with
  | nil => rfl
  | cons c rest ih =>
    obtain ⟨e, f⟩ := c
    simp [peer.CloseCalls, peer_Close_closed p e f h, ih]

/-- The calls made by a `peer.Close` that finds the peer open and is not aborted, block by
block. -/
theorem peer_Close_events (p : peer) (err : Option String) (fromWhich : Int)
    (ev : List Event) (hopen : p.closed = false) (hev : p.closeTarget fromWhich = some ev) :
    (p.Close err fromWhich).2 =
      (peer.closeWaitLoop p.ready 52 0).2 ++ (p.closeLfsx err).2 ++
        p.closeSource err fromWhich ++ ev ++
        p.closeGuacamole fromWhich ++ [Event.onDisconnect err fromWhich] := by
  have h2 : peer.closeTarget
      { p with closed := true, lfsxPeer := (peer.closeLfsx { p with closed := true } err).1 }
      fromWhich = some ev := by
    rw [← hev]
    rfl
  simp only [peer.Close, hopen, h2]
  rfl

/-- A `peer.Close` that is aborted at the nil VNC pointer has not called the disconnect
callback. -/
theorem peer_Close_events_aborted (p : peer) (err : Option String) (fromWhich : Int)
    (hopen : p.closed = false) (hev : p.closeTarget fromWhich = none) :
    (p.Close err fromWhich).2 =
      (peer.closeWaitLoop p.ready 52 0).2 ++ (p.closeLfsx err).2 ++
        p.closeSource err fromWhich ++ [Event.nilDereference] := by
  have h2 : peer.closeTarget
      { p with closed := true, lfsxPeer := (peer.closeLfsx { p with closed := true } err).1 }
      fromWhich = none := by
    rw [← hev]
    rfl
  simp only [peer.Close, hopen, h2]
  rfl

theorem lfsxEvents_append (a b : List Event) :
    lfsxEvents (a ++ b) = lfsxEvents a ++ lfsxEvents b := by
  induction a with
  | nil => rfl
  | cons x rest ih => cases x <;> simp [lfsxEvents, ih]

theorem lfsxEvents_map (l : List LfsxEvent) : lfsxEvents (l.map Event.lfsx) = l := by
  induction l with
  | nil => rfl
  | cons x rest ih => simp [lfsxEvents, ih]

theorem lfsxEvents_eq_nil (l : List Event) (h : ∀ e ∈ l, ∀ x, e ≠ Event.lfsx x) :
    lfsxEvents l = [] := by
  induction l with
  | nil => rfl
  | cons a rest ih =>
    have hrest := ih (fun e he => h e (List.mem_cons_of_mem _ he))
    cases a with
    | lfsx x => exact absurd rfl (h _ (List.mem_cons_self _ _) x)
    | _ => simp [lfsxEvents, hrest]

/-- The registration step on a taken identifier, for a peer that is still open and whose
teardown is not aborted: `peer.Close` reaches the disconnect callback, which asks for the
registry lock that the registration step holds, so the step never returns; the registry is as
before and stays locked. -/
theorem Proxy_addToList_collision_never_returns (vnc : VncProxy) (ptr other : Nat)
    (hfree : vnc.peerSync = { writer := false, readers := 0 })
    (htaken : vnc.peer.get (vnc.heap ptr).user.Identifier = some other)
    (hopen : (vnc.heap ptr).closed = false)
    (hnil : (vnc.heap ptr).target = NetConn.ptr none → (vnc.heap ptr).guacamole.Used = true) :
    (vnc.Proxy_addToList ptr).isBlocked = true ∧
    (vnc.Proxy_addToList ptr).state.peer = vnc.peer ∧
    (vnc.Proxy_addToList ptr).state.peerSync.writer = true := by
  obtain ⟨ev, hev⟩ := closeTarget_isSome (vnc.heap ptr) 0 hnil
  have hmem : Event.onDisconnect (some "USER_ALREADY_EXISTS") 0
      ∈ ((vnc.heap ptr).Close (some "USER_ALREADY_EXISTS") 0).2 := by
    rw [peer_Close_events _ _ _ ev hopen hev]
    simp
  unfold VncProxy.Proxy_addToList RWMutex.Lock
  simp only [hfree, htaken]
  unfold VncProxy.peerClose VncProxy.onPeerDisconnect RWMutex.Lock
  simp [hmem, Outcome.isBlocked, Outcome.state]

/-- Idempotence of `Close` for the peers on which the teardown runs to its end.  Take an open
peer whose VNC connection and guacd connection are different sockets, that in Guacamole mode
holds no VNC connection, and for which Guacamole is in use when its VNC pointer is nil (the
peer of a Guacamole session between `SetConnections` and `proxyGuacamole` is not of this
kind).  Call `peer.Close` on it any number N >= 1
of times, with any errors and originators.  The N calls do what the first call does alone,
and any further call changes nothing and makes no call at all.  The first call invokes the
disconnect callback exactly once; it closes the client socket exactly once (not at all when
the client is the originator, `fromWhich = 1`), and the VNC connection and the guacd
connection exactly once each (not at all when the backend is the originator,
`fromWhich = 2`); and it closes the control peer, if there is one, by one call
`lfsxPeer.Close(err, 0)`. -/
theorem peer_Close_idempotent (p : peer) (err : Option String) (fromWhich : Int)
    (rest : List (Option String × Int))
    (hopen : p.closed = false)
    (hnil : p.target = NetConn.ptr none → p.guacamole.Used = true)
    (hguac : p.guacamole.Used = true → ∀ c, p.target ≠ NetConn.ptr (some c))
    (hdist : ∀ c, p.target = NetConn.ptr (some c) → p.targetGuacamole ≠ some c) :
    p.CloseCalls ((err, fromWhich) :: rest) = p.Close err fromWhich ∧
    (∀ e f, (p.Close err fromWhich).1.Close e f = ((p.Close err fromWhich).1, [])) ∧
    (p.Close err fromWhich).2.countP Event.isOnDisconnect = 1 ∧
    (∀ s, p.source = some s →
      (p.Close err fromWhich).2.count (Event.wsClose s) = if fromWhich = 1 then 0 else 1) ∧
    (∀ t, p.target = NetConn.ptr (some t) →
      (p.Close err fromWhich).2.count (Event.connClose t) = if fromWhich = 2 then 0 else 1) ∧
    (∀ g, p.targetGuacamole = some g →
      (p.Close err fromWhich).2.count (Event.connClose g) = if fromWhich = 2 then 0 else 1) ∧
    (∀ l, p.lfsxPeer = some l → lfsxEvents (p.Close err fromWhich).2 = (l.Close err 0).2) := by
  obtain ⟨ev, hev⟩ := closeTarget_isSome p fromWhich hnil
  have hevents := peer_Close_events p err fromWhich ev hopen hev
  have hwait : ∀ e, e ≠ Event.sleep400ms → (peer.closeWaitLoop p.ready 52 0).2.count e = 0 :=
    fun e he => List.count_eq_zero.mpr (fun h => he (mem_closeWaitLoop p.ready e h))
  have hlfsx : ∀ e, (∀ x, e ≠ Event.lfsx x) → (p.closeLfsx err).2.count e = 0 :=
    fun e he => List.count_eq_zero.mpr (fun h => by
      obtain ⟨x, hx⟩ := mem_closeLfsx p err e h
      exact he x hx)
  refine ⟨?_, ?_, ?_, ?_, ?_, ?_, ?_⟩
  · simp [peer.CloseCalls, peer_CloseCalls_closed _ rest (peer_Close_sets_closed p err fromWhich)]
  · intro e f
    exact peer_Close_closed _ e f (peer_Close_sets_closed p err fromWhich)
  · rw [hevents]
    have h1 : (peer.closeWaitLoop p.ready 52 0).2.countP Event.isOnDisconnect = 0 := by
      rw [List.countP_eq_zero]
      intro a ha
      rw [mem_closeWaitLoop p.ready a ha]
      simp [Event.isOnDisconnect]
    have h2 : (p.closeLfsx err).2.countP Event.isOnDisconnect = 0 := by
      rw [List.countP_eq_zero]
      intro a ha
      obtain ⟨x, rfl⟩ := mem_closeLfsx p err a ha
      simp [Event.isOnDisconnect]
    have h3 : (p.closeSource err fromWhich).countP Event.isOnDisconnect = 0 := by
      rw [List.countP_eq_zero]
      intro a ha
      obtain ⟨s, _, _, h | ⟨d, h⟩⟩ := mem_closeSource p err fromWhich a ha <;>
        simp [h, Event.isOnDisconnect]
    have h4 : ev.countP Event.isOnDisconnect = 0 := by
      rw [List.countP_eq_zero]
      intro a ha
      obtain ⟨t, _, _, _, h⟩ := mem_closeTarget p fromWhich ev hev a ha
      simp [h, Event.isOnDisconnect]
    have h5 : (p.closeGuacamole fromWhich).countP Event.isOnDisconnect = 0 := by
      rw [List.countP_eq_zero]
      intro a ha
      obtain ⟨g, _, _, h⟩ := mem_closeGuacamole p fromWhich a ha
      simp [h, Event.isOnDisconnect]
    simp [List.countP_append, h1, h2, h3, h4, h5, Event.isOnDisconnect]
  · intro s hs
    rw [hevents]
    have h4 : ev.count (Event.wsClose s) = 0 :=
      List.count_eq_zero.mpr (fun ha => by
        obtain ⟨t, _, _, _, h⟩ := mem_closeTarget p fromWhich ev hev _ ha
        exact Event.noConfusion h)
    have h5 : (p.closeGuacamole fromWhich).count (Event.wsClose s) = 0 :=
      List.count_eq_zero.mpr (fun ha => by
        obtain ⟨g, _, _, h⟩ := mem_closeGuacamole p fromWhich _ ha
        exact Event.noConfusion h)
    simp only [List.count_append, closeSource_count_wsClose p err fromWhich s hs, h4, h5,
      hwait (Event.wsClose s) (by simp), hlfsx (Event.wsClose s) (by simp)]
    simp [List.count_cons]
  · intro t ht
    rw [hevents]
    have hu : p.guacamole.Used = false := by
      cases hu : p.guacamole.Used
      · rfl
      · exact absurd ht (hguac hu t)
    have hevt : ev = if fromWhich = 2 then [] else [Event.connClose t] := by
      have := closeTarget_count_connClose p fromWhich t ht hu
      rw [hev] at this
      exact Option.some.inj this
    have h3 : (p.closeSource err fromWhich).count (Event.connClose t) = 0 :=
      List.count_eq_zero.mpr (fun ha => by
        obtain ⟨s, _, _, h | ⟨d, h⟩⟩ := mem_closeSource p err fromWhich _ ha <;>
          exact Event.noConfusion h)
    have h5 : (p.closeGuacamole fromWhich).count (Event.connClose t) = 0 :=
      List.count_eq_zero.mpr (fun ha => by
        obtain ⟨g, hg, _, h⟩ := mem_closeGuacamole p fromWhich _ ha
        have hgt : t = g := by simpa using h
        exact hdist t ht (by rw [hg, hgt]))
    simp only [List.count_append, h3, h5,
      hwait (Event.connClose t) (by simp), hlfsx (Event.connClose t) (by simp)]
    rw [hevt]
    by_cases h2 : fromWhich = 2 <;> simp [h2, List.count_cons]
  · intro g hg
    rw [hevents]
    have h3 : (p.closeSource err fromWhich).count (Event.connClose g) = 0 :=
      List.count_eq_zero.mpr (fun ha => by
        obtain ⟨s, _, _, h | ⟨d, h⟩⟩ := mem_closeSource p err fromWhich _ ha <;>
          exact Event.noConfusion h)
    have h4 : ev.count (Event.connClose g) = 0 :=
      List.count_eq_zero.mpr (fun ha => by
        obtain ⟨t, ht, _, _, h⟩ := mem_closeTarget p fromWhich ev hev _ ha
        have hgt : g = t := by simpa using h
        exact hdist t ht (by rw [hg, hgt]))
    simp only [List.count_append, h3, h4, closeGuacamole_count_connClose p fromWhich g hg,
      hwait (Event.connClose g) (by simp), hlfsx (Event.connClose g) (by simp)]
    simp [List.count_cons]
  · intro l hl
    rw [hevents]
    simp only [lfsxEvents_append]
    rw [lfsxEvents_eq_nil _ (fun e he x hx => by
        rw [mem_closeWaitLoop p.ready e he] at hx
        exact Event.noConfusion hx),
      lfsxEvents_eq_nil (p.closeSource err fromWhich) (fun e he x hx => by
        obtain ⟨s, _, _, h | ⟨d, h⟩⟩ := mem_closeSource p err fromWhich e he <;>
          · rw [h] at hx
            exact Event.noConfusion hx),
      lfsxEvents_eq_nil ev (fun e he x hx => by
        obtain ⟨t, _, _, _, h⟩ := mem_closeTarget p fromWhich ev hev e he
        rw [h] at hx
        exact Event.noConfusion hx),
      lfsxEvents_eq_nil (p.closeGuacamole fromWhich) (fun e he x hx => by
        obtain ⟨g, _, _, h⟩ := mem_closeGuacamole p fromWhich e he
        rw [h] at hx
        exact Event.noConfusion hx)]
    simp [peer.closeLfsx, hl, lfsxEvents_map, lfsxEvents]

/-- The raw peer with sockets 10 and 11, closed three times: by the backend with an error,
then by the client, then from an unknown side. -/
theorem peer_Close_idempotent_witness :
    (rawPeer 10 11).closed = false ∧
    (rawPeer 10 11).CloseCalls [(some "EOF", 2), (none, 1), (some "late", 0)]
      = (rawPeer 10 11).Close (some "EOF") 2 ∧
    ((rawPeer 10 11).Close (some "EOF") 2).2 =
      [Event.wsWriteMessage 10 MessageType.CloseMessage (closeFramePayload "EOF"),
       Event.wsClose 10, Event.onDisconnect (some "EOF") 2] :=
  ⟨by decide,
   (peer_Close_idempotent (rawPeer 10 11) (some "EOF") 2 [(none, 1), (some "late", 0)]
      (by decide) (by decide) (fun h => absurd h (by decide))
      (fun c _ => by simp [rawPeer, peer.SetConnections, NewPeer])).1,
   by decide⟩

/-- C3: a Guacamole session that is closed before `proxyGuacamole` has set
`guacamole.Used`, as the refusal of a second session closes it in `Proxy` (line 225).  The
first `Close` writes the CLOSE message and closes the client socket, and then calls `Close`
on the nil VNC pointer that `SetConnections` stored in the field `target`: the teardown is
aborted there, so the guacd connection that the peer holds is not closed and the disconnect
callback is not invoked.  The peer is marked closed all the same, and the later calls of
`Close` do nothing: the guacd connection is closed by none of the calls. -/
theorem peer_Close_before_proxyGuacamole :
    guacPeerBeforeProxy.closed = false ∧
    guacPeerBeforeProxy.targetGuacamole = some 31 ∧
    guacPeerBeforeProxy.Close (some "USER_ALREADY_EXISTS") 0
      = ({ guacPeerBeforeProxy with closed := true },
         [Event.wsWriteMessage 30 MessageType.CloseMessage
            (closeFramePayload "USER_ALREADY_EXISTS"),
          Event.wsClose 30, Event.nilDereference]) ∧
    (guacPeerBeforeProxy.Close (some "USER_ALREADY_EXISTS") 0).2.countP Event.isOnDisconnect
      = 0 ∧
    (guacPeerBeforeProxy.CloseCalls
        [(some "USER_ALREADY_EXISTS", 0), (none, 1), (some "EOF", 2)]).2.count
      (Event.connClose 31) = 0 ∧
    guacPeerBeforeProxy.CloseCalls [(some "USER_ALREADY_EXISTS", 0), (none, 1), (some "EOF", 2)]
      = guacPeerBeforeProxy.Close (some "USER_ALREADY_EXISTS") 0 := by
  decide

/-! ## Raw tunnel (peer.go) -/

theorem runHandler_OnSourceMessage_raw (p : peer) (t : Conn) (hready : p.ready = true)
    (hraw : p.guacamole.Used = false) (ht : p.target = NetConn.ptr (some t))
    (ds : List Bytes) :
    runHandler p.OnSourceMessage ds = some (ds.map (Event.connWrite t)) := by
  induction ds with
  | nil => rfl
  | cons d rest ih => simp [runHandler, peer.OnSourceMessage, hready, hraw, ht, ih]

theorem runHandler_OnTargetMessage (p : peer) (s : Conn) (hready : p.ready = true)
    (hs : p.source = some s) (bs : List Bytes) :
    runHandler p.OnTargetMessage bs
      = some (bs.map (Event.wsWriteMessage s MessageType.BinaryMessage)) := by
  induction bs with
  | nil => rfl
  | cons d rest ih => simp [runHandler, peer.OnTargetMessage, hready, hs, ih]

theorem writtenTo_map_connWrite (t : Conn) (ds : List Bytes) :
    writtenTo t (ds.map (Event.connWrite t)) = ds := by
  induction ds with
  | nil => rfl
  | cons d rest ih => simp [writtenTo, ih]

theorem framesTo_map_wsWriteMessage (s : Conn) (mt : MessageType) (bs : List Bytes) :
    framesTo s (bs.map (Event.wsWriteMessage s mt)) = bs.map (fun b => (mt, b)) := by
  induction bs with
  | nil => rfl
  | cons d rest ih => simp [framesTo, ih]

/-- C4 (byte transparency in RAW mode).  For a ready peer that is not in Guacamole mode, with
VNC connection `t` and client socket `s`: the frames `ds` of the client make `OnSourceMessage`
call `Write` on `t` once per frame, with exactly the frames in their order, so the bytes
written are the bytes sent; the buffers `bs` of the backend make `OnTargetMessage` write
exactly one binary frame per buffer to `s`, with the buffers as payloads in their order. -/
theorem raw_byte_transparency (p : peer) (s t : Conn) (ds bs : List Bytes)
    (hready : p.ready = true) (hraw : p.guacamole.Used = false)
    (ht : p.target = NetConn.ptr (some t)) (hs : p.source = some s) :
    (∃ evs, runHandler p.OnSourceMessage ds = some evs ∧
      evs = ds.map (Event.connWrite t) ∧
      writtenTo t evs = ds ∧ (writtenTo t evs).flatten = ds.flatten) ∧
    (∃ evs, runHandler p.OnTargetMessage bs = some evs ∧
      evs.length = bs.length ∧
      evs = bs.map (Event.wsWriteMessage s MessageType.BinaryMessage) ∧
      framesTo s evs = bs.map (fun b => (MessageType.BinaryMessage, b))) := by
  refine ⟨⟨_, runHandler_OnSourceMessage_raw p t hready hraw ht ds, rfl, ?_, ?_⟩,
    ⟨_, runHandler_OnTargetMessage p s hready hs bs, by simp, rfl, ?_⟩⟩
  · exact writtenTo_map_connWrite t ds
  · rw [writtenTo_map_connWrite t ds]
  · exact framesTo_map_wsWriteMessage s _ bs

/-- C4 on the raw peer with sockets 10 and 11: the client frames `41 42` and `43` (hex) reach
the backend as they are, and the buffers `1 2` and `3` of the backend reach the client. -/
theorem raw_byte_transparency_witness :
    (rawPeer 10 11).ready = true ∧ (rawPeer 10 11).guacamole.Used = false ∧
    runHandler (rawPeer 10 11).OnSourceMessage [[65, 66], [67]]
      = some [Event.connWrite 11 [65, 66], Event.connWrite 11 [67]] ∧
    runHandler (rawPeer 10 11).OnTargetMessage [[1, 2], [3]]
      = some [Event.wsWriteMessage 10 MessageType.BinaryMessage [1, 2],
              Event.wsWriteMessage 10 MessageType.BinaryMessage [3]] := by
  have h := raw_byte_transparency (rawPeer 10 11) 10 11 [[65, 66], [67]] [[1, 2], [3]]
    (by decide) (by decide) (by decide) (by decide)
  obtain ⟨⟨e1, h1, h2, _⟩, ⟨e2, h3, _, h4, _⟩⟩ := h
  exact ⟨by decide, by decide, by rw [h1, h2]; rfl, by rw [h3, h4]; rfl⟩

/-! ## Guacamole tunnel, client to guacd (peer.go) -/

theorem internalOpcodeIns_eq : internalOpcodeIns = [48, 46] := by decide

theorem toDigitsCore_head (fuel : Nat) :
    ∀ (n : Nat) (ds : List Char), n < fuel → 0 < n →
      ∃ c cs, Nat.toDigitsCore 10 fuel n ds = c :: cs ∧ c.toNat ≠ 48 := by
  induction fuel with
  | zero => intro n ds h; omega
  | succ fuel ih =>
    intro n ds hlt hpos
    unfold Nat.toDigitsCore
    by_cases h0 : n / 10 = 0
    · have hn : n < 10 := by omega
      refine ⟨Nat.digitChar (n % 10), ds, by simp [h0], ?_⟩
      interval_cases n <;> decide
    · obtain ⟨c, cs, hc, hne⟩ := ih (n / 10) (Nat.digitChar (n % 10) :: ds)
        (by omega) (by omega)
      exact ⟨c, cs, by simp [h0, hc], hne⟩

/-- The decimal digits of a positive number do not start with the digit zero. -/
theorem decimalBytes_head (n : Nat) (hpos : 0 < n) :
    ∃ c cs, decimalBytes n = c :: cs ∧ c ≠ 48 := by
  obtain ⟨c, cs, hc, hne⟩ := toDigitsCore_head (n + 1) n [] (by omega) hpos
  exact ⟨c.toNat, cs.map Char.toNat, by simp [decimalBytes, Nat.toDigits, hc], hne⟩

theorem encodeElements_cons (e : Bytes) (rest : List Bytes) :
    ∃ tail, encodeElements (e :: rest) = decimalBytes e.length ++ 46 :: tail := by
  cases rest with
  | nil => exact ⟨e, by simp [encodeElements, encodeElement]⟩
  | cons r rs =>
    exact ⟨e ++ [44] ++ encodeElements (r :: rs), by simp [encodeElements, encodeElement]⟩

/-- A frame of instructions starts with the bytes of `0.` exactly when the opcode of its first
instruction is empty. -/
theorem encodeFrame_hasPrefix (i : Instruction) (rest : List Instruction) :
    bytes_HasPrefix (encodeFrame (i :: rest)) internalOpcodeIns = decide (i.opcode = []) := by
  obtain ⟨tail, ht⟩ := encodeElements_cons i.opcode i.args
  have hframe : encodeFrame (i :: rest)
      = decimalBytes i.opcode.length ++ 46 :: (tail ++ [59] ++ encodeFrame rest) := by
    simp [encodeFrame, encodeInstruction, ht]
  rw [hframe, internalOpcodeIns_eq]
  by_cases h : i.opcode = []
  · have : decimalBytes 0 = [48] := by decide
    simp [h, this, bytes_HasPrefix]
  · have hpos : 0 < i.opcode.length := List.length_pos.mpr h
    obtain ⟨c, cs, hc, hne⟩ := decimalBytes_head _ hpos
    simp [h, hc, bytes_HasPrefix, List.isPrefixOf, hne]
    intro h48
    exact absurd h48.symm hne

/-- C5 as stated fails: the frame `4.sync,1.1;0.,1.a;` consists of two instructions, the second
with the empty opcode; `OnSourceMessage` of a peer in Guacamole mode writes the whole frame to
guacd, so the bytes written contain an instruction whose opcode is the empty string. -/
theorem guacamole_internal_instruction_reaches_guacd :
    guacPeer.ready = true ∧ guacPeer.guacamole.Used = true ∧
    internalInstruction.opcode = [] ∧
    encodeFrame [syncInstruction, internalInstruction] = stringBytes "4.sync,1.1;0.,1.a;" ∧
    guacPeer.OnSourceMessage (encodeFrame [syncInstruction, internalInstruction])
      = some [Event.writerWrite 32 (encodeFrame [syncInstruction, internalInstruction])] := by
  decide

/-- C5 as amended.  In Guacamole mode, for a frame of one or more instructions,
`OnSourceMessage` looks at the start of the frame only: when the first instruction has the
empty opcode (the frame starts with `0.`) nothing is written to guacd; otherwise, once the
guacd writer has been acquired, the whole frame is written to it unmodified, in one `Write`.
So the bytes written never start with an instruction whose opcode is empty, and, with the
writer acquired, a frame that contains no such instruction is written unmodified.  While the
writer is still nil, a frame that is not dropped ends in a nil dereference and nothing is
written. -/
theorem guacamole_OnSourceMessage_drop (p : peer) (i : Instruction)
    (rest : List Instruction)
    (hready : p.ready = true) (hguac : p.guacamole.Used = true) :
    (i.opcode = [] → p.OnSourceMessage (encodeFrame (i :: rest)) = some []) ∧
    (∀ w, p.guacamole.Writer = some w → i.opcode ≠ [] →
      p.OnSourceMessage (encodeFrame (i :: rest))
        = some [Event.writerWrite w (encodeFrame (i :: rest))]) ∧
    (∀ w d, p.OnSourceMessage (encodeFrame (i :: rest)) = some [Event.writerWrite w d] →
        d = encodeFrame (i :: rest) ∧ bytes_HasPrefix d internalOpcodeIns = false) ∧
    (∀ w, p.guacamole.Writer = some w → (∀ j ∈ i :: rest, j.opcode ≠ []) →
      p.OnSourceMessage (encodeFrame (i :: rest))
        = some [Event.writerWrite w (encodeFrame (i :: rest))]) ∧
    (p.guacamole.Writer = none → i.opcode ≠ [] →
      p.OnSourceMessage (encodeFrame (i :: rest)) = none) := by
  have key : p.OnSourceMessage (encodeFrame (i :: rest))
      = if i.opcode = [] then some []
        else match p.guacamole.Writer with
          | some w => some [Event.writerWrite w (encodeFrame (i :: rest))]
          | none => none := by
    unfold peer.OnSourceMessage
    simp only [hready, hguac, encodeFrame_hasPrefix]
    by_cases h : i.opcode = [] <;> simp [h]
  refine ⟨fun h => by rw [key]; simp [h], fun w hw h => by rw [key]; simp [h, hw], ?_, ?_,
    fun hw h => by rw [key]; simp [h, hw]⟩
  · intro w d hd
    rw [key] at hd
    by_cases h : i.opcode = []
    · simp [h] at hd
    · cases hw : p.guacamole.Writer with
      | none => simp [h, hw] at hd
      | some w2 =>
        simp only [h, hw, if_false, Option.some.injEq, List.cons.injEq, Event.writerWrite.injEq,
          and_true] at hd
        obtain ⟨_, hd2⟩ := hd
        subst hd2
        exact ⟨rfl, by rw [encodeFrame_hasPrefix]; simp [h]⟩
  · intro w hw hall
    rw [key]
    simp [hall i (List.mem_cons_self _ _), hw]

/-- C5 as amended, on the Guacamole peer: the frame `0.,1.a;4.sync,1.1;` is dropped as a
whole and the frame `4.sync,1.1;` is written to the guacd writer as it is. -/
theorem guacamole_OnSourceMessage_drop_witness :
    guacPeer.ready = true ∧ guacPeer.guacamole.Used = true ∧
    guacPeer.guacamole.Writer = some 32 ∧
    guacPeer.OnSourceMessage (encodeFrame [internalInstruction, syncInstruction]) = some [] ∧
    guacPeer.OnSourceMessage (encodeFrame [syncInstruction])
      = some [Event.writerWrite 32 (stringBytes "4.sync,1.1;")] :=
  ⟨by decide, by decide, by decide,
   (guacamole_OnSourceMessage_drop guacPeer internalInstruction [syncInstruction]
      (by decide) (by decide)).1 (by decide),
   by
     have h := (guacamole_OnSourceMessage_drop guacPeer syncInstruction []
       (by decide) (by decide)).2.1 32 (by decide) (by decide)
     rw [h]
     decide⟩

/-! ## Control channel (peer_lfsx.go) -/

theorem filterMap_sentTo_map (o c : Conn) (f : WebSocketMessage → Update)
    (ms : List WebSocketMessage) :
    (ms.map (fun m => LfsxEvent.send c (f m))).filterMap (LfsxEvent.sentTo o)
      = if c = o then ms.map f else [] := by
  induction ms with
  | nil => simp
  | cons m rest ih =>
    by_cases h : c = o
    · simp [LfsxEvent.sentTo, h] at ih ⊢
      exact ih
    · simp [LfsxEvent.sentTo, h] at ih ⊢

theorem filterMap_sentTo_flatMap (o : Conn) (f : WebSocketMessage → Update)
    (ms : List WebSocketMessage) (obs : List Conn) :
    (obs.flatMap (fun c => ms.map (fun m => LfsxEvent.send c (f m)))).filterMap
        (LfsxEvent.sentTo o)
      = (List.replicate (obs.count o) (ms.map f)).flatten := by
  induction obs with
  | nil => simp
  | cons c rest ih =>
    rw [List.flatMap_cons, List.filterMap_append, ih, filterMap_sentTo_map]
    by_cases h : c = o
    · subst h
      simp [List.replicate_succ]
    · have h2 : ¬ (c == o) = true := by simpa using h
      simp [h, List.count_cons, h2]

theorem notifyForUpdates_filter_isSend (p : lfsxPeer) (d : Bool) (data : WebSocketData) :
    (p.notifyForUpdates d data).filter LfsxEvent.isSend = p.notifyForUpdates d data := by
  rw [List.filter_eq_self]
  intro e he
  simp only [lfsxPeer.notifyForUpdates, List.mem_flatMap, List.mem_map] at he
  obtain ⟨_, _, _, _, rfl⟩ := he
  rfl

theorem notifyForUpdates_filter_isWrite (p : lfsxPeer) (d : Bool) (data : WebSocketData) :
    (p.notifyForUpdates d data).filter LfsxEvent.isWrite = [] := by
  rw [List.filter_eq_nil_iff]
  intro e he
  simp only [lfsxPeer.notifyForUpdates, List.mem_flatMap, List.mem_map] at he
  obtain ⟨_, _, _, _, rfl⟩ := he
  simp [LfsxEvent.isWrite]

/-- C6 (control envelope fan-out).  For an envelope with messages `m1..mk`, handled while the
distinct observers `o1..on` are registered, `notifyForUpdates` starts `n * k` sends; every one
of them goes to a registered observer and carries an inner message of the envelope with the
`ID` and `ResponseTo` of the envelope and the direction flag; each observer is sent exactly the
updates of `m1..mk`, one per message and in their order, and a channel that is not registered
is sent nothing.  The sends of `OnSourceMessage` are those with the flag false, the sends of
`OnTargetMessage` those with the flag true. -/
theorem notifyForUpdates_fanout (p : lfsxPeer) (d : Bool) (data : WebSocketData)
    (hnodup : p.observers.Nodup) :
    (p.notifyForUpdates d data).length = p.observers.length * data.Messages.length ∧
    (∀ e ∈ p.notifyForUpdates d data, ∃ o ∈ p.observers, ∃ m ∈ data.Messages,
        e = LfsxEvent.send o
          { Message := m, ID := data.ID, ResponseTo := data.ResponseTo, FromLfsx := d }) ∧
    (∀ o ∈ p.observers,
        (p.notifyForUpdates d data).filterMap (LfsxEvent.sentTo o)
          = data.Messages.map (fun m =>
              { Message := m, ID := data.ID, ResponseTo := data.ResponseTo, FromLfsx := d })) ∧
    (∀ o, o ∉ p.observers →
        (p.notifyForUpdates d data).filterMap (LfsxEvent.sentTo o) = []) ∧
    (∀ (unmarshal : Bytes → Option WebSocketData) (raw : Bytes), unmarshal raw = some data →
        (p.OnSourceMessage unmarshal raw).filter LfsxEvent.isSend
          = p.notifyForUpdates false data ∧
        (p.OnTargetMessage unmarshal raw).filter LfsxEvent.isSend
          = p.notifyForUpdates true data) := by
  refine ⟨?_, ?_, ?_, ?_, ?_⟩
  · simp [lfsxPeer.notifyForUpdates, List.length_flatMap, Function.comp_def]
  · intro e he
    simp only [lfsxPeer.notifyForUpdates, List.mem_flatMap, List.mem_map] at he
    obtain ⟨o, ho, m, hm, rfl⟩ := he
    exact ⟨o, ho, m, hm, rfl⟩
  · intro o ho
    have h := filterMap_sentTo_flatMap o
      (fun m => { Message := m, ID := data.ID, ResponseTo := data.ResponseTo, FromLfsx := d })
      data.Messages p.observers
    simp only [lfsxPeer.notifyForUpdates]
    rw [h, List.count_eq_one_of_mem hnodup ho]
    simp
  · intro o ho
    have h := filterMap_sentTo_flatMap o
      (fun m => { Message := m, ID := data.ID, ResponseTo := data.ResponseTo, FromLfsx := d })
      data.Messages p.observers
    simp only [lfsxPeer.notifyForUpdates]
    rw [h, List.count_eq_zero_of_not_mem ho]
    simp
  · intro unmarshal raw hraw
    constructor
    · unfold lfsxPeer.OnSourceMessage
      simp only [hraw, List.filter_append, notifyForUpdates_filter_isSend]
      cases p.ready <;> cases p.target <;> simp [LfsxEvent.isSend]
    · unfold lfsxPeer.OnTargetMessage
      simp only [hraw, List.filter_append, notifyForUpdates_filter_isSend]
      cases p.ready <;> cases p.source <;> simp [LfsxEvent.isSend]

/-- C6 on the control peer with observers 7 and 8 and an envelope of two messages: four
sends, and observer 8 is sent the two updates in the order of the messages. -/
theorem notifyForUpdates_fanout_witness :
    controlPeer.observers.Nodup ∧
    (controlPeer.notifyForUpdates true startupEnvelope).length = 2 * 2 ∧
    (controlPeer.notifyForUpdates true startupEnvelope).filterMap (LfsxEvent.sentTo 8)
      = [{ Message := { type := "LfsStartup", LoginRequest := none }, ID := 5, ResponseTo := 3,
           FromLfsx := true },
         { Message := { type := "Other", LoginRequest := none }, ID := 5, ResponseTo := 3,
           FromLfsx := true }] :=
  ⟨by decide,
   (notifyForUpdates_fanout controlPeer true startupEnvelope (by decide)).1,
   by decide⟩

/-- C7 (control channel forwarding).  A message received by `OnSourceMessage` is written to
the pod socket if and only if it unmarshals, the peer is ready and the pod socket is present;
then exactly one frame is written, a TEXT frame to the pod socket whose payload is the
message received.  The same holds for `OnTargetMessage` and the client socket.  A message
that does not unmarshal causes no call at all: no send to an observer and no frame. -/
theorem lfsxPeer_forwarding (unmarshal : Bytes → Option WebSocketData) (p : lfsxPeer)
    (raw : Bytes) :
    ((∃ e ∈ p.OnSourceMessage unmarshal raw, e.isWrite = true) ↔
      ((unmarshal raw).isSome = true ∧ p.ready = true ∧ p.target.isSome = true)) ∧
    (∀ t, (unmarshal raw).isSome = true → p.ready = true → p.target = some t →
      (p.OnSourceMessage unmarshal raw).filter LfsxEvent.isWrite
        = [LfsxEvent.wsWriteMessage t MessageType.TextMessage raw]) ∧
    ((∃ e ∈ p.OnTargetMessage unmarshal raw, e.isWrite = true) ↔
      ((unmarshal raw).isSome = true ∧ p.ready = true ∧ p.source.isSome = true)) ∧
    (∀ s, (unmarshal raw).isSome = true → p.ready = true → p.source = some s →
      (p.OnTargetMessage unmarshal raw).filter LfsxEvent.isWrite
        = [LfsxEvent.wsWriteMessage s MessageType.TextMessage raw]) ∧
    (unmarshal raw = none →
      p.OnSourceMessage unmarshal raw = [] ∧ p.OnTargetMessage unmarshal raw = []) := by
  have hmem : ∀ (l : List LfsxEvent), (∃ e ∈ l, e.isWrite = true) ↔ l.filter LfsxEvent.isWrite ≠ [] := by
    intro l
    rw [Ne, List.filter_eq_nil_iff]
    push_neg
    rfl
  refine ⟨?_, ?_, ?_, ?_, ?_⟩
  · rw [hmem]
    unfold lfsxPeer.OnSourceMessage
    cases hu : unmarshal raw with
    | none => simp
    | some d =>
      simp only [List.filter_append, notifyForUpdates_filter_isWrite]
      cases p.ready <;> cases p.target <;> simp [LfsxEvent.isWrite]
  · intro t hu hr ht
    unfold lfsxPeer.OnSourceMessage
    cases hd : unmarshal raw with
    | none => simp [hd] at hu
    | some d =>
      simp only [List.filter_append, notifyForUpdates_filter_isWrite]
      simp [hr, ht, LfsxEvent.isWrite]
  · rw [hmem]
    unfold lfsxPeer.OnTargetMessage
    cases hu : unmarshal raw with
    | none => simp
    | some d =>
      simp only [List.filter_append, notifyForUpdates_filter_isWrite]
      cases p.ready <;> cases p.source <;> simp [LfsxEvent.isWrite]
  · intro t hu hr ht
    unfold lfsxPeer.OnTargetMessage
    cases hd : unmarshal raw with
    | none => simp [hd] at hu
    | some d =>
      simp only [List.filter_append, notifyForUpdates_filter_isWrite]
      simp [hr, ht, LfsxEvent.isWrite]
  · intro hu
    simp [lfsxPeer.OnSourceMessage, lfsxPeer.OnTargetMessage, hu]

/-- C7 on the control peer with client socket 40 and pod socket 41, for an unmarshaller that
accepts the message `{}` only: `{}` from the client is written to the pod socket once, as it
is, `{}` from the pod is written to the client socket once, and the message `x` causes no
call. -/
theorem lfsxPeer_forwarding_witness :
    (controlPeer.OnSourceMessage onlyEmptyObject (stringBytes "\x7b\x7d")).filter
        LfsxEvent.isWrite
      = [LfsxEvent.wsWriteMessage 41 MessageType.TextMessage (stringBytes "\x7b\x7d")] ∧
    (controlPeer.OnTargetMessage onlyEmptyObject (stringBytes "\x7b\x7d")).filter
        LfsxEvent.isWrite
      = [LfsxEvent.wsWriteMessage 40 MessageType.TextMessage (stringBytes "\x7b\x7d")] ∧
    controlPeer.OnSourceMessage onlyEmptyObject (stringBytes "x") = [] ∧
    controlPeer.OnTargetMessage onlyEmptyObject (stringBytes "x") = [] :=
  ⟨(lfsxPeer_forwarding onlyEmptyObject controlPeer (stringBytes "\x7b\x7d")).2.1 41
      (by decide) (by decide) (by decide),
   (lfsxPeer_forwarding onlyEmptyObject controlPeer (stringBytes "\x7b\x7d")).2.2.2.1 40
      (by decide) (by decide) (by decide),
   ((lfsxPeer_forwarding onlyEmptyObject controlPeer (stringBytes "x")).2.2.2.2
      (by decide)).1,
   ((lfsxPeer_forwarding onlyEmptyObject controlPeer (stringBytes "x")).2.2.2.2
      (by decide)).2⟩

/-! ## Pod allocator (kuber/pods.go) -/

/-- The state after `findPodForUser`: one pod listing has been added to the calls. -/
theorem findPodForUser_run {σ : Type} (k : Kuber σ) (user : User) (st : Run σ) :
    (k.findPodForUser user st).2 =
      { st with
        world := (k.Client.PodsList (k.userSelector user) st.world).2,
        calls := st.calls ++ [ApiRecord.PodsList (k.userSelector user)
          (k.Client.PodsList (k.userSelector user) st.world).1] } := by
  simp only [Kuber.findPodForUser]
  split <;> rfl

/-- C8 (an existing pod is reused).  The pods of a user are listed with the labels
`app=<base>-lfs`, `db=lower(user.Database)`, `user=lower(user.DbUser)`, `placeholder=false`.
When that listing answers a non-empty list, `GetPodByUser` returns the first listed pod, the
flag false and no error, and the listing is the only API call it makes: no patch, no
creation, no task started.  When the listing answers the empty list, every result that
`GetPodByUser` returns has the flag true, and it returns whenever `createJobForUserAbstract`
does. -/
theorem GetPodByUser_existing_pod {σ : Type} (k : Kuber σ) (user : User) (fuel : Nat)
    (st : Run σ) :
    k.userSelector user =
      [("app", k.BaseAppName ++ "-lfs"), ("db", strings_ToLower user.Database.String),
       ("user", strings_ToLower user.DbUser), ("placeholder", "false")] ∧
    (∀ p rest,
      (k.Client.PodsList (k.userSelector user) st.world).1 = .ok (p :: rest) →
      ∃ st1, k.GetPodByUser user fuel st
          = some ({ pod := some p, created := false, err := none }, st1) ∧
        st1.spawned = st.spawned ∧
        st1.calls = st.calls ++ [ApiRecord.PodsList (k.userSelector user) (.ok (p :: rest))]) ∧
    ((k.Client.PodsList (k.userSelector user) st.world).1 = .ok [] →
      (∀ r, k.GetPodByUser user fuel st = some r → r.1.created = true) ∧
      (k.createJobForUserAbstract user fuel (k.findPodForUser user st).2 ≠ none →
        k.GetPodByUser user fuel st ≠ none)) := by
  refine ⟨rfl, ?_, ?_⟩
  · intro p rest h
    refine ⟨(k.findPodForUser user st).2, ?_, ?_, ?_⟩
    · unfold Kuber.GetPodByUser
      have : k.findPodForUser user st = (.ok (some p), (k.findPodForUser user st).2) := by
        simp only [Kuber.findPodForUser, h]
      rw [this]
    · rw [findPodForUser_run]
    · rw [findPodForUser_run, h]
  · intro h
    have hf : k.findPodForUser user st = (.ok none, (k.findPodForUser user st).2) := by
      simp only [Kuber.findPodForUser, h]
    constructor
    · intro r hr
      unfold Kuber.GetPodByUser at hr
      rw [hf] at hr
      simp only at hr
      cases hc : k.createJobForUserAbstract user fuel (k.findPodForUser user st).2 with
      | none => simp [hc] at hr
      | some x =>
        simp only [hc, Option.some.injEq] at hr
        rw [← hr]
    · intro hne
      unfold Kuber.GetPodByUser
      rw [hf]
      simp only
      cases hc : k.createJobForUserAbstract user fuel (k.findPodForUser user st).2 with
      | none => exact absurd hc hne
      | some x => simp

/-- C8 on the example cluster.  A user whose pod exists gets that pod with the flag false,
after one pod listing and nothing else; a user without pod, on a pool of two placeholders,
gets a result with the flag true. -/
theorem GetPodByUser_existing_pod_witness :
    ((exampleKuber [placeholderPod "alice"] []).GetPodByUser alice 1 (runOn 2)).map
        (fun r => (r.1, r.2.calls.length, r.2.spawned))
      = some ({ pod := some (placeholderPod "alice"), created := false, err := none },
              1, []) ∧
    ((exampleKuber [] []).GetPodByUser alice 1 (runOn 2)).map (fun r => r.1.created)
      = some true := by
  constructor
  · obtain ⟨st1, h1, h2, h3⟩ :=
      (GetPodByUser_existing_pod (exampleKuber [placeholderPod "alice"] []) alice 1
        (runOn 2)).2.1 (placeholderPod "alice") [] (by decide)
    rw [h1]
    simp only [Option.map_some', h2, h3]
    decide
  · cases hx : (exampleKuber [] []).GetPodByUser alice 1 (runOn 2) with
    | none => exact absurd hx (by decide)
    | some r =>
      have h := ((GetPodByUser_existing_pod (exampleKuber [] []) alice 1 (runOn 2)).2.2
        (by decide)).1 r hx
      simp [h]

/-- One pass of `createJobForUserAbstract`: when the listing answers `items` and the loop over
the sorted jobs returns, `createJobForUserAbstract` returns the same pod and error. -/
theorem createJobForUserAbstract_pass {σ : Type} (k : Kuber σ) (user : User) (fuel : Nat)
    (st st2 : Run σ) (items : List Job) (pod : Option Pod) (err : Option String)
    (hlist : (k.Client.JobsList k.placeholderSelector st.world).1 = .ok items)
    (hloop : k.patchLoop user k.placeholderSelector (sortSlice items).length
        (sortSlice items)
        { st with
          world := (k.Client.JobsList k.placeholderSelector st.world).2,
          calls := st.calls ++ [ApiRecord.JobsList k.placeholderSelector (.ok items)] }
      = .returned pod err st2) :
    k.createJobForUserAbstract user (fuel + 1) st = some ((pod, err), st2) := by
  simp only [Kuber.createJobForUserAbstract, hlist, hloop]

theorem jobPatches_append (a b : List ApiRecord) :
    jobPatches (a ++ b) = jobPatches a ++ jobPatches b := by
  induction a with
  | nil => rfl
  | cons x rest ih => cases x <;> simp [jobPatches, ih]

/-- The calls made by `claimPod`: they come after the earlier ones and patch no job. -/
theorem claimPod_calls {σ : Type} (k : Kuber σ) (user : User) (sel : LabelSet) (n : Nat)
    (job : Job) (st : Run σ) :
    ∃ extra, (k.claimPod user sel n job st).2.calls = st.calls ++ extra ∧
      jobPatches extra = [] := by
  simp only [Kuber.claimPod]
  split
  · exact ⟨_, rfl, rfl⟩
  · split
    · split
      · apply Exists.intro
        constructor
        · simp only [List.append_assoc]
          exact rfl
        · rfl
      · apply Exists.intro
        constructor
        · simp only [List.append_assoc]
          exact rfl
        · rfl
    · exact ⟨_, rfl, rfl⟩

/-- The loop over the listed jobs, for any list: the jobs are tried from the front, each with
its own resource version, until the first patch that the cluster accepts. -/
theorem patchLoop_tries {σ : Type} (k : Kuber σ) (user : User) (sel : LabelSet) (n : Nat)
    (jobs : List Job) : ∀ (st : Run σ),
    ∃ tried rest new,
      jobs = tried ++ rest ∧
      (k.patchLoop user sel n jobs st).run.calls = st.calls ++ new ∧
      (jobPatches new).map (fun x => (x.1, x.2.1))
        = tried.map (fun j => (j.Name,
            ({ Labels := Kuber.claimLabels user, ResourceVersion := j.ResourceVersion }
              : LabelPatch))) ∧
      (∀ st1, k.patchLoop user sel n jobs st = .fellThrough st1 →
        rest = [] ∧ (jobPatches new).map (fun x => x.2.2) = tried.map (fun _ => false)) ∧
      (∀ pod err st1, k.patchLoop user sel n jobs st = .returned pod err st1 →
        ∃ failed j, tried = failed ++ [j] ∧
          (jobPatches new).map (fun x => x.2.2) = failed.map (fun _ => false) ++ [true]) := by
  induction jobs with
  | nil =>
    intro st
    exact ⟨[], [], [], rfl, by simp [Kuber.patchLoop, LoopEnd.run], rfl,
      fun _ _ => ⟨rfl, rfl⟩, fun _ _ _ h => by simp [Kuber.patchLoop] at h⟩
  | cons job rest ih =>
    intro st
    cases hp : (k.Client.JobsPatch job.Name
        { Labels := Kuber.claimLabels user, ResourceVersion := job.ResourceVersion }
        st.world).1 with
    | none =>
      obtain ⟨extra, hextra, hnone⟩ := claimPod_calls k user sel n job
        { st with
          world := (k.Client.JobsPatch job.Name
            { Labels := Kuber.claimLabels user, ResourceVersion := job.ResourceVersion }
            st.world).2,
          calls := st.calls ++ [ApiRecord.JobsPatch job.Name
            { Labels := Kuber.claimLabels user, ResourceVersion := job.ResourceVersion } none] }
      refine ⟨[job], rest, ApiRecord.JobsPatch job.Name
            { Labels := Kuber.claimLabels user, ResourceVersion := job.ResourceVersion } none
            :: extra, rfl, ?_, ?_, ?_, ?_⟩
      · simp only [Kuber.patchLoop, hp, LoopEnd.run]
        rw [hextra]
        simp
      · simp [jobPatches, hnone]
      · intro st1 h
        simp [Kuber.patchLoop, hp] at h
      · intro pod err st1 _
        exact ⟨[], job, rfl, by simp [jobPatches, hnone]⟩
    | some e =>
      obtain ⟨tried, rest2, new, hsplit, hcalls, hnames, hfell, hret⟩ := ih
        { st with
          world := (k.Client.JobsPatch job.Name
            { Labels := Kuber.claimLabels user, ResourceVersion := job.ResourceVersion }
            st.world).2,
          calls := st.calls ++ [ApiRecord.JobsPatch job.Name
            { Labels := Kuber.claimLabels user, ResourceVersion := job.ResourceVersion }
            (some e)] }
      have hloop : k.patchLoop user sel n (job :: rest) st
          = k.patchLoop user sel n rest
              { st with
                world := (k.Client.JobsPatch job.Name
                  { Labels := Kuber.claimLabels user, ResourceVersion := job.ResourceVersion }
                  st.world).2,
                calls := st.calls ++ [ApiRecord.JobsPatch job.Name
                  { Labels := Kuber.claimLabels user, ResourceVersion := job.ResourceVersion }
                  (some e)] } := by
        simp only [Kuber.patchLoop, hp]
      refine ⟨job :: tried, rest2, ApiRecord.JobsPatch job.Name
            { Labels := Kuber.claimLabels user, ResourceVersion := job.ResourceVersion }
            (some e) :: new, by rw [hsplit]; rfl, ?_, ?_, ?_, ?_⟩
      · rw [hloop, hcalls]
        simp
      · simp [jobPatches, hnames]
      · intro st1 h
        rw [hloop] at h
        obtain ⟨h1, h2⟩ := hfell st1 h
        exact ⟨h1, by simp [jobPatches, h2]⟩
      · intro pod err st1 h
        rw [hloop] at h
        obtain ⟨failed, j, h1, h2⟩ := hret pod err st1 h
        exact ⟨job :: failed, j, by rw [h1]; rfl, by simp [jobPatches, h2]⟩

theorem sortSlice_perm (items : List Job) : (sortSlice items).Perm items :=
  List.perm_insertionSort _ items

theorem sortSlice_sorted (items : List Job) :
    (sortSlice items).Sorted (fun a b => a.CreationTimestamp ≤ b.CreationTimestamp) := by
  haveI : IsTotal Job (fun a b => Job.Before b a = false) :=
    ⟨fun a b => by
      simp only [Job.Before, decide_eq_false_iff_not, not_lt]
      exact le_total a.CreationTimestamp b.CreationTimestamp⟩
  haveI : IsTrans Job (fun a b => Job.Before b a = false) :=
    ⟨fun a b c hab hbc => by
      simp only [Job.Before, decide_eq_false_iff_not, not_lt] at hab hbc ⊢
      exact le_trans hab hbc⟩
  have h := List.sorted_insertionSort (fun a b => Job.Before b a = false) items
  refine List.Pairwise.imp ?_ h
  intro a b hab
  simpa [Job.Before] using hab

/-- C9 (oldest placeholder first).  `sort.Slice` with the comparator of the allocator orders
the listed jobs by non-decreasing creation time.  In one pass of `createJobForUserAbstract`
over the listed jobs, the jobs patched are a front part `tried` of the sorted list, hence
listed jobs in non-decreasing order of creation time; each job is patched under its own name
with the claim labels and its own `resourceVersion`; when the pass ends without a return,
every listed job was tried and every patch failed (no error is returned for a failed patch);
when the pass returns, the patch of the last job tried, the claimed one, is the only one that
succeeded, and the patches of all jobs before it in the order failed. -/
theorem patchLoop_oldest_first {σ : Type} (k : Kuber σ) (user : User) (items : List Job)
    (st : Run σ) :
    (sortSlice items).Sorted (fun a b => a.CreationTimestamp ≤ b.CreationTimestamp) ∧
    (sortSlice items).Perm items ∧
    ∃ tried rest new,
      sortSlice items = tried ++ rest ∧
      (∀ j ∈ tried, j ∈ items) ∧
      tried.Sorted (fun a b => a.CreationTimestamp ≤ b.CreationTimestamp) ∧
      (∀ a ∈ tried, ∀ b ∈ rest, a.CreationTimestamp ≤ b.CreationTimestamp) ∧
      (k.patchLoop user k.placeholderSelector (sortSlice items).length
          (sortSlice items) st).run.calls = st.calls ++ new ∧
      (jobPatches new).map (fun x => (x.1, x.2.1))
        = tried.map (fun j => (j.Name,
            ({ Labels := Kuber.claimLabels user, ResourceVersion := j.ResourceVersion }
              : LabelPatch))) ∧
      (∀ st1, k.patchLoop user k.placeholderSelector (sortSlice items).length
            (sortSlice items) st = .fellThrough st1 →
        rest = [] ∧ (jobPatches new).map (fun x => x.2.2) = tried.map (fun _ => false)) ∧
      (∀ pod err st1, k.patchLoop user k.placeholderSelector (sortSlice items).length
            (sortSlice items) st = .returned pod err st1 →
        ∃ failed j, tried = failed ++ [j] ∧
          (jobPatches new).map (fun x => x.2.2) = failed.map (fun _ => false) ++ [true]) := by
  have hsorted := sortSlice_sorted items
  have hperm := sortSlice_perm items
  obtain ⟨tried, rest, new, hsplit, hcalls, hnames, hfell, hret⟩ :=
    patchLoop_tries k user k.placeholderSelector (sortSlice items).length
      (sortSlice items) st
  refine ⟨hsorted, hperm, tried, rest, new, hsplit, ?_, ?_, ?_, hcalls, hnames, hfell, hret⟩
  · intro j hj
    have : j ∈ sortSlice items := by
      rw [hsplit]
      exact List.mem_append_left _ hj
    exact hperm.mem_iff.mp this
  · rw [hsplit] at hsorted
    exact (List.pairwise_append.mp hsorted).1
  · rw [hsplit] at hsorted
    exact (List.pairwise_append.mp hsorted).2.2

/-- The example cluster with the jobs listed newest first and the patch of the oldest job
`placeholder-0` failing: the jobs are sorted oldest first, the oldest job is tried first,
then `placeholder-1`, which is claimed. -/
theorem patchLoop_example :
    sortSlice [placeholderJob 1, placeholderJob 0] = [placeholderJob 0, placeholderJob 1] ∧
    jobPatches ((exampleKuber [] ["placeholder-0"]).patchLoop alice
        (exampleKuber [] ["placeholder-0"]).placeholderSelector 2
        (sortSlice [placeholderJob 1, placeholderJob 0]) (runOn 2)).run.calls
      = [("placeholder-0",
          { Labels := Kuber.claimLabels alice, ResourceVersion := "100" }, false),
         ("placeholder-1",
          { Labels := Kuber.claimLabels alice, ResourceVersion := "101" }, true)] := by
  decide

theorem strings_ToLower_append (a b : String) :
    strings_ToLower (a ++ b) = strings_ToLower a ++ strings_ToLower b := by
  simp [strings_ToLower, String.ext_iff]

/-- The lower-cased names of the databases end in different letters, so a key determines
where its user name ends. -/
theorem append_database_suffix (a b : List Char) (d1 d2 : Database)
    (h : a ++ '-' :: (strings_ToLower d1.String).data
       = b ++ '-' :: (strings_ToLower d2.String).data) : a = b ∧ d1 = d2 := by
  have hr := congrArg List.reverse h
  cases d1 <;> cases d2 <;>
    simp [Database.String, strings_ToLower, Char.toLower] at hr <;>
    exact ⟨hr, rfl⟩

/-- C11 (the identifier is a faithful session key).  `Identifier` is the lower-cased
`DbUser`, a hyphen and the lower-cased database name; two users have the same identifier
exactly when their `DbUser` values are equal after lower-casing and their databases are
equal, whatever characters (hyphens included) `DbUser` holds. -/
theorem Identifier_faithful (u1 u2 : User) :
    u1.Identifier = strings_ToLower (u1.DbUser ++ "-" ++ u1.Database.String) ∧
    u1.Identifier
      = strings_ToLower u1.DbUser ++ "-" ++ strings_ToLower u1.Database.String ∧
    (u1.Identifier = u2.Identifier ↔
      strings_ToLower u1.DbUser = strings_ToLower u2.DbUser ∧ u1.Database = u2.Database) := by
  have hid : ∀ u : User, u.Identifier
      = strings_ToLower u.DbUser ++ "-" ++ strings_ToLower u.Database.String := by
    intro u
    simp [User.Identifier, strings_ToLower_append]
    rfl
  refine ⟨rfl, hid u1, ?_⟩
  rw [hid u1, hid u2]
  constructor
  · intro h
    have hd := congrArg String.data h
    simp only [String.data_append] at hd
    have h2 := append_database_suffix (strings_ToLower u1.DbUser).data
      (strings_ToLower u2.DbUser).data u1.Database u2.Database (by simpa using hd)
    exact ⟨String.ext h2.1, h2.2⟩
  · rintro ⟨h1, h2⟩
    rw [h1, h2]

/-! ## Application and host proxy (proxy.go) -/

/-- C12 as stated fails: the session of `bob` has the database PRJ (its token names it
`lfsprj`); a request whose `Db` header is `PRJ`, the name of the session's own database, is
answered with status 409 and is not forwarded. -/
theorem ProxyLfsxRequest_own_database_refused :
    Claims.ToUser (fun s => s) none claimsPrj = .ok bob ∧
    bob.Database = Database.PRJ ∧ bob.Database.String = "PRJ" ∧
    vncWithBob.peer.get bob.Identifier = some 1 ∧
    (vncWithBob.ProxyLfsxRequest bob (requestWithDb "PRJ")).value
      = some { err := some { message := "Database missmatch between VNC db and requested db",
                             status := 409 },
               served := none } := by
  decide

/-- C12 as amended.  For a user with a registered session that has an application proxy, and
with the registry lock free: `ProxyLfsxRequest` fails with status 409 exactly when the `Db`
header of the request is non-empty and differs, letter case apart, from the database name of
the session's token (`DatabaseStr`); a request whose `Db` header is absent or empty, or equals
that name in any letter case, is forwarded to the application reverse proxy of the session
and nil is returned. -/
theorem ProxyLfsxRequest_database_check (vnc : VncProxy) (user : User) (request : Request)
    (ptr a : Nat)
    (hfree : vnc.peerSync.writer = false)
    (hreg : vnc.peer.get user.Identifier = some ptr)
    (hapi : (vnc.heap ptr).lfsxAPI = some a) :
    ((∃ e, (vnc.ProxyLfsxRequest user request).value = some { err := some e, served := none } ∧
        e.status = 409) ↔
      (request.Header.get "Db" ≠ "" ∧
        strings_EqualFold (request.Header.get "Db") (vnc.heap ptr).user.DatabaseStr = false)) ∧
    (request.Header.get "Db" = "" ∨
        strings_EqualFold (request.Header.get "Db") (vnc.heap ptr).user.DatabaseStr = true →
      (vnc.ProxyLfsxRequest user request).value = some { err := none, served := some a }) := by
  unfold VncProxy.ProxyLfsxRequest RWMutex.RLock
  simp only [hfree, hreg, hapi]
  by_cases hdb : request.Header.get "Db" = ""
  · simp [hdb, Outcome.value]
  · cases hf : strings_EqualFold (request.Header.get "Db") (vnc.heap ptr).user.DatabaseStr
    · simp [hdb, hf, Outcome.value]
    · simp [hdb, hf, Outcome.value]

/-- C12 as amended, on the session of `bob`: the header `LfsPrj` is forwarded to the
application proxy 5, the header `LFS` is answered 409. -/
theorem ProxyLfsxRequest_database_check_witness :
    (vncWithBob.ProxyLfsxRequest bob (requestWithDb "LfsPrj")).value
      = some { err := none, served := some 5 } ∧
    (∃ e, (vncWithBob.ProxyLfsxRequest bob (requestWithDb "LFS")).value
        = some { err := some e, served := none } ∧ e.status = 409) :=
  ⟨(ProxyLfsxRequest_database_check vncWithBob bob (requestWithDb "LfsPrj") 1 5
      (by decide) (by decide) (by decide)).2 (Or.inr (by decide)),
   (ProxyLfsxRequest_database_check vncWithBob bob (requestWithDb "LFS") 1 5
      (by decide) (by decide) (by decide)).1.mpr ⟨by decide, by decide⟩⟩

/-! ## Registered peers are ready (proxy.go) -/

theorem PeerMap_get_delete_some (m : PeerMap) (key k : String) (v : Nat)
    (h : (m.delete key).get k = some v) : m.get k = some v := by
  induction m with
  | nil => simp [PeerMap.delete, PeerMap.get] at h
  | cons kv rest ih =>
    obtain ⟨k0, v0⟩ := kv
    by_cases hk : k0 = key
    · have h1 : PeerMap.get (PeerMap.delete rest key) k = some v := by
        simpa [PeerMap.delete, List.filter_cons, hk] using h
      have hne : ¬ k0 = k := by
        intro hkk
        rw [← hkk, hk, PeerMap_get_delete_self] at h1
        exact Option.noConfusion h1
      simpa [PeerMap.get, hne] using ih h1
    · by_cases hkk : k0 = k
      · subst hkk
        simpa [PeerMap.delete, List.filter_cons, hk, PeerMap.get] using h
      · have h1 : PeerMap.get (PeerMap.delete rest key) k = some v := by
          simpa [PeerMap.delete, List.filter_cons, hk, PeerMap.get, hkk] using h
        simpa [PeerMap.get, hkk] using ih h1

theorem peer_Close_ready (p : peer) (err : Option String) (fromWhich : Int) :
    (p.Close err fromWhich).1.ready = p.ready := by
  unfold peer.Close
  by_cases h : p.closed = true
  · simp [h]
  · have hf : p.closed = false := by simpa using h
    simp only [hf, Bool.false_eq_true, if_false]
    split <;> rfl

theorem onPeerDisconnect_registryReady (vnc : VncProxy) (ptr : Nat)
    (h : vnc.registryReady) : (vnc.onPeerDisconnect ptr).state.registryReady := by
  unfold VncProxy.onPeerDisconnect
  cases hl : vnc.peerSync.Lock with
  | none => simpa [hl, Outcome.state, VncProxy.registryReady] using h
  | some m =>
    simp only [hl, Outcome.state]
    intro key q hq
    exact h key q (PeerMap_get_delete_some _ _ _ _ hq)

theorem peerClose_registryReady (vnc : VncProxy) (ptr : Nat) (err : Option String)
    (fromWhich : Int) (h : vnc.registryReady) :
    (vnc.peerClose ptr err fromWhich).state.registryReady := by
  have h1 : VncProxy.registryReady
      { vnc with heap := Function.update vnc.heap ptr ((vnc.heap ptr).Close err fromWhich).1,
                 trace := vnc.trace ++ ((vnc.heap ptr).Close err fromWhich).2 } := by
    intro key q hq
    have hq2 := h key q hq
    by_cases hqp : q = ptr
    · subst hqp
      simpa [peer_Close_ready] using hq2
    · simpa [Function.update, hqp] using hq2
  unfold VncProxy.peerClose
  simp only
  split
  · exact onPeerDisconnect_registryReady _ _ h1
  · split
    · exact h1
    · exact h1

theorem Proxy_addToList_registryReady (vnc : VncProxy) (ptr : Nat)
    (h : vnc.registryReady) (hready : (vnc.heap ptr).ready = true) :
    (vnc.Proxy_addToList ptr).state.registryReady := by
  unfold VncProxy.Proxy_addToList
  cases hl : vnc.peerSync.Lock with
  | none => simpa [Outcome.state] using h
  | some m =>
    simp only
    cases hg : vnc.peer.get (vnc.heap ptr).user.Identifier with
    | none =>
      simp only [Outcome.state]
      intro key q hq
      by_cases hk : (vnc.heap ptr).user.Identifier = key
      · have : q = ptr := by
          simpa [PeerMap.set, PeerMap.get, hk] using hq.symm
        rw [this]
        exact hready
      · have hq2 : PeerMap.get (PeerMap.delete vnc.peer (vnc.heap ptr).user.Identifier) key
            = some q := by
          simpa [PeerMap.set, PeerMap.get, hk] using hq
        exact h key q (PeerMap_get_delete_some _ _ _ _ hq2)
    | some old =>
      simp only
      have h2 := peerClose_registryReady { vnc with peerSync := m } ptr
        (some "USER_ALREADY_EXISTS") 0 h
      revert h2
      cases VncProxy.peerClose { vnc with peerSync := m } ptr (some "USER_ALREADY_EXISTS") 0 <;>
        exact fun h2 => h2

theorem Step_registryReady (a b : VncProxy) (hstep : VncProxy.Step a b)
    (h : a.registryReady) : b.registryReady := by
  cases hstep with
  | newPeer ptr user hfresh =>
    intro key q hq
    have hne : q ≠ ptr := fun hqp => hfresh key (hqp ▸ hq)
    simpa [Function.update, hne] using h key q hq
  | setLfsxPeer ptr l =>
    intro key q hq
    have hq2 := h key q hq
    by_cases hqp : q = ptr
    · subst hqp
      simpa using hq2
    · simpa [Function.update, hqp] using hq2
  | setGuacamole ptr g =>
    intro key q hq
    have hq2 := h key q hq
    by_cases hqp : q = ptr
    · subst hqp
      simpa using hq2
    · simpa [Function.update, hqp] using hq2
  | register ptr source target targetGuacamole lfsx hostAPI =>
    apply Proxy_addToList_registryReady
    · intro key q hq
      have hq2 := h key q hq
      by_cases hqp : q = ptr
      · subst hqp
        simp [VncProxy.Proxy_setConnections, peer.SetConnections]
      · simpa [VncProxy.Proxy_setConnections, Function.update, hqp] using hq2
    · simp [VncProxy.Proxy_setConnections, peer.SetConnections]
  | close ptr err fromWhich => exact peerClose_registryReady _ _ _ _ h
  | pingAdd c => exact h
  | pingDelete c => exact h
  | validate user =>
    unfold VncProxy.validateUserRequest VncProxy.IsUserConnected
    cases hl : a.peerSync.RLock with
    | none => simpa [Outcome.state] using h
    | some m =>
      simp only
      cases (a.peer.get user.Identifier).isSome <;> simpa [Outcome.state] using h
  | proxyLfsx user request =>
    unfold VncProxy.ProxyLfsxRequest
    cases hl : a.peerSync.RLock with
    | none => simpa [Outcome.state] using h
    | some m =>
      simp only
      split
      · split
        · exact h
        · split <;> exact h
      · exact h
  | proxyHost user request =>
    unfold VncProxy.ProxyHostRequest
    cases hl : a.peerSync.RLock with
    | none => simpa [Outcome.state] using h
    | some m =>
      simp only
      split
      · split <;> exact h
      · exact h

theorem Reachable_registryReady (vnc : VncProxy) (hreach : vnc.Reachable) :
    vnc.registryReady := by
  induction hreach with
  | init vnc hempty =>
    intro key q hq
    rw [hempty] at hq
    exact Option.noConfusion hq
  | step a b _ hstep ih => exact Step_registryReady a b hstep ih

/-- C13 (registered peers are ready).  In every state that the proxy reaches from an empty
registry, each peer held by the registry has `ready` set; a request that `ProxyLfsxRequest` or
`ProxyHostRequest` hands to a reverse proxy is handed to the proxy of the registered, ready
peer of the user's identifier; and for an identifier that the registry does not hold both
calls return an error with status 421 and hand the request to no reverse proxy. -/
theorem registry_peers_ready (vnc : VncProxy) (hreach : vnc.Reachable) :
    (∀ key ptr, vnc.peer.get key = some ptr → (vnc.heap ptr).ready = true) ∧
    (∀ user request a,
      (vnc.ProxyLfsxRequest user request).value = some { err := none, served := some a } →
      ∃ ptr, vnc.peer.get user.Identifier = some ptr ∧ (vnc.heap ptr).ready = true ∧
        (vnc.heap ptr).lfsxAPI = some a) ∧
    (∀ user request a,
      (vnc.ProxyHostRequest user request).value = some { err := none, served := some a } →
      ∃ ptr, vnc.peer.get user.Identifier = some ptr ∧ (vnc.heap ptr).ready = true ∧
        (vnc.heap ptr).hostAPI = some a) ∧
    (∀ user request, vnc.peerSync.writer = false → vnc.peer.get user.Identifier = none →
      (vnc.ProxyLfsxRequest user request).value
        = some { err := some { message := "User is not connected to a LFS.X instance",
                               status := 421 },
                 served := none } ∧
      (vnc.ProxyHostRequest user request).value
        = some { err := some { message := "User is not connected to an LFS.X instance",
                               status := 421 },
                 served := none }) := by
  have hinv := Reachable_registryReady vnc hreach
  refine ⟨hinv, ?_, ?_, ?_⟩
  · intro user request a hv
    unfold VncProxy.ProxyLfsxRequest at hv
    cases hl : vnc.peerSync.RLock with
    | none => simp [hl, Outcome.value] at hv
    | some m =>
      cases hg : vnc.peer.get user.Identifier with
      | none => simp [hl, hg, Outcome.value] at hv
      | some ptr =>
        refine ⟨ptr, rfl, hinv _ _ hg, ?_⟩
        simp only [hl, hg] at hv
        split at hv
        · simp [Outcome.value] at hv
        · cases hapi : (vnc.heap ptr).lfsxAPI with
          | none => simp [hapi, Outcome.value] at hv
          | some b =>
            simp [hapi, Outcome.value] at hv
            rw [hv]
  · intro user request a hv
    unfold VncProxy.ProxyHostRequest at hv
    cases hl : vnc.peerSync.RLock with
    | none => simp [hl, Outcome.value] at hv
    | some m =>
      cases hg : vnc.peer.get user.Identifier with
      | none => simp [hl, hg, Outcome.value] at hv
      | some ptr =>
        refine ⟨ptr, rfl, hinv _ _ hg, ?_⟩
        simp only [hl, hg] at hv
        cases hapi : (vnc.heap ptr).hostAPI with
        | none => simp [hapi, Outcome.value] at hv
        | some b =>
          simp [hapi, Outcome.value] at hv
          rw [hv]
  · intro user request hfree habsent
    simp [VncProxy.ProxyLfsxRequest, VncProxy.ProxyHostRequest, RWMutex.RLock, hfree, habsent,
      Outcome.value]

/-- C13 on the state after the registration of the first peer of `vncTwoPeers`: the state is
reachable, its registry holds that peer, and the peer is ready. -/
theorem registry_peers_ready_witness :
    vncRegistered.peer.get "alice-lfs" = some 1 ∧ (vncRegistered.heap 1).ready = true :=
  ⟨by decide,
   (registry_peers_ready vncRegistered
      (VncProxy.Reachable.step _ _ (VncProxy.Reachable.init vncTwoPeers (by decide))
        (VncProxy.Step.register vncTwoPeers 1 (some 10) (some 11) none (some 0) (some 1)))).1
      "alice-lfs" 1 (by decide)⟩

/-! ## Error close frame (peer.go, peer_lfsx.go) -/

theorem callsOn_append (s : Conn) (a b : List Event) :
    callsOn s (a ++ b) = callsOn s a ++ callsOn s b := by
  simp [callsOn]

theorem callsOn_eq_nil (s : Conn) (ev : List Event)
    (h : ∀ e ∈ ev, Event.isOn s e = false) : callsOn s ev = [] := by
  simp only [callsOn, List.filter_eq_nil_iff]
  intro e he
  simp [h e he]

theorem callsOn_closeWaitLoop (s : Conn) (ready : Bool) :
    callsOn s (peer.closeWaitLoop ready 52 0).2 = [] := by
  apply callsOn_eq_nil
  intro e he
  rw [mem_closeWaitLoop ready e he]
  rfl

theorem callsOn_closeLfsx (s : Conn) (p : peer) (err : Option String) :
    callsOn s (p.closeLfsx err).2 = [] := by
  apply callsOn_eq_nil
  intro e he
  obtain ⟨x, rfl⟩ := mem_closeLfsx p err e he
  rfl

theorem callsOn_closeTarget (s : Conn) (p : peer) (fromWhich : Int) (ev : List Event)
    (hev : p.closeTarget fromWhich = some ev) : callsOn s ev = [] := by
  apply callsOn_eq_nil
  intro e he
  obtain ⟨t, _, _, _, rfl⟩ := mem_closeTarget p fromWhich ev hev e he
  rfl

theorem callsOn_closeGuacamole (s : Conn) (p : peer) (fromWhich : Int) :
    callsOn s (p.closeGuacamole fromWhich) = [] := by
  apply callsOn_eq_nil
  intro e he
  obtain ⟨g, _, _, rfl⟩ := mem_closeGuacamole p fromWhich e he
  rfl

theorem callsOn_closeSource (s : Conn) (p : peer) (err : Option String) (fromWhich : Int)
    (hs : p.source = some s) :
    callsOn s (p.closeSource err fromWhich) =
      if fromWhich = 1 then []
      else match err with
        | some e => [Event.wsWriteMessage s MessageType.CloseMessage ([3, 240] ++ stringBytes e),
                     Event.wsClose s]
        | none => [Event.wsClose s] := by
  unfold peer.closeSource
  by_cases h1 : fromWhich = 1
  · simp [hs, h1, callsOn]
  · cases err <;> simp [hs, h1, callsOn, Event.isOn, closeFramePayload]

theorem lfsxPeer_Step_context (a b : lfsxPeer) (hstep : lfsxPeer.Step a b)
    (h : a.contextDone = true → a.wasIntentiallyClosed = true) :
    b.contextDone = true → b.wasIntentiallyClosed = true := by
  cases hstep with
  | close err fromWhich =>
    unfold lfsxPeer.Close
    by_cases hc : (a.wasIntentiallyClosed || a.contextDone) = true
    · simpa [hc] using h
    · simp [hc]
  | reconnect =>
    unfold lfsxPeer.tryToReconnectToLfsx
    split
    · exact h
    · exact h
  | setSource s => exact h
  | setTarget t => exact h
  | setReady => exact h
  | register c => exact h
  | remove c => exact h

/-- The context of a control peer is cancelled only after `wasIntentiallyClosed` was set. -/
theorem lfsxPeer_Reachable_context (p : lfsxPeer) (hreach : p.Reachable) :
    p.contextDone = true → p.wasIntentiallyClosed = true := by
  induction hreach with
  | init p hflag hctx =>
    intro h
    rw [hctx] at h
    exact absurd h (by decide)
  | step a b _ hstep ih => exact lfsxPeer_Step_context a b hstep ih

/-- C14 (error close frame).  For a peer that is not closed and holds the client WebSocket
`s`, and for a control peer, in any state it reaches, that was not closed before and holds
the client WebSocket `c` (a socket other than its pod socket): the calls that the first
`Close(err, fromWhich)` makes on the client socket are, for a non-nil error `e` and
`fromWhich ≠ 1`, one CLOSE message with the payload 0x03 0xF0 followed by the bytes of the
error text and then the close of the socket; for a nil error and `fromWhich ≠ 1` only the
close of the socket; and none for `fromWhich = 1`. -/
theorem Close_error_frame (p : peer) (l : lfsxPeer) (s c : Conn) (err : Option String)
    (fromWhich : Int)
    (hopen : p.closed = false) (hs : p.source = some s)
    (hreach : l.Reachable) (hlopen : l.wasIntentiallyClosed = false)
    (hc : l.source = some c) (hct : l.target ≠ some c) :
    callsOn s (p.Close err fromWhich).2 =
      (if fromWhich = 1 then []
       else match err with
        | some e => [Event.wsWriteMessage s MessageType.CloseMessage ([3, 240] ++ stringBytes e),
                     Event.wsClose s]
        | none => [Event.wsClose s]) ∧
    lfsxCallsOn c (l.Close err fromWhich).2 =
      (if fromWhich = 1 then []
       else match err with
        | some e =>
          [LfsxEvent.wsWriteMessage c MessageType.CloseMessage ([3, 240] ++ stringBytes e),
           LfsxEvent.wsClose c]
        | none => [LfsxEvent.wsClose c]) := by
  have hctx : l.contextDone = false := by
    cases hd : l.contextDone with
    | false => rfl
    | true =>
      have := lfsxPeer_Reachable_context l hreach hd
      rw [hlopen] at this
      exact absurd this (by decide)
  constructor
  · cases hev : p.closeTarget fromWhich with
    | none =>
      rw [peer_Close_events_aborted p err fromWhich hopen hev]
      simp only [callsOn_append, callsOn_closeWaitLoop, callsOn_closeLfsx,
        callsOn_closeSource s p err fromWhich hs]
      simp [callsOn, Event.isOn]
    | some ev =>
      rw [peer_Close_events p err fromWhich ev hopen hev]
      simp only [callsOn_append, callsOn_closeWaitLoop, callsOn_closeLfsx,
        callsOn_closeSource s p err fromWhich hs, callsOn_closeTarget s p fromWhich ev hev,
        callsOn_closeGuacamole]
      simp [callsOn, Event.isOn]
  · unfold lfsxPeer.Close
    simp only [hlopen, hctx, hc]
    cases ht : l.target with
    | none =>
      by_cases h1 : fromWhich = 1
      · simp [h1, lfsxCallsOn, LfsxEvent.isOn]
      · cases err <;> simp [h1, lfsxCallsOn, LfsxEvent.isOn, closeFramePayload]
    | some t =>
      have hne : t ≠ c := fun h => hct (by rw [ht, h])
      by_cases h1 : fromWhich = 1
      · simp [h1, lfsxCallsOn, LfsxEvent.isOn, hne]
      · by_cases h2 : fromWhich = 2
        · cases err <;> simp [h2, lfsxCallsOn, LfsxEvent.isOn, closeFramePayload]
        · cases err <;> simp [h1, h2, lfsxCallsOn, LfsxEvent.isOn, closeFramePayload, hne]

/-- C14 on the raw peer with client socket 10 and on `controlPeer` (client socket 40),
closed with the error `boom` after the pod side went away (`fromWhich = 2`). -/
theorem Close_error_frame_witness :
    callsOn 10 ((rawPeer 10 11).Close (some "boom") 2).2 =
      [Event.wsWriteMessage 10 MessageType.CloseMessage [3, 240, 98, 111, 111, 109],
       Event.wsClose 10] ∧
    lfsxCallsOn 40 (controlPeer.Close (some "boom") 2).2 =
      [LfsxEvent.wsWriteMessage 40 MessageType.CloseMessage [3, 240, 98, 111, 111, 109],
       LfsxEvent.wsClose 40] :=
  Close_error_frame (rawPeer 10 11) controlPeer 10 40 (some "boom") 2
    (by decide) (by decide) (lfsxPeer.Reachable.init controlPeer (by decide) (by decide))
    (by decide) (by decide) (by decide)

/-! ## Startup wait (proxy.go) -/

/-- C15 as stated fails: an update of the type `Other` that arrives one second after the
`select` began ends the wait at that moment; the unexpected type is only logged. -/
theorem Proxy_startupSelect_other_type_ends_wait :
    otherUpdate.Message.type ≠ "LfsStartup" ∧
    Proxy_startupSelect (some (1000, otherUpdate)) false
      = (StartupWait.received otherUpdate true, 1000) := by
  decide

/-- C15 as amended.  The wait ends before the 20 s timeout exactly when an observer update
arrives before it, whatever the type of its inner message: the update that arrives first is
received, and a type other than `LfsStartup` is only logged.  The wait never lasts longer
than 20 s, after which `Proxy` goes on with the session setup. -/
theorem Proxy_startupSelect_first_update (first : Option (Nat × Update)) (timerFirst : Bool) :
    ((Proxy_startupSelect first timerFirst).2 < 20000 ↔
      ∃ t up, first = some (t, up) ∧ t < 20000) ∧
    (∀ t up, first = some (t, up) → t < 20000 →
      Proxy_startupSelect first timerFirst
        = (StartupWait.received up (up.Message.type != "LfsStartup"), t)) ∧
    (first = none → Proxy_startupSelect first timerFirst = (StartupWait.timedOut, 20000)) ∧
    (Proxy_startupSelect first timerFirst).2 ≤ 20000 := by
  cases first with
  | none => simp [Proxy_startupSelect]
  | some p =>
    obtain ⟨t, up⟩ := p
    simp only [Proxy_startupSelect]
    by_cases h : t < 20000
    · simp [h]
      omega
    · by_cases h2 : t = 20000 ∧ timerFirst = false
      · simp [h, h2]
      · have h3 : ¬ (t < 20000 ∨ (t = 20000 ∧ timerFirst = false)) := by tauto
        simp only [h3, if_false]
        simp [h]
        omega

/-! ## Keep-alive sweep (ping.go) -/

theorem ClientMgr_Delete_mem (cm : ClientMgr) (con c : Conn) :
    c ∈ (cm.Delete (some con)).clients ↔ c ∈ cm.clients ∧ c ≠ con := by
  simp [ClientMgr.Delete]

theorem ClientMgr_closeTask_mem (cm : ClientMgr) (env : KeepaliveEnv) (con c : Conn) :
    c ∈ (cm.closeTask env con).1.clients ↔
      c ∈ cm.clients ∧ ¬ (c = con ∧ (env.closeFails con = true ∨ env.handlerDeletes con = true))
    := by
  unfold ClientMgr.closeTask
  cases hh : env.handlerDeletes con <;> cases hf : env.closeFails con <;>
    simp [ClientMgr_Delete_mem]

theorem ClientMgr_closeTasks_mem (env : KeepaliveEnv) (cons : List Conn) (cm : ClientMgr)
    (c : Conn) :
    c ∈ (cm.closeTasks env cons).1.clients ↔
      c ∈ cm.clients ∧
        ¬ (c ∈ cons ∧ (env.closeFails c = true ∨ env.handlerDeletes c = true)) := by
  induction cons generalizing cm with
  | nil => simp [ClientMgr.closeTasks]
  | cons con rest ih =>
    simp only [ClientMgr.closeTasks, ih, ClientMgr_closeTask_mem, List.mem_cons]
    constructor
    · rintro ⟨⟨h1, h2⟩, h3⟩
      refine ⟨h1, ?_⟩
      rintro ⟨h4 | h4, h5⟩
      · exact h2 ⟨h4, h4 ▸ h5⟩
      · exact h3 ⟨h4, h5⟩
    · rintro ⟨h1, h2⟩
      refine ⟨⟨h1, ?_⟩, ?_⟩
      · rintro ⟨h4, h5⟩
        exact h2 ⟨Or.inl h4, h4 ▸ h5⟩
      · rintro ⟨h4, h5⟩
        exact h2 ⟨Or.inr h4, h5⟩

theorem ClientMgr_closeTasks_close (env : KeepaliveEnv) (cons : List Conn) (cm : ClientMgr)
    (c : Conn) :
    KeepaliveEvent.close c ∈ (cm.closeTasks env cons).2 ↔ c ∈ cons := by
  induction cons generalizing cm with
  | nil => simp [ClientMgr.closeTasks]
  | cons con rest ih =>
    simp only [ClientMgr.closeTasks, List.mem_append, ih, List.mem_cons]
    unfold ClientMgr.closeTask
    cases env.closeFails con <;> simp

/-- C16 as stated fails: the PING to socket 10 fails and its close reports no error; the
socket is closed, but after the sweep and its close task it is still in the tracked set. -/
theorem sweep_closed_socket_stays_tracked :
    (ClientMgr.sweepAndClose { clients := [10, 20] } pingFailsOn10).1.clients = [10, 20] ∧
    (ClientMgr.sweepAndClose { clients := [10, 20] } pingFailsOn10).2
      = [KeepaliveEvent.ping 10, KeepaliveEvent.ping 20, KeepaliveEvent.close 10] := by
  decide

/-- C16 as amended.  In one sweep of `ClientMgr.Run` with its close tasks, a socket is closed
exactly when it is tracked and its PING write fails; such a socket is no longer tracked
afterwards exactly when its close reports an error (the close task then calls `Delete`) or a
close handler run by the close deleted it; a close that reports no error leaves the removal
to the close handler.  Every tracked socket whose PING write succeeds stays in the set, and
no socket joins the set. -/
theorem sweep_eviction (cm : ClientMgr) (env : KeepaliveEnv) (c : Conn) :
    (KeepaliveEvent.close c ∈ (cm.sweepAndClose env).2 ↔
      c ∈ cm.clients ∧ env.pingFails c = true) ∧
    (c ∈ (cm.sweepAndClose env).1.clients ↔
      c ∈ cm.clients ∧
        ¬ (env.pingFails c = true ∧
            (env.closeFails c = true ∨ env.handlerDeletes c = true))) ∧
    (c ∈ cm.clients → env.pingFails c = false → c ∈ (cm.sweepAndClose env).1.clients) := by
  have hmem : c ∈ (cm.sweepAndClose env).1.clients ↔
      c ∈ cm.clients ∧
        ¬ (env.pingFails c = true ∧
            (env.closeFails c = true ∨ env.handlerDeletes c = true)) := by
    simp only [ClientMgr.sweepAndClose, ClientMgr.sweep, ClientMgr_closeTasks_mem,
      List.mem_filter]
    tauto
  refine ⟨?_, hmem, ?_⟩
  · simp only [ClientMgr.sweepAndClose, ClientMgr.sweep, List.mem_append,
      ClientMgr_closeTasks_close, List.mem_filter, List.mem_map]
    simp
  · intro hc hp
    rw [hmem]
    exact ⟨hc, by simp [hp]⟩

/-! ## Authentication middleware (api/authentication.go) -/

theorem strings_SplitChars_no_separator (sep : List Char) (s cur : List Char)
    (h : ¬ sep <:+: s) : strings_SplitChars sep s 0 cur = [cur.reverse ++ s] := by
  induction s generalizing cur with
  | nil => simp [strings_SplitChars]
  | cons c rest ih =>
    have hp : sep.isPrefixOf (c :: rest) = false := by
      cases hb : sep.isPrefixOf (c :: rest) with
      | false => rfl
      | true => exact absurd (List.isPrefixOf_iff_prefix.mp hb).isInfix h
    have hrest : ¬ sep <:+: rest := fun hi => h (hi.trans (List.suffix_cons c rest).isInfix)
    simp [strings_SplitChars, hp, ih (c :: cur) hrest]

theorem strings_Split_no_separator (s sep : String) (h : ¬ sep.data <:+: s.data) :
    strings_Split s sep = [s] := by
  simp [strings_Split, strings_SplitChars_no_separator sep.data s.data [] h]

theorem NewDatabase_eq_LFS (name : String) :
    NewDatabase name = Database.LFS ↔ strings_ToLower name = "lfs" := by
  unfold NewDatabase
  by_cases h1 : strings_ToLower name = "lfsprj"
  · simp [h1]
  · by_cases h2 : strings_ToLower name = "lfsmig"
    · simp [h1, h2]
    · by_cases h3 : strings_ToLower name = "lfs"
      · simp [h1, h2, h3]
      · simp [h1, h2, h3]

/-- C17 (production database gate).  The middleware calls the next handler only with the
user of a token that validates, and in production mode only when the database of that user is
LFS, that is when the database name of the token is `lfs` in some letter case; in production
a valid token whose user has any other database (PRJ, MIG, or MIG for an unrecognised name)
is answered 401; a request whose `Authorization` header does not contain `Bearer ` and that
has no authentication cookie is answered 403.  An answer is given instead of the call of the
next handler. -/
theorem AuthenticationMiddleware_gate (env : AuthEnv) (r : Request) :
    (∀ user, AuthenticationMiddleware env r = Handled.next user →
      ∃ token claims, AuthenticationMiddleware_token r = .ok token ∧
        ValidateToken env.parse token = some claims ∧
        claims.ToUser env.decrypt env.cipherErr = .ok user ∧
        (env.Production = true → user.Database = Database.LFS)) ∧
    (∀ (token : String) (claims : Claims) (user : User), env.Production = true →
      AuthenticationMiddleware_token r = .ok token →
      ValidateToken env.parse token = some claims →
      claims.ToUser env.decrypt env.cipherErr = .ok user →
      user.Database ≠ Database.LFS →
      AuthenticationMiddleware env r = Handled.text "Invalid db selected in production" 401) ∧
    (∀ (claims : Claims) (user : User),
      claims.ToUser env.decrypt env.cipherErr = .ok user →
      (user.Database = Database.LFS ↔
        strings_ToLower (env.decrypt claims.Database) = "lfs")) ∧
    (¬ "Bearer ".data <:+: (r.Header.get "Authorization").data →
      r.Cookie jwtCookieName = none →
      AuthenticationMiddleware env r
        = Handled.text "No authorization token or cookie given" 403) := by
  refine ⟨?_, ?_, ?_, ?_⟩
  · intro user h
    unfold AuthenticationMiddleware at h
    cases ht : AuthenticationMiddleware_token r with
    | error a =>
      simp only [ht] at h
      simp only [AuthenticationMiddleware_token] at ht
      split at ht
      · split at ht
        · cases ht
          cases h
        · cases ht
          cases h
      · split at ht <;> cases ht
    | ok token =>
      simp only [ht] at h
      cases hv : ValidateToken env.parse token with
      | none => simp [hv] at h
      | some claims =>
        simp only [hv] at h
        cases hu : claims.ToUser env.decrypt env.cipherErr with
        | error e => simp [hu] at h
        | ok u =>
          simp only [hu] at h
          split at h
          · cases h
          · rename_i hgate
            cases h
            refine ⟨token, claims, rfl, hv, hu, ?_⟩
            intro hprod
            by_contra hne
            exact hgate ⟨hprod, hne⟩
  · intro token claims user hprod ht hv hu hne
    simp [AuthenticationMiddleware, ht, hv, hu, hprod, hne]
  · intro claims user hu
    unfold Claims.ToUser at hu
    cases hc : env.cipherErr with
    | some e => simp [hc] at hu
    | none =>
      simp only [hc, Except.ok.injEq] at hu
      rw [← hu]
      exact NewDatabase_eq_LFS _
  · intro hno hcookie
    simp [AuthenticationMiddleware, AuthenticationMiddleware_token,
      strings_Split_no_separator _ _ hno, hcookie]

/-- The middleware on concrete requests: in production the token `good`, whose database is
`lfsprj`, is answered 401; outside production the next handler is called with its user; a
request without `Bearer ` and without cookie is answered 403; a header with two `Bearer `
and no cookie is answered 401. -/
theorem AuthenticationMiddleware_examples :
    AuthenticationMiddleware (prjTokenEnv true) (requestWithAuthorization "Bearer good")
      = Handled.text "Invalid db selected in production" 401 ∧
    AuthenticationMiddleware (prjTokenEnv false) (requestWithAuthorization "Bearer good")
      = Handled.next bob ∧
    AuthenticationMiddleware (prjTokenEnv true) (requestWithAuthorization "Basic abc")
      = Handled.text "No authorization token or cookie given" 403 ∧
    AuthenticationMiddleware (prjTokenEnv true)
        (requestWithAuthorization "Bearer Bearer good")
      = Handled.text "Malformed token" 401 ∧
    AuthenticationMiddleware (prjTokenEnv true) (requestWithAuthorization "Bearer bad")
      = Handled.text "Unauthorized" 401 := by
  decide

/-! ## CORS allow-list (api/api.go) -/

/-- C18 (CORS allow-list).  `allowQaOrigin` sets `Access-Control-Allow-Origin` to the origin of
the request, `Access-Control-Allow-Credentials` to `true` and `Access-Control-Allow-Headers`
to `Db` when the origin is in the allow-list of the mode, and leaves the headers of the
response as they are when it is not; it returns true, after writing the answer `OK` with
status 200, exactly when in addition the method is `OPTIONS` and the path starts with
`/api/app/`, and `SecureHeaders` then returns without calling the next handler, which holds
the authentication; no origin is in the allow-lists of both modes. -/
theorem allowQaOrigin_allow_list (Production : Bool) (w : LabelSet) (r : Request) :
    (r.Header.get "Origin" ∈ qaAllowList Production →
      (allowQaOrigin Production w r).headers.get "Access-Control-Allow-Origin"
        = r.Header.get "Origin" ∧
      (allowQaOrigin Production w r).headers.get "Access-Control-Allow-Credentials" = "true" ∧
      (allowQaOrigin Production w r).headers.get "Access-Control-Allow-Headers" = "Db") ∧
    (r.Header.get "Origin" ∉ qaAllowList Production →
      (allowQaOrigin Production w r).headers = w) ∧
    ((allowQaOrigin Production w r).stop = true ↔
      r.Header.get "Origin" ∈ qaAllowList Production ∧ r.Method = "OPTIONS" ∧
        strings_HasPrefix r.Path "/api/app/" = true) ∧
    ((allowQaOrigin Production w r).written
      = if (allowQaOrigin Production w r).stop then some ("OK", 200) else none) ∧
    (SecureHeaders Production r
      = if (allowQaOrigin Production secureHeaders r).stop then
          Secured.returned (allowQaOrigin Production secureHeaders r).headers (some ("OK", 200))
        else Secured.next (allowQaOrigin Production secureHeaders r).headers) ∧
    (∀ origin, ¬ (origin ∈ qaAllowList true ∧ origin ∈ qaAllowList false)) := by
  have hallowed : r.Header.get "Origin" ∈ qaAllowList Production ↔
      (r.Header.get "Origin" ≠ "" ∧
        allowQaOrigin_isAllowed Production (r.Header.get "Origin") = true) := by
    cases Production
    · simp only [qaAllowList, allowQaOrigin_isAllowed, Bool.false_eq_true, if_false,
        List.mem_cons, List.mem_singleton, List.mem_nil_iff, or_false, Bool.or_eq_true,
        beq_iff_eq]
      constructor
      · intro h
        refine ⟨?_, by tauto⟩
        rcases h with h | h | h <;> rw [h] <;> decide
      · rintro ⟨_, h⟩
        tauto
    · simp only [qaAllowList, allowQaOrigin_isAllowed, if_true, List.mem_singleton, beq_iff_eq]
      constructor
      · intro h
        refine ⟨?_, h⟩
        rw [h]
        decide
      · rintro ⟨_, h⟩
        exact h
  have hwritten : ∀ v : LabelSet, (allowQaOrigin Production v r).written
      = if (allowQaOrigin Production v r).stop then some ("OK", 200) else none := by
    intro v
    unfold allowQaOrigin
    by_cases h1 : r.Header.get "Origin" = ""
    · simp [h1]
    · cases hb : allowQaOrigin_isAllowed Production (r.Header.get "Origin")
      · simp [h1, hb]
      · by_cases h3 : r.Method = "OPTIONS" ∧ strings_HasPrefix r.Path "/api/app/" = true
        · simp [h1, hb, h3]
        · simp [h1, hb, h3]
  refine ⟨?_, ?_, ?_, hwritten w, ?_, ?_⟩
  · intro h
    obtain ⟨h1, h2⟩ := hallowed.mp h
    unfold allowQaOrigin
    by_cases h3 : r.Method = "OPTIONS" ∧ strings_HasPrefix r.Path "/api/app/" = true
    · simp [h1, h2, h3, LabelSet.set, LabelSet.get]
    · simp [h1, h2, h3, LabelSet.set, LabelSet.get]
  · intro h
    have h2 := mt hallowed.mpr h
    unfold allowQaOrigin
    by_cases h1 : r.Header.get "Origin" = ""
    · simp [h1]
    · have hb : allowQaOrigin_isAllowed Production (r.Header.get "Origin") = false := by
        cases hb : allowQaOrigin_isAllowed Production (r.Header.get "Origin")
        · rfl
        · exact absurd ⟨h1, hb⟩ h2
      simp [h1, hb]
  · rw [hallowed]
    unfold allowQaOrigin
    by_cases h1 : r.Header.get "Origin" = ""
    · simp [h1]
    · cases hb : allowQaOrigin_isAllowed Production (r.Header.get "Origin")
      · simp [h1, hb]
      · by_cases h3 : r.Method = "OPTIONS" ∧ strings_HasPrefix r.Path "/api/app/" = true
        · simp [h1, hb, h3]
        · simp [h1, hb, h3]
  · unfold SecureHeaders
    simp only
    split
    · rename_i hs
      rw [hwritten secureHeaders, if_pos hs]
    · rfl
  · intro origin
    simp only [qaAllowList, if_true, Bool.false_eq_true, if_false, List.mem_cons,
      List.mem_singleton, List.mem_nil_iff, or_false]
    rintro ⟨h1, h2⟩
    rw [h1] at h2
    revert h2
    decide

/-- The CORS handling on concrete requests: a preflight from the production portal is
answered 200 in production mode and handed on, without CORS headers, outside it. -/
theorem SecureHeaders_examples :
    (allowQaOrigin true []
        { Method := "OPTIONS", Path := "/api/app/x",
          Header := [("Origin", "https://qa.hama.com")], Cookies := [] })
      = { headers := [("Access-Control-Allow-Headers", "Db"),
                      ("Access-Control-Allow-Credentials", "true"),
                      ("Access-Control-Allow-Origin", "https://qa.hama.com")],
          written := some ("OK", 200), stop := true } ∧
    (allowQaOrigin false []
        { Method := "OPTIONS", Path := "/api/app/x",
          Header := [("Origin", "https://qa.hama.com")], Cookies := [] })
      = { headers := [], written := none, stop := false } := by
  decide

/-! ## Image version label (models/appconfig.go) -/

theorem strings_LastIndex_absent (s : Bytes) (b : Nat) (h : b ∉ s) :
    strings_LastIndex s b = -1 := by
  induction s with
  | nil => rfl
  | cons c rest ih =>
    have hc : ¬ c = b := fun hcb => h (by simp [hcb])
    have hr : b ∉ rest := fun hm => h (List.mem_cons_of_mem c hm)
    simp [strings_LastIndex, ih hr, hc]

theorem strings_LastIndex_last (pre suf : Bytes) (b : Nat) (h : b ∉ suf) :
    strings_LastIndex (pre ++ b :: suf) b = pre.length := by
  induction pre with
  | nil => simp [strings_LastIndex, strings_LastIndex_absent suf b h]
  | cons c rest ih =>
    have hne : ¬ ((rest.length : Int) = -1) := by omega
    have hstep : strings_LastIndex (c :: (rest ++ b :: suf)) b
        = if strings_LastIndex (rest ++ b :: suf) b ≠ -1 then
            strings_LastIndex (rest ++ b :: suf) b + 1
          else if c = b then 0 else -1 := rfl
    rw [List.cons_append, hstep, ih]
    simp [hne]

theorem exists_last_occurrence (s : Bytes) (b : Nat) (h : b ∈ s) :
    ∃ pre suf, s = pre ++ b :: suf ∧ b ∉ suf := by
  induction s with
  | nil => simp at h
  | cons c rest ih =>
    by_cases hr : b ∈ rest
    · obtain ⟨pre, suf, hs, hsuf⟩ := ih hr
      exact ⟨c :: pre, suf, by simp [hs], hsuf⟩
    · have hc : b = c := by
        rcases List.mem_cons.mp h with hc | hc
        · exact hc
        · exact absurd hc hr
      exact ⟨[], rest, by simp [hc], hr⟩

theorem cutOff_eq_take (val : Bytes) (n : Nat) : cutOff val n = val.take n := by
  unfold cutOff
  split
  · rfl
  · rw [List.take_of_length_le (by omega)]

theorem GetLfsImageVersion_after_colon (pre suf : Bytes) (h : 58 ∉ suf) :
    GetLfsImageVersion (pre ++ 58 :: suf) = suf.take 60 := by
  unfold GetLfsImageVersion
  simp only [strings_LastIndex_last pre suf 58 h, cutOff_eq_take]
  have h1 : ((pre.length : Int) ≠ -1 ∧ (pre.length : Int) < ((pre ++ 58 :: suf).length : Nat)) := by
    constructor
    · omega
    · simp
  rw [if_pos h1]
  have h2 : ((pre.length : Int) + 1).toNat = pre.length + 1 := by omega
  rw [h2]
  congr 1
  rw [List.drop_append_eq_append_drop]
  simp

theorem GetLfsImageVersion_no_colon (image : Bytes) (h : 58 ∉ image) :
    GetLfsImageVersion image = image.take 60 := by
  unfold GetLfsImageVersion
  simp [strings_LastIndex_absent image 58 h, cutOff_eq_take]

/-- C19 (image version label).  With the characters of a Go string taken as its bytes:
`GetLfsImageVersion` returns the part of the image string after its last colon, cut to its
first 60 bytes, and the whole image string cut to 60 bytes when it holds no colon; the result
is never longer than 60 and never holds a colon; `cutOff` is idempotent and returns a value
of at most 60 bytes unchanged. -/
theorem GetLfsImageVersion_label (image : Bytes) :
    (∀ pre suf, image = pre ++ 58 :: suf → 58 ∉ suf →
      GetLfsImageVersion image = suf.take 60) ∧
    (58 ∉ image → GetLfsImageVersion image = image.take 60) ∧
    (GetLfsImageVersion image).length ≤ 60 ∧
    58 ∉ GetLfsImageVersion image ∧
    (∀ (val : Bytes) (n : Nat), cutOff (cutOff val n) n = cutOff val n) ∧
    (∀ val : Bytes, val.length ≤ 60 → cutOff val 60 = val) := by
  refine ⟨?_, GetLfsImageVersion_no_colon image, ?_, ?_, ?_, ?_⟩
  · intro pre suf hs hsuf
    rw [hs]
    exact GetLfsImageVersion_after_colon pre suf hsuf
  · by_cases h : 58 ∈ image
    · obtain ⟨pre, suf, hs, hsuf⟩ := exists_last_occurrence image 58 h
      rw [hs, GetLfsImageVersion_after_colon pre suf hsuf]
      simp
    · rw [GetLfsImageVersion_no_colon image h]
      simp
  · by_cases h : 58 ∈ image
    · obtain ⟨pre, suf, hs, hsuf⟩ := exists_last_occurrence image 58 h
      rw [hs, GetLfsImageVersion_after_colon pre suf hsuf]
      exact fun hm => hsuf (List.mem_of_mem_take hm)
    · rw [GetLfsImageVersion_no_colon image h]
      exact fun hm => h (List.mem_of_mem_take hm)
  · intro val n
    simp [cutOff_eq_take, List.take_take]
  · intro val hlen
    rw [cutOff_eq_take, List.take_of_length_le hlen]

/-- The version label of the image `registry:5000/lfs/lfsx:1.2.3` is `1.2.3`. -/
theorem GetLfsImageVersion_example :
    GetLfsImageVersion (stringBytes "registry:5000/lfs/lfsx:1.2.3") = stringBytes "1.2.3" ∧
    GetLfsImageVersion (stringBytes "lfsx") = stringBytes "lfsx" ∧
    GetLfsImageVersion (stringBytes "lfsx:") = [] := by
  decide

/-! ## Hard scaling on new pods (proxy.go) -/

/-- With the port variable set to `-5` the URL of the request does not parse: no request is
sent and the call is aborted by the nil request. -/
theorem applyVncSettings_negative_port :
    (applyVncSettings_request negativePortEnv "10.0.0.7" 150).url
      = "http://10.0.0.7:-5/api/vnc/scale/hard" ∧
    applyVncSettings negativePortEnv { Scaling := 150 } "10.0.0.7:5900" true
      = (ScalingOutcome.panicked, []) := by
  decide

/-! ## Wait loop of Close (peer.go) -/

theorem closeWaitLoop_not_ready (n : Nat) :
    ∀ (i fuel : Nat), i + n = 51 → n + 1 ≤ fuel →
      peer.closeWaitLoop false fuel i = (51, List.replicate (n + 1) Event.sleep400ms) := by
  induction n with
  | zero =>
    intro i fuel hi hfuel
    obtain ⟨f, rfl⟩ : ∃ f, fuel = f + 1 := ⟨fuel - 1, by omega⟩
    have h51 : i = 51 := by omega
    subst h51
    simp [peer.closeWaitLoop]
  | succ n ih =>
    intro i fuel hi hfuel
    obtain ⟨f, rfl⟩ : ∃ f, fuel = f + 1 := ⟨fuel - 1, by omega⟩
    have hle : ¬ i > 50 := by omega
    have hrec := ih (i + 1) f (by omega) (by omega)
    simp [peer.closeWaitLoop, hle, hrec, List.replicate_succ]

/-- C21: the wait loop of `peer.Close` on a peer whose `ready` flag is never set.  With any
bound of at least 52 on the iterations the loop ends by its own `break`, with the counter at
51 and after 52 calls of `time.Sleep(400 * time.Millisecond)`, which is 20.8 s; `Close` on a
peer that was never made ready sleeps 52 times before it goes on; with `ready` set on entry
the loop does not sleep. -/
theorem closeWaitLoop_sleeps_52_times :
    (∀ fuel, 52 ≤ fuel →
      peer.closeWaitLoop false fuel 0 = (51, List.replicate 52 Event.sleep400ms)) ∧
    ((NewPeer alice).Close none 1).2.count Event.sleep400ms = 52 ∧
    (∀ fuel i, peer.closeWaitLoop true fuel i = (i, [])) := by
  refine ⟨fun fuel h => closeWaitLoop_not_ready 51 0 fuel rfl h, by decide, ?_⟩
  intro fuel i
  cases fuel <;> simp [peer.closeWaitLoop]

/-! ## Pump from guacd to the client (peer.go) -/

theorem clientBytes_append (a b : List Bytes) :
    clientBytes (a ++ b) = clientBytes a ++ clientBytes b := by
  simp [clientBytes]

theorem pumpIteration_consistent (MaxGuacMessage : Nat) (writeErr : Bytes → Option String)
    (st : PumpState) (r : PumpRead) (h : st.consistent) :
    (pumpIteration MaxGuacMessage writeErr st r).1.consistent := by
  unfold PumpState.consistent at h ⊢
  cases r with
  | err e => simpa [pumpIteration] using h
  | ins data available =>
    simp only [pumpIteration]
    by_cases hp : bytes_HasPrefix data internalOpcodeIns = true
    · simp [hp, clientBytes_append, clientBytes, h]
    · have hdata : clientBytes [data] = data := by simp [clientBytes, hp]
      simp only [hp, Bool.false_eq_true, if_false]
      by_cases hflush : available = false ∨ (st.buf ++ data).length ≥ MaxGuacMessage
      · simp only [hflush, if_true]
        cases writeErr (st.buf ++ data) with
        | some e =>
          simp only [clientBytes_append, hdata, ← h, List.append_assoc]
        | none =>
          simp only [clientBytes_append, hdata, ← h, List.flatten_append, List.flatten_cons,
            List.flatten_nil, List.append_nil, List.append_assoc]
      · simp only [hflush, if_false, clientBytes_append, hdata, ← h, List.append_assoc]

theorem pumpIteration_readSoFar (MaxGuacMessage : Nat) (writeErr : Bytes → Option String)
    (st : PumpState) (data : Bytes) (available : Bool) :
    (pumpIteration MaxGuacMessage writeErr st (.ins data available)).1.readSoFar
      = st.readSoFar ++ [data] := by
  simp only [pumpIteration]
  split
  · rfl
  · split
    · split <;> rfl
    · rfl

theorem pump_consistent (MaxGuacMessage : Nat) (writeErr : Bytes → Option String)
    (reads : List PumpRead) :
    ∀ st : PumpState, st.consistent →
      (pump MaxGuacMessage writeErr st reads).1.consistent := by
  induction reads with
  | nil => exact fun st h => h
  | cons r rest ih =>
    intro st h
    have h1 := pumpIteration_consistent MaxGuacMessage writeErr st r h
    simp only [pump]
    split
    · exact ih _ h1
    · exact h1

theorem pump_readSoFar (MaxGuacMessage : Nat) (writeErr : Bytes → Option String)
    (reads : List PumpRead) :
    ∀ st : PumpState, ∃ k,
      (pump MaxGuacMessage writeErr st reads).1.readSoFar
        = st.readSoFar ++ (reads.take k).filterMap PumpRead.instruction ∧
      ((pump MaxGuacMessage writeErr st reads).2 = true →
        (pump MaxGuacMessage writeErr st reads).1.readSoFar
          = st.readSoFar ++ reads.filterMap PumpRead.instruction) := by
  induction reads with
  | nil => exact fun st => ⟨0, by simp [pump], by simp [pump]⟩
  | cons r rest ih =>
    intro st
    cases r with
    | err e =>
      refine ⟨0, ?_, ?_⟩
      · simp [pump, pumpIteration]
      · simp [pump, pumpIteration]
    | ins data available =>
      have hread := pumpIteration_readSoFar MaxGuacMessage writeErr st data available
      simp only [pump]
      by_cases hgo : (pumpIteration MaxGuacMessage writeErr st (.ins data available)).2 = true
      · obtain ⟨k, hk1, hk2⟩ :=
          ih (pumpIteration MaxGuacMessage writeErr st (.ins data available)).1
        simp only [hgo, if_true]
        refine ⟨k + 1, ?_, ?_⟩
        · rw [hk1, hread]
          simp [PumpRead.instruction]
        · intro hrun
          rw [hk2 hrun, hread]
          simp [PumpRead.instruction]
      · simp only [hgo, Bool.false_eq_true, if_false]
        refine ⟨1, ?_, ?_⟩
        · rw [hread]
          simp [PumpRead.instruction]
        · intro hrun
          exact absurd hrun (by simp)

/-- The flush rule after an instruction that is not internal: when nothing more is
available, or the buffer has reached `MaxGuacMessage`, and the write succeeds, the buffer
with the instruction is written as one frame and the buffer is empty afterwards. -/
theorem pumpIteration_flush (MaxGuacMessage : Nat) (writeErr : Bytes → Option String)
    (st : PumpState) (data : Bytes) (available : Bool)
    (hins : bytes_HasPrefix data internalOpcodeIns = false)
    (hflush : available = false ∨ (st.buf ++ data).length ≥ MaxGuacMessage)
    (hwrite : writeErr (st.buf ++ data) = none) :
    (pumpIteration MaxGuacMessage writeErr st (.ins data available)).1.buf = [] ∧
    (pumpIteration MaxGuacMessage writeErr st (.ins data available)).1.frames
      = st.frames ++ [st.buf ++ data] := by
  simp only [pumpIteration, hins, Bool.false_eq_true, if_false, hflush, if_true, hwrite]
  simp

/-- C22 (the pump preserves content and order).  Whenever the pump waits for the next
instruction or has returned, the payloads of the TEXT frames written to the client, one
after the other, followed by the content of the buffer are the instructions read so far from
guacd that do not start with the marker `0.`, one after the other in the order in which they
were read; the instructions read so far are the first answers of the reader, all of them
while the pump still runs. -/
theorem pump_content_and_order (MaxGuacMessage : Nat) (writeErr : Bytes → Option String)
    (reads : List PumpRead) :
    (pump MaxGuacMessage writeErr PumpState.init reads).1.frames.flatten
        ++ (pump MaxGuacMessage writeErr PumpState.init reads).1.buf
      = clientBytes (pump MaxGuacMessage writeErr PumpState.init reads).1.readSoFar ∧
    (pump MaxGuacMessage writeErr PumpState.init reads).1.readSoFar
      <+: reads.filterMap PumpRead.instruction ∧
    ((pump MaxGuacMessage writeErr PumpState.init reads).2 = true →
      (pump MaxGuacMessage writeErr PumpState.init reads).1.readSoFar
        = reads.filterMap PumpRead.instruction) ∧
    (∀ ins ∈ (pump MaxGuacMessage writeErr PumpState.init reads).1.readSoFar,
      bytes_HasPrefix ins internalOpcodeIns = true → clientBytes [ins] = []) := by
  obtain ⟨k, hk1, hk2⟩ := pump_readSoFar MaxGuacMessage writeErr reads PumpState.init
  refine ⟨pump_consistent MaxGuacMessage writeErr reads PumpState.init rfl, ?_, ?_, ?_⟩
  · rw [hk1]
    simp only [PumpState.init, List.nil_append]
    exact (List.take_prefix k reads).filterMap _
  · intro hrun
    simpa [PumpState.init] using hk2 hrun
  · intro ins _ hp
    simp [clientBytes, hp]

/-- The instruction `4.sync,8.12345678;` is delivered to the client as it is, and the
internal instruction before it is not. -/
theorem pump_example :
    pump 8192 (fun _ => none) PumpState.init
        [PumpRead.ins (stringBytes "0.,1.a;") true,
         PumpRead.ins (stringBytes "4.sync,8.12345678;") false]
      = ({ buf := [], frames := [stringBytes "4.sync,8.12345678;"],
           readSoFar := [stringBytes "0.,1.a;", stringBytes "4.sync,8.12345678;"],
           closeCalls := [] }, true) := by
  decide

/-- C23: guacd sends `4.sync,1.1;` while more is available, and then an internal
instruction after which nothing more is available.  The pump waits for the next instruction
with `4.sync,1.1;` still in the buffer: no frame has been written. -/
theorem pump_internal_instruction_skips_flush :
    pump 8192 (fun _ => none) PumpState.init
        [PumpRead.ins (stringBytes "4.sync,1.1;") true,
         PumpRead.ins (stringBytes "0.,1.a;") false]
      = ({ buf := stringBytes "4.sync,1.1;", frames := [],
           readSoFar := [stringBytes "4.sync,1.1;", stringBytes "0.,1.a;"],
           closeCalls := [] }, true) := by
  decide

/-! ## Observers of the control peer (peer_lfsx.go) -/

theorem RemoveObserver_loop_eq (c : Conn) (obs : List Conn) :
    RemoveObserver_loop c obs = (obs.erase c, if c ∈ obs then [c] else []) := by
  induction obs with
  | nil => rfl
  | cons o rest ih =>
    by_cases h : o = c
    · subst h
      simp [RemoveObserver_loop]
    · have h2 : ¬ c = o := fun hc => h hc.symm
      simp [RemoveObserver_loop, h, ih, List.erase_cons_tail, h2]

theorem RemoveObserver_loop_absent (c : Conn) (obs : List Conn) (h : c ∉ obs) :
    RemoveObserver_loop c obs = (obs, []) := by
  rw [RemoveObserver_loop_eq, List.erase_of_not_mem h, if_neg h]

theorem mem_notifyForUpdates (p : lfsxPeer) (fromLfsx : Bool) (data : WebSocketData)
    (e : LfsxEvent) (h : e ∈ p.notifyForUpdates fromLfsx data) :
    ∃ obs ∈ p.observers, ∃ u, e = LfsxEvent.send obs u := by
  simp only [lfsxPeer.notifyForUpdates, List.mem_flatMap, List.mem_map] at h
  obtain ⟨obs, hobs, m, _, rfl⟩ := h
  exact ⟨obs, hobs, _, rfl⟩

/-- C24 (observer unsubscribe).  For a control peer whose observers are distinct channels:
`RemoveObserver(c)` leaves the observers other than `c`, in their order, and nothing else of
the peer changes; it closes `c` when `c` was registered and changes and closes nothing when
it was not; afterwards `notifyForUpdates` starts no send on `c`; and `RegisterObserver`
followed by `RemoveObserver` of the channel it returned, a new channel, gives back the
observers there were before. -/
theorem RemoveObserver_unsubscribes (p : lfsxPeer) (c : Conn) (hnodup : p.observers.Nodup) :
    (p.RemoveObserver c).1 = { p with observers := p.observers.filter (fun o => o ≠ c) } ∧
    (p.RemoveObserver c).2 = (if c ∈ p.observers then [c] else []) ∧
    (c ∉ p.observers → p.RemoveObserver c = (p, [])) ∧
    (∀ fromLfsx data e, e ∈ (p.RemoveObserver c).1.notifyForUpdates fromLfsx data →
      LfsxEvent.sentTo c e = none) ∧
    (∀ fresh, fresh ∉ p.observers →
      (p.RegisterObserver fresh).2 = fresh ∧
      ((p.RegisterObserver fresh).1.RemoveObserver fresh) = (p, [fresh])) ∧
    (p.RemoveObserver c).1.observers.Nodup := by
  have hfilter : p.observers.erase c = p.observers.filter (fun o => o ≠ c) := by
    rw [hnodup.erase_eq_filter]
    congr 1
    funext o
    by_cases ho : o = c <;> simp [ho]
  have hfst : (p.RemoveObserver c).1
      = { p with observers := p.observers.filter (fun o => o ≠ c) } := by
    simp [lfsxPeer.RemoveObserver, RemoveObserver_loop_eq, hfilter]
  refine ⟨hfst, ?_, ?_, ?_, ?_, ?_⟩
  · simp [lfsxPeer.RemoveObserver, RemoveObserver_loop_eq]
  · intro h
    simp [lfsxPeer.RemoveObserver, RemoveObserver_loop_absent c p.observers h]
  · intro fromLfsx data e he
    obtain ⟨obs, hobs, u, rfl⟩ := mem_notifyForUpdates _ fromLfsx data e he
    rw [hfst] at hobs
    have hne : obs ≠ c := by simpa using (List.mem_filter.mp hobs).2
    simp [LfsxEvent.sentTo, hne]
  · intro fresh hfresh
    refine ⟨rfl, ?_⟩
    have herase : (p.observers ++ [fresh]).erase fresh = p.observers := by
      rw [List.erase_append_right _ hfresh]
      simp
    simp [lfsxPeer.RemoveObserver, lfsxPeer.RegisterObserver, RemoveObserver_loop_eq, herase]
  · rw [hfst]
    exact hnodup.filter _

/-- C24 on `controlPeer`, whose observers are the channels 7 and 8: removing 7 leaves 8 and
closes 7. -/
theorem RemoveObserver_unsubscribes_witness :
    (controlPeer.RemoveObserver 7).1 = { controlPeer with observers := [8] } ∧
    (controlPeer.RemoveObserver 7).2 = [7] :=
  ⟨(RemoveObserver_unsubscribes controlPeer 7 (by decide)).1,
   (RemoveObserver_unsubscribes controlPeer 7 (by decide)).2.1⟩

/-! ## The latch of the control peer (peer_lfsx.go) -/

theorem lfsxPeer_Close_latched (q : lfsxPeer) (err : Option String) (fromWhich : Int)
    (h : q.wasIntentiallyClosed = true) : q.Close err fromWhich = (q, []) := by
  simp [lfsxPeer.Close, h]

theorem lfsxPeer_Step_latched (a b : lfsxPeer) (hstep : lfsxPeer.Step a b)
    (h : a.wasIntentiallyClosed = true) : b.wasIntentiallyClosed = true := by
  cases hstep with
  | close err fromWhich => rw [lfsxPeer_Close_latched a err fromWhich h]; exact h
  | reconnect => simp [lfsxPeer.tryToReconnectToLfsx, h]
  | setSource s => exact h
  | setTarget t => exact h
  | setReady => exact h
  | register c => exact h
  | remove c => exact h

theorem lfsxPeer_reachable_latched (a b : lfsxPeer)
    (hreach : Relation.ReflTransGen lfsxPeer.Step a b)
    (h : a.wasIntentiallyClosed = true) : b.wasIntentiallyClosed = true := by
  induction hreach with
  | refl => exact h
  | tail _ hstep ih => exact lfsxPeer_Step_latched _ _ hstep ih

/-- C25 (the latch of the control peer).  After the first `Close` of a control peer, in
any state it has reached, `wasIntentiallyClosed` is set, and it stays set in every state that
the peer reaches afterwards; in each of these states a `Close` makes no call and changes
nothing, `tryToReconnectToLfsx` starts no redial and leaves the peer as it is, and
`SendMessageToLFS` writes nothing. -/
theorem lfsxPeer_closed_latch (p q : lfsxPeer) (err : Option String) (fromWhich : Int)
    (hp : p.Reachable) (hopen : p.wasIntentiallyClosed = false)
    (hreach : Relation.ReflTransGen lfsxPeer.Step (p.Close err fromWhich).1 q) :
    (p.Close err fromWhich).1.wasIntentiallyClosed = true ∧
    q.wasIntentiallyClosed = true ∧
    (∀ e f, q.Close e f = (q, [])) ∧
    q.tryToReconnectToLfsx = (q, false) ∧
    (∀ json, q.SendMessageToLFS json = []) := by
  have hctx : p.contextDone = false := by
    cases hd : p.contextDone with
    | false => rfl
    | true =>
      have := lfsxPeer_Reachable_context p hp hd
      rw [hopen] at this
      exact absurd this (by decide)
  have h0 : (p.Close err fromWhich).1.wasIntentiallyClosed = true := by
    simp [lfsxPeer.Close, hopen, hctx]
  have hq := lfsxPeer_reachable_latched _ _ hreach h0
  refine ⟨h0, hq, fun e f => lfsxPeer_Close_latched q e f hq, ?_, ?_⟩
  · simp [lfsxPeer.tryToReconnectToLfsx, hq]
  · intro json
    simp [lfsxPeer.SendMessageToLFS, hq]

/-- C25 on `controlPeer`: after its first `Close` and a later loss of the pod socket, a
reconnect is not started and the login envelope is not written. -/
theorem lfsxPeer_closed_latch_witness :
    ((controlPeer.Close none 0).1.tryToReconnectToLfsx.1).tryToReconnectToLfsx
      = ((controlPeer.Close none 0).1.tryToReconnectToLfsx.1, false) ∧
    ((controlPeer.Close none 0).1.tryToReconnectToLfsx.1).SendMessageToLFS [123, 125] = [] :=
  ⟨(lfsxPeer_closed_latch controlPeer ((controlPeer.Close none 0).1.tryToReconnectToLfsx.1)
      none 0 (lfsxPeer.Reachable.init controlPeer (by decide) (by decide)) (by decide)
      (Relation.ReflTransGen.single (lfsxPeer.Step.reconnect _))).2.2.2.1,
   (lfsxPeer_closed_latch controlPeer ((controlPeer.Close none 0).1.tryToReconnectToLfsx.1)
      none 0 (lfsxPeer.Reachable.init controlPeer (by decide) (by decide)) (by decide)
      (Relation.ReflTransGen.single (lfsxPeer.Step.reconnect _))).2.2.2.2 [123, 125]⟩

/-! ## Retries of the placeholder claim (kuber/pods.go) -/

theorem createJobForUserAbstract_more_fuel {σ : Type} (k : Kuber σ) (user : User) (fuel : Nat) :
    ∀ (st : Run σ) (r : (Option Pod × Option String) × Run σ) (fuel2 : Nat),
      k.createJobForUserAbstract user fuel st = some r → fuel ≤ fuel2 →
      k.createJobForUserAbstract user fuel2 st = some r := by
  induction fuel with
  | zero =>
    intro st r fuel2 h
    simp [Kuber.createJobForUserAbstract] at h
  | succ n ih =>
    intro st r fuel2 h hle
    obtain ⟨m, rfl⟩ : ∃ m, fuel2 = m + 1 := ⟨fuel2 - 1, by omega⟩
    simp only [Kuber.createJobForUserAbstract] at h ⊢
    cases hl : (k.Client.JobsList k.placeholderSelector st.world).1 with
    | error e =>
      simp only [hl] at h ⊢
      exact h
    | ok items =>
      simp only [hl] at h ⊢
      split at h
      · exact h
      · by_cases hlen : (sortSlice items).length = 0
        · simp only [hlen, if_true] at h ⊢
          exact h
        · simp only [hlen, if_false] at h ⊢
          exact ih _ r m h (by omega)

/-- A round of the outer loop in which the listing is not empty and no patch succeeds is
followed by another round. -/
theorem createJobForUserAbstract_again {σ : Type} (k : Kuber σ) (user : User) (fuel : Nat)
    (st st2 : Run σ) (items : List Job)
    (hlist : (k.Client.JobsList k.placeholderSelector st.world).1 = .ok items)
    (hloop : k.patchLoop user k.placeholderSelector (sortSlice items).length
        (sortSlice items)
        { st with
          world := (k.Client.JobsList k.placeholderSelector st.world).2,
          calls := st.calls ++ [ApiRecord.JobsList k.placeholderSelector (.ok items)] }
      = .fellThrough st2)
    (hlen : (sortSlice items).length ≠ 0) :
    k.createJobForUserAbstract user (fuel + 1) st = k.createJobForUserAbstract user fuel st2 := by
  simp only [Kuber.createJobForUserAbstract, hlist, hloop, hlen, if_false]

theorem exampleKuber_stale_round (fuel : Nat) :
    ∀ st : Run Nat, st.world = 1 →
      (exampleKuber [] ["placeholder-0"]).createJobForUserAbstract alice fuel st = none := by
  induction fuel with
  | zero => intro st _; rfl
  | succ n ih =>
    intro st hw
    obtain ⟨w, calls, spawned⟩ := st
    simp only at hw
    subst hw
    rw [createJobForUserAbstract_again (exampleKuber [] ["placeholder-0"]) alice n
      { world := 1, calls := calls, spawned := spawned }
      { world := 1,
        calls := calls
          ++ [ApiRecord.JobsList (exampleKuber [] ["placeholder-0"]).placeholderSelector
                (.ok [placeholderJob 0])]
          ++ [ApiRecord.JobsPatch "placeholder-0"
                { Labels := Kuber.claimLabels alice, ResourceVersion := "100" }
                (some "conflict")],
        spawned := spawned }
      [placeholderJob 0] rfl rfl (by decide)]
    exact ih _ rfl

/-- C26 as stated fails: on a cluster that keeps listing the one placeholder job
`placeholder-0` and refuses every patch of it, `createJobForUserAbstract` returns for no
number of iterations of its outer loop. -/
theorem createJobForUserAbstract_retries_without_end :
    ¬ ∃ fuel, ((exampleKuber [] ["placeholder-0"]).createJobForUserAbstract alice fuel
        (runOn 1)).isSome = true := by
  rintro ⟨fuel, h⟩
  rw [exampleKuber_stale_round fuel (runOn 1) rfl] at h
  exact absurd h (by decide)

/-- C26 as amended.  One round of the outer loop of `createJobForUserAbstract` ends the call
when the listing of the placeholders fails (the error is returned), when the patch of a
listed job succeeds (the result of the claim is returned), or when the listing is empty (the
two placeholder jobs are started and the bespoke job of the user is created); a round whose
listing is not empty and in which every patch fails is followed by another round, with no
bound on their number; a result, once reached, is the same for every larger bound on the
rounds. -/
theorem createJobForUserAbstract_rounds {σ : Type} (k : Kuber σ) (user : User) (fuel : Nat)
    (st : Run σ) :
    (∀ e, (k.Client.JobsList k.placeholderSelector st.world).1 = .error e →
      k.createJobForUserAbstract user (fuel + 1) st
        = some ((none, some ("failed to find placeholders: " ++ e)),
            { st with
              world := (k.Client.JobsList k.placeholderSelector st.world).2,
              calls := st.calls ++ [ApiRecord.JobsList k.placeholderSelector (.error e)] })) ∧
    (∀ items pod err st2,
      (k.Client.JobsList k.placeholderSelector st.world).1 = .ok items →
      k.patchLoop user k.placeholderSelector (sortSlice items).length
          (sortSlice items)
          { st with
            world := (k.Client.JobsList k.placeholderSelector st.world).2,
            calls := st.calls ++ [ApiRecord.JobsList k.placeholderSelector (.ok items)] }
        = .returned pod err st2 →
      k.createJobForUserAbstract user (fuel + 1) st = some ((pod, err), st2)) ∧
    (∀ items st2,
      (k.Client.JobsList k.placeholderSelector st.world).1 = .ok items →
      k.patchLoop user k.placeholderSelector (sortSlice items).length
          (sortSlice items)
          { st with
            world := (k.Client.JobsList k.placeholderSelector st.world).2,
            calls := st.calls ++ [ApiRecord.JobsList k.placeholderSelector (.ok items)] }
        = .fellThrough st2 →
      ((sortSlice items).length = 0 →
        k.createJobForUserAbstract user (fuel + 1) st
          = some (k.createJodForUser user
              { st2 with spawned := st2.spawned ++ [Task.twoPlaceholders] })) ∧
      ((sortSlice items).length ≠ 0 →
        k.createJobForUserAbstract user (fuel + 1) st
          = k.createJobForUserAbstract user fuel st2)) ∧
    (∀ r fuel2, k.createJobForUserAbstract user fuel st = some r → fuel ≤ fuel2 →
      k.createJobForUserAbstract user fuel2 st = some r) := by
  refine ⟨?_, ?_, ?_, ?_⟩
  · intro e hlist
    simp only [Kuber.createJobForUserAbstract, hlist]
  · intro items pod err st2 hlist hloop
    exact createJobForUserAbstract_pass k user fuel st st2 items pod err hlist hloop
  · intro items st2 hlist hloop
    constructor
    · intro hlen
      simp only [Kuber.createJobForUserAbstract, hlist, hloop]
      rw [if_pos hlen]
    · intro hlen
      exact createJobForUserAbstract_again k user fuel st st2 items hlist hloop hlen
  · intro r fuel2 h hle
    exact createJobForUserAbstract_more_fuel k user fuel st r fuel2 h hle

/-! ## Login handler (api/authentication.go) -/

/-- C27: in production mode a login form with the database `lfsprj` is answered with the
text of status 400, and the handler goes on: it sends the form, with `version=2`, to the LFS
service and hands the cookie of the service to `http.SetCookie`. -/
theorem login_production_wrong_db_goes_on :
    login (loginEnv true) loginRequest (.ok (loginForm "lfsprj"))
      = [LoginEvent.writeText "Invalid db selected in production: lfsprj" 400,
         LoginEvent.upstream
           { url := "http://lfs/user/login",
             form := [("version", ["2"]), ("user", ["ALICE"]), ("password", ["pw"]),
                      ("db", ["lfsprj"])],
             Origin := "javalfs", ContentType := "application/x-www-form-urlencoded" },
         LoginEvent.setCookie
           { Name := "JWTAuthentication", Value := "token", HttpOnly := true, Secure := false,
             SameSiteStrict := true, Domain := "" },
         LoginEvent.setContentType "text/plain",
         LoginEvent.copyBody "ok"] := by
  decide

/-- The part of the login handler that holds: when the form parses and the request to the
service can be built, the form is sent to the service with `version` set to `2`, and when the
mode is not production or the database is `lfs` in some letter case, no text of status 400
is written before it. -/
theorem login_forwards (env : LoginEnv) (r : Request) (form : Form)
    (hreq : env.NewRequestErr = none) :
    LoginEvent.upstream
        { url := env.LfsServiceEndpoint ++ "/user/login", form := form.Set "version" "2",
          Origin := "javalfs", ContentType := r.Header.get "Content-Type" }
      ∈ login env r (.ok form) ∧
    (env.Production = false ∨ strings_ToLower (form.Get "db") = "lfs" →
      (login env r (.ok form)).head?
        = some (LoginEvent.upstream
            { url := env.LfsServiceEndpoint ++ "/user/login", form := form.Set "version" "2",
              Origin := "javalfs", ContentType := r.Header.get "Content-Type" })) := by
  constructor
  · simp only [login, hreq]
    split
    · simp
    · split
      · split <;> simp
      · simp
  · intro h
    have hv : ¬ (env.Production = true ∧ strings_ToLower (form.Get "db") ≠ "lfs") := by
      rintro ⟨h1, h2⟩
      rcases h with h | h
      · rw [h1] at h
        exact absurd h (by decide)
      · exact h2 h
    simp only [login, hreq, hv, if_false, List.nil_append]
    split
    · rfl
    · split
      · split <;> rfl
      · rfl

/-! ## Check of the user connections (lfs/internal/api/vnc/vnc.go) -/

/-- C28 as stated fails: with `WasConnected` set, ten polls in a row that find no connection
leave the process running, with the counter at 10; it exits at the eleventh such poll. -/
theorem checkRun_exits_at_eleventh_poll :
    checkRun { noUsersCount := 0, WasConnected := true } (List.replicate 10 zeroPoll)
      = ({ noUsersCount := 10, WasConnected := true }, 10, none) ∧
    checkRun { noUsersCount := 0, WasConnected := true } (List.replicate 11 zeroPoll)
      = ({ noUsersCount := 11, WasConnected := true }, 11, some ExitReason.noUser) := by
  decide

theorem checkIteration_zero (c : Nat) (p : Poll) (hrtc : p.rtc = 1)
    (herr : p.err ≠ ExecError.other) :
    checkIteration { noUsersCount := c, WasConnected := true } p
      = ({ noUsersCount := c + 1, WasConnected := true },
         if c + 1 > 10 then some ExitReason.noUser else none) := by
  simp only [checkIteration, Bool.true_or, herr, if_false, hrtc, and_self, if_true]
  by_cases h : c + 1 > 10
  · simp [h]
  · simp [h]

theorem checkRun_zero_polls (polls : List Poll) :
    ∀ c, c ≤ 10 → (∀ p ∈ polls, p.rtc = 1 ∧ p.err ≠ ExecError.other) →
      checkRun { noUsersCount := c, WasConnected := true } polls
        = if c + polls.length ≤ 10 then
            ({ noUsersCount := c + polls.length, WasConnected := true }, polls.length, none)
          else ({ noUsersCount := 11, WasConnected := true }, 11 - c, some ExitReason.noUser) := by
  induction polls with
  | nil =>
    intro c hc _
    simp [checkRun, hc]
  | cons p rest ih =>
    intro c hc hall
    have hp := hall p (List.mem_cons_self _ _)
    have hrest : ∀ q ∈ rest, q.rtc = 1 ∧ q.err ≠ ExecError.other :=
      fun q hq => hall q (List.mem_cons_of_mem _ hq)
    simp only [checkRun, checkIteration_zero c p hp.1 hp.2, List.length_cons]
    by_cases h10 : c + 1 > 10
    · have hc10 : c = 10 := by omega
      subst hc10
      simp
    · have hle : c + 1 ≤ 10 := by omega
      simp only [h10, if_false, ih (c + 1) hle hrest]
      by_cases hlen : c + 1 + rest.length ≤ 10
      · have hlen2 : c + (rest.length + 1) ≤ 10 := by omega
        simp only [hlen, hlen2, if_true]
        have : c + 1 + rest.length = c + (rest.length + 1) := by omega
        rw [this]
      · have hlen2 : ¬ c + (rest.length + 1) ≤ 10 := by omega
        simp only [hlen, hlen2, if_false]
        have : 11 - (c + 1) + 1 = 11 - c := by omega
        rw [this]

/-- C28 as amended.  With `WasConnected` set and the counter at `c`, at most 10: over polls
in a row that find no connection, the process keeps running as long as the counter, one more
at each poll, is at most 10, and it exits at the poll that takes the counter to 11; from a
counter of 0 that is the eleventh poll, 5 minutes and 30 seconds after the start of the
count.  A poll that finds a connection sets the counter back to 0. -/
theorem checkRun_no_user_exit (polls : List Poll) (c : Nat) (hc : c ≤ 10)
    (hzero : ∀ p ∈ polls, p.rtc = 1 ∧ p.err ≠ ExecError.other) :
    (checkRun { noUsersCount := c, WasConnected := true } polls
      = if c + polls.length ≤ 10 then
          ({ noUsersCount := c + polls.length, WasConnected := true }, polls.length, none)
        else ({ noUsersCount := 11, WasConnected := true }, 11 - c, some ExitReason.noUser)) ∧
    (∀ (n : Nat) (p : Poll), p.rtc ≠ 1 → p.err ≠ ExecError.other →
      (checkIteration { noUsersCount := n, WasConnected := true } p).1
        = { noUsersCount := 0, WasConnected := true } ∧
      (checkIteration { noUsersCount := n, WasConnected := true } p).2
        ≠ some ExitReason.noUser) := by
  refine ⟨checkRun_zero_polls polls c hc hzero, ?_⟩
  intro n p hrtc herr
  by_cases hup : p.uptimeReached = true
  · simp [checkIteration, herr, hrtc, hup]
  · simp [checkIteration, herr, hrtc, hup]

/-- C28 as amended, on twelve polls that find no connection: the process exits at the
eleventh. -/
theorem checkRun_no_user_exit_witness :
    checkRun { noUsersCount := 0, WasConnected := true } (List.replicate 12 zeroPoll)
      = ({ noUsersCount := 11, WasConnected := true }, 11, some ExitReason.noUser) :=
  (checkRun_no_user_exit (List.replicate 12 zeroPoll) 0 (by decide)
    (fun p hp => by
      rw [List.eq_of_mem_replicate hp]
      decide)).1

/-! ## Integer of the environment (pkg/utils) -/

/-- C29: with the variable `APP_LFS_API_PORT` set to `-5` and the default 4021, `GetEnvInt`
returns -5: the test `val < 1` looks at the default, not at the integer that was read. -/
theorem GetEnvInt_returns_negative :
    GetEnvInt (fun name => if name = "APP_LFS_API_PORT" then some "-5" else none)
        (fun s => if s = "-5" then some (-5) else none) "APP_LFS_API_PORT" 4021 = -5 ∧
    GetEnvInt (fun _ => none) (fun _ => none) "APP_LFS_API_PORT" 4021 = 4021 ∧
    GetEnvInt (fun _ => some "x") (fun _ => none) "APP_LFS_API_PORT" 4021 = 4021 := by
  decide

/-! ## Database of a name (models/user.go) -/

/-- C30 (`NewDatabase` is total onto PRJ, MIG and LFS).  For every name, compared after
lower-casing: `lfsprj` gives PRJ, `lfsmig` gives MIG, `lfs` gives LFS and every other name
gives MIG; the result is never `Unknown`; each of PRJ, MIG and LFS is the result for some
name; the name `LFS` of the enumeration gives LFS, and its names `PRJ` and `MIG` both give
MIG, so that `NewDatabase` does not invert `String` on PRJ. -/
theorem NewDatabase_total (name : String) :
    (strings_ToLower name = "lfsprj" → NewDatabase name = Database.PRJ) ∧
    (strings_ToLower name = "lfsmig" → NewDatabase name = Database.MIG) ∧
    (strings_ToLower name = "lfs" → NewDatabase name = Database.LFS) ∧
    (strings_ToLower name ≠ "lfsprj" → strings_ToLower name ≠ "lfsmig" →
      strings_ToLower name ≠ "lfs" → NewDatabase name = Database.MIG) ∧
    NewDatabase name ≠ Database.Unknown ∧
    (NewDatabase "lfsprj" = Database.PRJ ∧ NewDatabase "lfsmig" = Database.MIG ∧
      NewDatabase "lfs" = Database.LFS) ∧
    NewDatabase Database.LFS.String = Database.LFS ∧
    NewDatabase Database.PRJ.String = Database.MIG ∧
    NewDatabase Database.MIG.String = Database.MIG ∧
    NewDatabase Database.PRJ.String ≠ Database.PRJ := by
  refine ⟨?_, ?_, ?_, ?_, ?_, by decide, by decide, by decide, by decide, by decide⟩
  · intro h
    simp [NewDatabase, h]
  · intro h
    simp [NewDatabase, h]
  · intro h
    simp [NewDatabase, h]
  · intro h1 h2 h3
    simp [NewDatabase, h1, h2, h3]
  · unfold NewDatabase
    split
    · simp
    · split
      · simp
      · split <;> simp

end LfsxWeb
